import Mathlib

/-!
Verification of the Confiture configuration-language toolkit
(`confiture/parser.py`, `confiture/schema/containers.py`,
`confiture/schema/types.py`, and the tree module `dotconf/tree.py`,
which provides the `Position` / `ConfigValue` / `ConfigSection`
classes imported by the `confiture` package).

Modelling conventions, used throughout:
* Python values that can appear as configuration payloads are modelled
  by the tagged sum `Payload` (string / int / float / bool / list).
  Python floats are modelled as exact rationals (`Rat`); every numeric
  literal and arithmetic operation appearing in the source is exact on
  the inputs considered here.
* Python exceptions split in two: `ValidationError` / `ParsingError`
  (carrying a message and an optional `Position`) are modelled as
  explicit error results, and any other Python exception
  (`TypeError`, `AttributeError`, `KeyError`, ...) is modelled by a
  distinguished `crash` result.
* The code mutates its input in two places (`Value.validate` unwraps a
  one-element list in place; `ConfigSection.subsections` reads a
  `defaultdict`, inserting an empty entry for a missing name).  Every
  validation function therefore returns, next to its result, the
  post-state of its input.
* A section's `parent` attribute is a weak back-reference used only for
  upward traversal; it is not part of the tree structure modelled here.
-/

/-- Position of a statement in a file (`dotconf/tree.py`, class `Position`). -/
structure Position where
  file : String
  lineno : Nat
  pos : Nat
deriving DecidableEq, Repr

/-- The sentinel position `Position('?', 0, 0)` used as default for
synthesized nodes (`dotconf/tree.py`, default argument of `ConfigValue`
and `ConfigSection`). -/
def sentinelPos : Position := ⟨"?", 0, 0⟩

/-- A Python value that can appear as a configuration payload:
string, int, float (modelled as an exact rational), bool, or list. -/
inductive Payload where
  | str (s : String)
  | int (n : Int)
  | float (q : Rat)
  | bool (b : Bool)
  | list (l : List Payload)

mutual

def Payload.decEq : (a b : Payload) → Decidable (a = b)
  | .str a, .str b =>
    if h : a = b then .isTrue (by rw [h])
    else .isFalse (by intro hc; injection hc; contradiction)
  | .int a, .int b =>
    if h : a = b then .isTrue (by rw [h])
    else .isFalse (by intro hc; injection hc; contradiction)
  | .float a, .float b =>
    if h : a = b then .isTrue (by rw [h])
    else .isFalse (by intro hc; injection hc; contradiction)
  | .bool a, .bool b =>
    if h : a = b then .isTrue (by rw [h])
    else .isFalse (by intro hc; injection hc; contradiction)
  | .list a, .list b =>
    match Payload.decEqList a b with
    | .isTrue h => .isTrue (by rw [h])
    | .isFalse h => .isFalse (by intro hc; injection hc; contradiction)
  | .str _, .int _ => .isFalse nofun
  | .str _, .float _ => .isFalse nofun
  | .str _, .bool _ => .isFalse nofun
  | .str _, .list _ => .isFalse nofun
  | .int _, .str _ => .isFalse nofun
  | .int _, .float _ => .isFalse nofun
  | .int _, .bool _ => .isFalse nofun
  | .int _, .list _ => .isFalse nofun
  | .float _, .str _ => .isFalse nofun
  | .float _, .int _ => .isFalse nofun
  | .float _, .bool _ => .isFalse nofun
  | .float _, .list _ => .isFalse nofun
  | .bool _, .str _ => .isFalse nofun
  | .bool _, .int _ => .isFalse nofun
  | .bool _, .float _ => .isFalse nofun
  | .bool _, .list _ => .isFalse nofun
  | .list _, .str _ => .isFalse nofun
  | .list _, .int _ => .isFalse nofun
  | .list _, .float _ => .isFalse nofun
  | .list _, .bool _ => .isFalse nofun

def Payload.decEqList : (a b : List Payload) → Decidable (a = b)
  | [], [] => .isTrue rfl
  | [], _ :: _ => .isFalse nofun
  | _ :: _, [] => .isFalse nofun
  | x :: xs, y :: ys =>
    match Payload.decEq x y, Payload.decEqList xs ys with
    | .isTrue h1, .isTrue h2 => .isTrue (by rw [h1, h2])
    | .isFalse h1, _ => .isFalse (by intro hc; injection hc; contradiction)
    | .isTrue _, .isFalse h2 => .isFalse (by intro hc; injection hc; contradiction)

end

instance : DecidableEq Payload := Payload.decEq

/-- A value in the configuration (`dotconf/tree.py`, class `ConfigValue`).
The `name` is `Option String` because the schema system constructs
`ConfigValue(None, default)` nodes whose name is Python `None`. -/
structure ConfigValue where
  name : Option String
  value : Payload
  position : Position
deriving DecidableEq

/-- A (sub-)section of the configuration (`dotconf/tree.py`, class
`ConfigSection`).  `values` models the insertion-ordered dict
`_values`; `subsections` models the insertion-ordered
`defaultdict(list)` `_subsections`.  The weak `parent` back-reference
is not modelled. -/
inductive ConfigSection : Type where
  | mk (name : String) (args : Option ConfigValue) (position : Position)
       (values : List (String × ConfigValue))
       (subsections : List (String × List ConfigSection)) : ConfigSection

mutual

def ConfigSection.decEq : (a b : ConfigSection) → Decidable (a = b)
  | .mk n1 a1 p1 v1 s1, .mk n2 a2 p2 v2 s2 =>
    if h1 : n1 = n2 then
      if h2 : a1 = a2 then
        if h3 : p1 = p2 then
          if h4 : v1 = v2 then
            match ConfigSection.decEqSubsMap s1 s2 with
            | .isTrue h5 => .isTrue (by rw [h1, h2, h3, h4, h5])
            | .isFalse h5 => .isFalse (by intro hc; injection hc; contradiction)
          else .isFalse (by intro hc; injection hc; contradiction)
        else .isFalse (by intro hc; injection hc; contradiction)
      else .isFalse (by intro hc; injection hc; contradiction)
    else .isFalse (by intro hc; injection hc; contradiction)

def ConfigSection.decEqSubsMap :
    (a b : List (String × List ConfigSection)) → Decidable (a = b)
  | [], [] => .isTrue rfl
  | [], _ :: _ => .isFalse nofun
  | _ :: _, [] => .isFalse nofun
  | (k1, l1) :: r1, (k2, l2) :: r2 =>
    if h1 : k1 = k2 then
      match ConfigSection.decEqSecList l1 l2, ConfigSection.decEqSubsMap r1 r2 with
      | .isTrue h2, .isTrue h3 => .isTrue (by rw [h1, h2, h3])
      | .isFalse h2, _ =>
        .isFalse (by intro hc; injection hc with hp _; injection hp; contradiction)
      | .isTrue _, .isFalse h3 =>
        .isFalse (by intro hc; injection hc; contradiction)
    else .isFalse (by intro hc; injection hc with hp _; injection hp; contradiction)

def ConfigSection.decEqSecList : (a b : List ConfigSection) → Decidable (a = b)
  | [], [] => .isTrue rfl
  | [], _ :: _ => .isFalse nofun
  | _ :: _, [] => .isFalse nofun
  | x :: xs, y :: ys =>
    match ConfigSection.decEq x y, ConfigSection.decEqSecList xs ys with
    | .isTrue h1, .isTrue h2 => .isTrue (by rw [h1, h2])
    | .isFalse h1, _ => .isFalse (by intro hc; injection hc; contradiction)
    | .isTrue _, .isFalse h2 => .isFalse (by intro hc; injection hc; contradiction)

end

instance : DecidableEq ConfigSection := ConfigSection.decEq

def ConfigSection.name : ConfigSection → String
  | .mk n _ _ _ _ => n

def ConfigSection.argsRaw : ConfigSection → Option ConfigValue
  | .mk _ a _ _ _ => a

def ConfigSection.position : ConfigSection → Position
  | .mk _ _ p _ _ => p

def ConfigSection.values : ConfigSection → List (String × ConfigValue)
  | .mk _ _ _ v _ => v

def ConfigSection.subsectionsMap : ConfigSection → List (String × List ConfigSection)
  | .mk _ _ _ _ s => s

/-- The `args` property: payload of `_args` when present (`dotconf/tree.py`). -/
def ConfigSection.args (s : ConfigSection) : Option Payload :=
  match s.argsRaw with
  | some v => some v.value
  | none => none

/-- Membership in an association list by key (Python `in` on a dict). -/
def keyMem (name : String) : List (String × α) → Bool
  | [] => false
  | (k, _) :: rest => k == name || keyMem name rest

/-- Lookup in an association list (Python `dict.get`). -/
def keyGet (name : String) : List (String × α) → Option α
  | [] => none
  | (k, v) :: rest => if k == name then some v else keyGet name rest

/-- `ConfigSection.__contains__`: a name is a child of the section if it
is in `_values` or in `_subsections`. -/
def ConfigSection.contains (s : ConfigSection) (name : String) : Bool :=
  keyMem name s.values || keyMem name s.subsectionsMap

/-- Append `sub` to the entry of `name` (Python
`self._subsections[name].append(child)` on a `defaultdict(list)`:
creates the entry if missing, preserving key insertion order). -/
def insertAppend (name : String) (sub : ConfigSection) :
    List (String × List ConfigSection) → List (String × List ConfigSection)
  | [] => [(name, [sub])]
  | (k, l) :: rest =>
    if k == name then (k, l ++ [sub]) :: rest
    else (k, l) :: insertAppend name sub rest

/-- A child to be registered on a section: a value or a section. -/
inductive Child where
  | value (v : ConfigValue)
  | section (s : ConfigSection)
deriving DecidableEq

def Child.childName : Child → Option String
  | .value v => v.name
  | .section s => some s.name

def Child.position : Child → Position
  | .value v => v.position
  | .section s => s.position

/-- `ConfigSection.register(child, name=None)` (`dotconf/tree.py`,
lines 90-106).  A `KeyError` is modelled as `Except.error`; passing
`none` as `name` uses `child.name` (a Python `None` name would make the
later dict lookups use `None` as key; the parser and the schema system
always supply a named child or an explicit name). -/
def ConfigSection.register (s : ConfigSection) (child : Child)
    (nameArg : Option String) : Except String ConfigSection :=
  match nameArg.orElse (fun _ => child.childName) with
  | none => .error "child has no name"
  | some n =>
    match child with
    | .value v =>
      if s.contains n then .error "A child with this name already exists"
      else .ok (.mk s.name s.argsRaw s.position (s.values ++ [(n, v)]) s.subsectionsMap)
    | .section sub =>
      if keyMem n s.values then .error "A child with this name already exists"
      else .ok (.mk s.name s.argsRaw s.position s.values
                   (insertAppend n sub s.subsectionsMap))

/-- `ConfigSection.get(name, default=None, raw=True)` restricted to the
`raw=False` use made by the schema system: return the `ConfigValue`
registered under `name`, or `None`. -/
def ConfigSection.get (s : ConfigSection) (name : String) : Option ConfigValue :=
  keyGet name s.values

/-- `ConfigSection.subsections(name)`: iterate the subsections of that
name.  Reading `self._subsections[name]` on a `defaultdict` inserts an
empty entry when the name is absent, so the (possibly mutated) section
is returned alongside the list. -/
def ConfigSection.subsections (s : ConfigSection) (name : String) :
    List ConfigSection × ConfigSection :=
  match keyGet name s.subsectionsMap with
  | some l => (l, s)
  | none =>
    ([], .mk s.name s.argsRaw s.position s.values (s.subsectionsMap ++ [(name, [])]))

/-- Expand a subsections map into one pair per occurrence
(`((k, v) for k, l in self._subsections.items() for v in l)`). -/
def expandSubs (m : List (String × List ConfigSection)) : List (String × ConfigSection) :=
  m.flatMap (fun p => p.2.map (fun sub => (p.1, sub)))

/-- `ConfigSection.iteritems(expand_sections=True)`: every value pair,
then every individual subsection occurrence. -/
def ConfigSection.iteritemsExpanded (s : ConfigSection) : List (String × Child) :=
  s.values.map (fun p => (p.1, Child.value p.2))
    ++ (expandSubs s.subsectionsMap).map (fun p => (p.1, Child.section p.2))

/-!
## Lexer: the NUMBER token

`ConfitureLexer.t_NUMBER` (confiture/parser.py lines 115-121) receives
the text matched by the regex `[-+]?[0-9]+(\.[0-9]+)?` and converts it
with `int(...)` when `text.isdigit()` and with `float(...)` otherwise.
Token texts are modelled as `List Char`.
-/

/-- ASCII digit test. -/
def isDig (c : Char) : Bool := decide ('0' ≤ c) && decide (c ≤ '9')

/-- Python `str.isdigit()` restricted to ASCII text: non-empty and all
characters are digits (a sign or a dot makes it `False`). -/
def pyIsdigit (l : List Char) : Bool := !l.isEmpty && l.all isDig

def digitVal (c : Char) : Nat := c.toNat - 48

/-- Numeric value of a digit string. -/
def natOfDigits (l : List Char) : Nat := l.foldl (fun a c => 10 * a + digitVal c) 0

/-- Strip an optional leading `+`/`-`, returning the sign as a factor. -/
def parseSign : List Char → Int × List Char
  | [] => (1, [])
  | c :: r =>
    if c = '+' then (1, r)
    else if c = '-' then (-1, r)
    else (1, c :: r)

/-- Split at the first `.`, if any. -/
def splitDot : List Char → List Char × Option (List Char)
  | [] => ([], none)
  | c :: r =>
    if c = '.' then ([], some r)
    else
      let p := splitDot r
      (c :: p.1, p.2)

/-- Whether the text fully matches `[-+]?[0-9]+(\.[0-9]+)?`. -/
def matchesNumberRegex (l : List Char) : Bool :=
  let r := (parseSign l).2
  let p := splitDot r
  !p.1.isEmpty && p.1.all isDig &&
    (match p.2 with
     | none => true
     | some f => !f.isEmpty && f.all isDig)

/-- Python `int(text)` on a signed digit string. -/
def pyIntVal (l : List Char) : Int :=
  let s := parseSign l
  s.1 * natOfDigits s.2

/-- Python `float(text)` on a number literal, as an exact rational
(built with a single `mkRat` so that it evaluates in the kernel:
`Rat` arithmetic operations are irreducible). -/
def pyFloatVal (l : List Char) : Rat :=
  let s := parseSign l
  let p := splitDot s.2
  let flen := match p.2 with | none => 0 | some f => f.length
  let fval := match p.2 with | none => 0 | some f => natOfDigits f
  mkRat (s.1 * (natOfDigits p.1 * 10 ^ flen + fval)) (10 ^ flen)

/-- The value of `pyFloatVal` as the usual signed decimal expression. -/
theorem pyFloatVal_value (l : List Char) :
    pyFloatVal l = ((parseSign l).1 : Rat) *
      ((natOfDigits (splitDot (parseSign l).2).1 : Rat) +
        (match (splitDot (parseSign l).2).2 with
         | none => (0 : Rat)
         | some f => (natOfDigits f : Rat) / (10 : Rat) ^ f.length)) := by
  unfold pyFloatVal
  cases h : (splitDot (parseSign l).2).2 with
  | none =>
    simp only [h, Rat.mkRat_eq_div]
    push_cast
    ring
  | some f =>
    simp only [h, Rat.mkRat_eq_div]
    have hpow : ((10 : Rat) ^ f.length) ≠ 0 := by positivity
    push_cast
    field_simp

/-- `ConfitureLexer.t_NUMBER`: payload of a NUMBER token. -/
def t_NUMBER (l : List Char) : Payload :=
  if pyIsdigit l then .int (pyIntVal l) else .float (pyFloatVal l)


theorem isDig_ne_dot {c : Char} (h : isDig c = true) : ¬c = '.' := by
  intro hc; rw [hc] at h; exact absurd h (by decide)

theorem isDig_ne_plus {c : Char} (h : isDig c = true) : ¬c = '+' := by
  intro hc; rw [hc] at h; exact absurd h (by decide)

theorem isDig_ne_minus {c : Char} (h : isDig c = true) : ¬c = '-' := by
  intro hc; rw [hc] at h; exact absurd h (by decide)

theorem splitDot_all_dig (l : List Char) (h : l.all isDig = true) :
    splitDot l = (l, none) := by
  induction l with
  | nil => rfl
  | cons c r ih =>
    simp only [List.all_cons, Bool.and_eq_true] at h
    simp [splitDot, isDig_ne_dot h.1, ih h.2]

theorem splitDot_append_dot (ip fp : List Char) (h : ip.all isDig = true) :
    splitDot (ip ++ '.' :: fp) = (ip, some fp) := by
  induction ip with
  | nil => simp [splitDot]
  | cons c r ih =>
    simp only [List.all_cons, Bool.and_eq_true] at h
    simp [splitDot, isDig_ne_dot h.1, ih h.2]

theorem parseSign_cons_dig {c : Char} (r : List Char) (h : isDig c = true) :
    parseSign (c :: r) = (1, c :: r) := by
  simp [parseSign, isDig_ne_plus h, isDig_ne_minus h]

/-- Sign factor of an optional leading sign character. -/
def signFactor : Option Char → Int
  | some c => if c = '-' then -1 else 1
  | none => 1

/-- A string matching `[-+]?[0-9]+(\.[0-9]+)?`, built from its parts:
optional sign character, integer digits, optional fractional digits
(empty list meaning no dot). -/
def renderNum (sg : Option Char) (ip fp : List Char) : List Char :=
  (match sg with | some c => [c] | none => []) ++ ip ++
    (if fp.isEmpty then [] else '.' :: fp)

@[simp] theorem isDig_dot : isDig '.' = false := by decide

@[simp] theorem isDig_plus : isDig '+' = false := by decide

@[simp] theorem isDig_minus : isDig '-' = false := by decide

@[simp] theorem natOfDigits_nil : natOfDigits [] = 0 := rfl

/-- The payload of a NUMBER token, by the shape of the matched text:
an integer exactly when the text has no sign and no dot, a float (of
the signed decimal value) otherwise. -/
theorem t_NUMBER_renderNum :
    (∀ (sg : Option Char) (ip fp : List Char),
      (sg = none ∨ sg = some '+' ∨ sg = some '-') →
      ip ≠ [] → ip.all isDig = true → fp.all isDig = true →
      t_NUMBER (renderNum sg ip fp) =
        (if sg = none ∧ fp = [] then Payload.int (natOfDigits ip)
         else Payload.float ((signFactor sg : Rat) *
           ((natOfDigits ip : Rat) + (natOfDigits fp : Rat) / (10 : Rat) ^ fp.length)))) := by
  intro sg ip fp hsg hip hall hfp
  obtain ⟨c, r, rfl⟩ : ∃ c r, ip = c :: r := by
    cases ip with
    | nil => exact absurd rfl hip
    | cons c r => exact ⟨c, r, rfl⟩
  simp only [List.all_cons, Bool.and_eq_true] at hall
  by_cases hfpe : fp = []
  · subst hfpe
    have hsd : splitDot (c :: r) = (c :: r, none) :=
      splitDot_all_dig _ (by simp [List.all_cons, hall.1, hall.2])
    rcases hsg with rfl | rfl | rfl
    · simp [renderNum, t_NUMBER, pyIsdigit, List.all_cons, hall.1, hall.2,
        pyIntVal, parseSign_cons_dig _ hall.1]
    · have hpd : pyIsdigit ('+' :: c :: r) = false := by simp [pyIsdigit]
      simp [renderNum, t_NUMBER, hpd, pyFloatVal_value, parseSign, signFactor, hsd]
    · have hpd : pyIsdigit ('-' :: c :: r) = false := by simp [pyIsdigit]
      simp [renderNum, t_NUMBER, hpd, pyFloatVal_value, parseSign, signFactor, hsd]
  · have hne : (fp.isEmpty) = false := by
      cases fp with
      | nil => exact absurd rfl hfpe
      | cons _ _ => rfl
    have hsd : splitDot (c :: (r ++ '.' :: fp)) = (c :: r, some fp) := by
      simpa using splitDot_append_dot (c :: r) fp (by simp [List.all_cons, hall.1, hall.2])
    have hif : (sg = none ∧ fp = []) = False := by simp [hfpe]
    rcases hsg with rfl | rfl | rfl
    · have hpd : pyIsdigit (c :: (r ++ '.' :: fp)) = false := by
        simp [pyIsdigit, List.all_cons, List.all_append]
      have hps : parseSign (c :: (r ++ '.' :: fp)) = (1, c :: (r ++ '.' :: fp)) :=
        parseSign_cons_dig _ hall.1
      simp [renderNum, hne, t_NUMBER, hpd, pyFloatVal_value, signFactor, hps, hsd, hfpe]
    · have hpd : pyIsdigit ('+' :: (c :: (r ++ '.' :: fp))) = false := by
        simp [pyIsdigit, List.all_cons]
      simp [renderNum, hne, t_NUMBER, hpd, pyFloatVal_value, signFactor, parseSign, hsd]
    · have hpd : pyIsdigit ('-' :: (c :: (r ++ '.' :: fp))) = false := by
        simp [pyIsdigit, List.all_cons]
      simp [renderNum, hne, t_NUMBER, hpd, pyFloatVal_value, signFactor, parseSign, hsd]

/-- Claim C1 (counterexample): the lexer does NOT produce an integer
payload for "+42": `'+42'.isdigit()` is `False` in Python, so
`t_NUMBER` converts the text with `float(...)`, producing the float
payload `42.0`, not the integer payload `42` the claim states. -/
theorem c1_counterexample :
    t_NUMBER ['+', '4', '2'] = Payload.float 42 ∧
    ¬t_NUMBER ['+', '4', '2'] = Payload.int 42 := by
  constructor
  · simp [t_NUMBER, pyIsdigit, isDig, pyFloatVal_value, parseSign, splitDot,
      natOfDigits, digitVal]
  · simp [t_NUMBER, pyIsdigit, isDig]

/-- Claim C1 (amended): for every input string matching
`[-+]?[0-9]+(\.[0-9]+)?` the lexer produces a NUMBER token whose
payload is an integer exactly when the string consists solely of
digits (no sign and no dot), and a float of the signed decimal value
otherwise; in particular lexing "+42" yields the float payload 42.0,
lexing "-42" yields the float payload -42.0, lexing "42" yields the
integer payload 42, and lexing "42.1" yields the float payload 42.1. -/
theorem c1_number_token_payload :
    (∀ (sg : Option Char) (ip fp : List Char),
      (sg = none ∨ sg = some '+' ∨ sg = some '-') →
      ip ≠ [] → ip.all isDig = true → fp.all isDig = true →
      t_NUMBER (renderNum sg ip fp) =
        (if sg = none ∧ fp = [] then Payload.int (natOfDigits ip)
         else Payload.float ((signFactor sg : Rat) *
           ((natOfDigits ip : Rat) + (natOfDigits fp : Rat) / (10 : Rat) ^ fp.length)))) ∧
    t_NUMBER ['+', '4', '2'] = Payload.float 42 ∧
    t_NUMBER ['-', '4', '2'] = Payload.float (-42) ∧
    t_NUMBER ['4', '2'] = Payload.int 42 ∧
    t_NUMBER ['4', '2', '.', '1'] = Payload.float (421 / 10) := by
  refine ⟨t_NUMBER_renderNum, ?_, ?_, ?_, ?_⟩
  · simp [t_NUMBER, pyIsdigit, isDig, pyFloatVal_value, parseSign, splitDot,
      natOfDigits, digitVal]
  · simp [t_NUMBER, pyIsdigit, isDig, pyFloatVal_value, parseSign, splitDot,
      natOfDigits, digitVal]
  · decide
  · simp [t_NUMBER, pyIsdigit, isDig, pyFloatVal_value, parseSign, splitDot,
      natOfDigits, digitVal]
    norm_num

/-- Witness for `c1_number_token_payload`, instantiating the
quantified part at the text "-42". -/
theorem c1_number_token_payload_witness :
    t_NUMBER (renderNum (some '-') ['4', '2'] []) = Payload.float (-42) := by
  have h := c1_number_token_payload.1 (some '-') ['4', '2'] []
    (by simp) (by simp) (by decide) (by decide)
  simp only [signFactor, natOfDigits, digitVal] at h
  simpa using h

/-!
## Claim C9: `ConfigSection.register`
-/

theorem keyGet_insertAppend_same (n : String) (sub : ConfigSection) (l : List ConfigSection)
    (m : List (String × List ConfigSection)) (h : keyGet n m = some l) :
    keyGet n (insertAppend n sub m) = some (l ++ [sub]) := by
  induction m with
  | nil => simp [keyGet] at h
  | cons p rest ih =>
    obtain ⟨k, v⟩ := p
    by_cases hk : k = n
    · subst hk
      simp [keyGet] at h
      simp [insertAppend, keyGet, h]
    · simp [keyGet, hk] at h
      simp [insertAppend, keyGet, hk, ih h]

/-- Claim C9: within a section a name identifies either a value or
subsections, never both.  Registering a `ConfigValue` under a name
already present (as a value or as a subsection) raises `KeyError`;
registering a `ConfigSection` under a name holding a value raises
`KeyError`; registering a `ConfigSection` under a name that already
names subsections appends it to that name's ordered sequence. -/
theorem c9_register_value_or_subsections :
    ∀ (s : ConfigSection) (n : String),
      (∀ v : ConfigValue, s.contains n = true →
        s.register (.value v) (some n) = .error "A child with this name already exists") ∧
      (∀ sub : ConfigSection, keyMem n s.values = true →
        s.register (.section sub) (some n) = .error "A child with this name already exists") ∧
      (∀ sub : ConfigSection, ∀ l : List ConfigSection,
        keyMem n s.values = false → keyGet n s.subsectionsMap = some l →
        s.register (.section sub) (some n) =
          .ok (.mk s.name s.argsRaw s.position s.values
                (insertAppend n sub s.subsectionsMap)) ∧
        keyGet n (insertAppend n sub s.subsectionsMap) = some (l ++ [sub])) := by
  intro s n
  refine ⟨?_, ?_, ?_⟩
  · intro v h
    simp [ConfigSection.register, Option.orElse, h]
  · intro sub h
    simp [ConfigSection.register, Option.orElse, h]
  · intro sub l hv hg
    exact ⟨by simp [ConfigSection.register, Option.orElse, hv],
           keyGet_insertAppend_same n sub l s.subsectionsMap hg⟩

/-- Witness for `c9_register_value_or_subsections`: a section holding
subsections named "a"; registering a value named "a" errors and
registering a further section appends. -/
theorem c9_register_witness :
    (ConfigSection.mk "s" none sentinelPos []
        [("a", [ConfigSection.mk "a" none sentinelPos [] []])]).register
      (.value ⟨some "a", Payload.int 1, sentinelPos⟩) (some "a")
      = .error "A child with this name already exists" ∧
    (ConfigSection.mk "s" none sentinelPos []
        [("a", [ConfigSection.mk "a" none sentinelPos [] []])]).register
      (.section (ConfigSection.mk "a" none sentinelPos [] [])) (some "a")
      = .ok (ConfigSection.mk "s" none sentinelPos []
          [("a", [ConfigSection.mk "a" none sentinelPos [] [],
                  ConfigSection.mk "a" none sentinelPos [] []])]) := by
  constructor
  · exact (c9_register_value_or_subsections _ "a").1 _ (by decide)
  · have h := ((c9_register_value_or_subsections
      (ConfigSection.mk "s" none sentinelPos []
        [("a", [ConfigSection.mk "a" none sentinelPos [] []])]) "a").2.2
      (ConfigSection.mk "a" none sentinelPos [] [])
      [ConfigSection.mk "a" none sentinelPos [] []] (by decide) (by decide)).1
    simpa [insertAppend, ConfigSection.name, ConfigSection.argsRaw,
      ConfigSection.position, ConfigSection.values, ConfigSection.subsectionsMap] using h

/-!
## Python value semantics used by the schema system

`pyEq` models Python `==` on payloads (numeric cross-type equality:
`42 == 42.0 == True+41`; `bool` is a subclass of `int`).  `pyRepr`
models Python `repr` (for floats, via the exact rational value; for
strings, always single-quoted).  `pyTuple` models `tuple(x)`
(`TypeError` for non-iterables as `none`).
-/

/-- Numeric value of a payload, when Python treats it as a number
(`isinstance(x, numbers.Number)` is true for `int`, `float`, `bool`). -/
def numVal : Payload → Option Rat
  | .int n => some (n : Rat)
  | .float q => some q
  | .bool b => some (if b then 1 else 0)
  | _ => none

mutual

/-- Python `==` on payloads. -/
def pyEq : Payload → Payload → Bool
  | .list a, .list b => pyEqList a b
  | .str a, .str b => a == b
  | a, b =>
    match numVal a, numVal b with
    | some x, some y => x == y
    | _, _ => false

def pyEqList : List Payload → List Payload → Bool
  | [], [] => true
  | x :: xs, y :: ys => pyEq x y && pyEqList xs ys
  | _, _ => false

end

def padLeftZeros (s : String) (k : Nat) : String :=
  String.mk (List.replicate (k - s.length) '0') ++ s

/-- Python `repr` of a float, computed from the exact rational value
(Python's shortest-roundtrip repr agrees with the exact decimal
expansion for the values arising in the claims). -/
def pyReprFloat (q : Rat) : String :=
  let sign := if q.num < 0 then "-" else ""
  match (List.range 400).find? (fun k => 10 ^ k % q.den == 0) with
  | some k =>
    if k = 0 then sign ++ toString q.num.natAbs ++ ".0"
    else
      let m := q.num.natAbs * (10 ^ k / q.den)
      sign ++ toString (m / 10 ^ k) ++ "." ++ padLeftZeros (toString (m % 10 ^ k)) k
  | none => sign ++ toString q.num.natAbs ++ "/" ++ toString q.den

mutual

/-- Python `repr` of a payload (strings rendered single-quoted). -/
def pyRepr : Payload → String
  | .str s => "'" ++ s ++ "'"
  | .int n => toString n
  | .float q => pyReprFloat q
  | .bool b => if b then "True" else "False"
  | .list l => "[" ++ pyReprList l ++ "]"

def pyReprList : List Payload → String
  | [] => ""
  | [x] => pyRepr x
  | x :: rest => pyRepr x ++ ", " ++ pyReprList rest

end

/-- Python `tuple(x)`: lists yield their elements, strings their
characters (as one-character strings); other payloads are not
iterable (`TypeError`). -/
def pyTuple : Payload → Option (List Payload)
  | .list l => some l
  | .str s => some (s.data.map (fun ch => .str (String.mk [ch])))
  | _ => none


/-!
## Schema types (`confiture/schema/types.py`)

The claims exercise the scalar types `Number`, `Integer(min, max)`,
`Float`, `Boolean` and `String` (without encoding); these are embedded
here.  `validate` raises `ValidationError` with a message; positions
are attached by the containers.
-/

deriving instance DecidableEq for Except

inductive SType where
  | number
  | integer (min max : Option Int)
  | float
  | boolean
  | string
deriving DecidableEq

/-- `Type.validate` for the embedded scalar types.
`Number.validate` accepts any `numbers.Number` (ints, floats, bools)
and returns it unchanged; `Integer` additionally requires
`int(value) == value`, returns `int(value)` and checks the bounds;
`Float` returns `float(value)`; `Boolean` accepts exactly `True` and
`False` (identity comparison); `String` without encoding returns its
input unchanged (no check). -/
def typeValidate : SType → Payload → Except String Payload
  | .number, v =>
    match numVal v with
    | some _ => .ok v
    | none => .error (pyRepr v ++ " is not a number")
  | .integer mn mx, v =>
    match numVal v with
    | none => .error (pyRepr v ++ " is not a number")
    | some q =>
      if q.den = 1 then
        if (match mn with | some m => decide (q.num < m) | none => false) then
          .error (pyRepr (.int q.num) ++ " is lower than the minimum (" ++
            toString (mn.getD 0) ++ ")")
        else if (match mx with | some m => decide (q.num > m) | none => false) then
          .error (pyRepr (.int q.num) ++ " is greater than the maximum (" ++
            toString (mx.getD 0) ++ ")")
        else .ok (.int q.num)
      else .error (pyRepr v ++ " is not an integer value")
  | .float, v =>
    match numVal v with
    | some q => .ok (.float q)
    | none => .error (pyRepr v ++ " is not a number")
  | .boolean, v =>
    match v with
    | .bool b => .ok (.bool b)
    | _ => .error (pyRepr v ++ " is not a boolean value")
  | .string, v => .ok v


/-!
## Schema containers (`confiture/schema/containers.py`)

The claims exercise `Value`, `Choice` and `Section`; these containers
are embedded.  A `Section` schema's `meta` options and its (ordered,
duplicate-free) field dict are inlined into the constructor; the
`required` sentinel default is `none`.  The `_argparse_value` override
slot is `None` unless a CLI integration stores into it, and is not
modelled.

Every validator returns a pair: the Python result (value raised or
returned) and the post-state of its input, because the source mutates
its input in two places (the in-place one-element-list unwrap in
`Value.validate`/`Choice.validate`, and the `defaultdict` growth in
`ConfigSection.subsections`).
-/

/-- A validation-time error: `ve` is a `ValidationError` (message and
optional position); `crash` is any other Python exception. -/
inductive VErr where
  | ve (msg : String) (pos : Option Position)
  | crash (what : String)
deriving DecidableEq

/-- A schema container: `Value(type, default)`, `Choice(choices,
default)` or `Section` with its meta options (`args`, `unique`,
`repeat=(rmin, rmax)`, `allow_unknown`) and its field declarations. -/
inductive Container where
  | value (t : SType) (default : Option Payload)
  | choice (choices : List (Payload × Payload)) (default : Option Payload)
  | section (argsc : Option Container) (unique : Bool) (rmin : Int)
      (rmax : Option Int) (allowUnknown : Bool)
      (fields : List (String × Container))

/-- A Python object reaching a `validate` call: `None`, a
`ConfigValue`, or a `ConfigSection`. -/
inductive Obj where
  | pynone
  | value (v : ConfigValue)
  | section (s : ConfigSection)
deriving DecidableEq

def objOfOpt : Option ConfigValue → Obj
  | some v => .value v
  | none => .pynone

def optOfObj : Obj → Option ConfigValue
  | .value v => some v
  | _ => none

/-- The common type-validation tail of `Value.validate`: delegate to
the type, re-raising with the input's position, and rebuild a fresh
`ConfigValue` carrying the input's name and position. -/
def valueTypeStep (t : SType) (v : ConfigValue) : Except VErr ConfigValue :=
  match typeValidate t v.value with
  | .error msg => .error (.ve msg (some v.position))
  | .ok w => .ok ⟨v.name, w, v.position⟩

/-- `Value.validate` (containers.py lines 68-87).  Absent input:
required error or default with sentinel position.  A one-element list
payload is unwrapped *in place* (the post-state input carries the
unwrapped payload); a list of any other length raises
`'<repr> is a list'`. -/
def valueValidate (t : SType) (d : Option Payload) (input : Option ConfigValue) :
    Except VErr ConfigValue × Option ConfigValue :=
  match input with
  | none =>
    match d with
    | none => (.error (.ve "this value is required" none), none)
    | some dv => (.ok ⟨none, dv, sentinelPos⟩, none)
  | some v =>
    match v.value with
    | .list [x] =>
      let v2 : ConfigValue := ⟨v.name, x, v.position⟩
      (valueTypeStep t v2, some v2)
    | .list l =>
      (.error (.ve (pyRepr (.list l) ++ " is a list") (some v.position)), some v)
    | _ => (valueTypeStep t v, some v)

/-- The choice-lookup tail of `Choice.validate`: dict membership by
Python `==` over the acceptable keys; a mismatch raises
`'bad choice (must be one of <keys>)'` with no position. -/
def choiceStep (choices : List (Payload × Payload)) (v : ConfigValue) :
    Except VErr ConfigValue :=
  match choices.find? (fun p => pyEq p.1 v.value) with
  | some p => .ok ⟨v.name, p.2, v.position⟩
  | none =>
    .error (.ve ("bad choice (must be one of " ++
      String.intercalate ", " (choices.map (fun p => pyRepr p.1)) ++ ")") none)

/-- `Choice.validate` (containers.py lines 128-148): same absence,
default and list-unwrap behaviour as `Value.validate`, then the choice
lookup. -/
def choiceValidate (choices : List (Payload × Payload)) (d : Option Payload)
    (input : Option ConfigValue) : Except VErr ConfigValue × Option ConfigValue :=
  match input with
  | none =>
    match d with
    | none => (.error (.ve "this value is required" none), none)
    | some dv => (.ok ⟨none, dv, sentinelPos⟩, none)
  | some v =>
    match v.value with
    | .list [x] =>
      let v2 : ConfigValue := ⟨v.name, x, v.position⟩
      (choiceStep choices v2, some v2)
    | .list l =>
      (.error (.ve (pyRepr (.list l) ++ " is a list") (some v.position)), some v)
    | _ => (choiceStep choices v, some v)

/-- Replace the entry of key `n` in an association list. -/
def setEntry (n : String) (x : α) : List (String × α) → List (String × α)
  | [] => []
  | (k, v) :: rest => if k == n then (k, x) :: rest else (k, v) :: setEntry n x rest

def sectionWithArgs (s : ConfigSection) (a : Option ConfigValue) : ConfigSection :=
  .mk s.name a s.position s.values s.subsectionsMap

def setValueEntry (s : ConfigSection) (n : String) (v : ConfigValue) : ConfigSection :=
  .mk s.name s.argsRaw s.position (setEntry n v s.values) s.subsectionsMap

def setSubsEntry (s : ConfigSection) (n : String) (l : List ConfigSection) : ConfigSection :=
  .mk s.name s.argsRaw s.position s.values (setEntry n l s.subsectionsMap)

/-- The unique-args key of one subsection occurrence: `None` when it
has no args, otherwise `tuple(subsection.args)` (a `TypeError` crash
when the args payload is not iterable). -/
def uniqueKeyOf (sub : ConfigSection) : Except VErr (Option (List Payload)) :=
  match sub.args with
  | none => .ok none
  | some p =>
    match pyTuple p with
    | some tup => .ok (some tup)
    | none => .error (.crash "TypeError: object is not iterable")

/-- Python `==` on unique-args keys (`None` equals only `None`). -/
def optListPyEq : Option (List Payload) → Option (List Payload) → Bool
  | none, none => true
  | some a, some b => pyEqList a b
  | _, _ => false

/-- Membership in the set of already-seen unique-args keys. -/
def keyMemPy (k : Option (List Payload)) (seen : List (Option (List Payload))) : Bool :=
  seen.any (fun k2 => optListPyEq k k2)

/-- The unknown-key sweep at the end of `Section.validate` (lines
398-405): iterate the expanded children of the (post-mutation) input;
an undeclared name either fails `'section <name>, unknown key <key>'`
at the child's position, or (with `allow_unknown`) registers the
original child unchanged into the output. -/
def sweepUnknown (fields : List (String × Container)) (allowU : Bool)
    (sName : String) (items : List (String × Child)) (out : ConfigSection) :
    Except VErr ConfigSection :=
  match items with
  | [] => .ok out
  | (n, child) :: rest =>
    if keyMem n fields then sweepUnknown fields allowU sName rest out
    else if allowU then
      match out.register child (some n) with
      | .ok out2 => sweepUnknown fields allowU sName rest out2
      | .error e => .error (.crash e)
    else .error (.ve ("section " ++ sName ++ ", unknown key " ++ n) (some child.position))

/-- Whether `rmax is not None and rmin > rmax`. -/
def rminGtRmax (rmin : Int) (rmax : Option Int) : Bool :=
  match rmax with
  | some mx => decide (rmin > mx)
  | none => false

/-- Whether `rmax is not None and count > rmax`. -/
def countGtRmax (cnt : Int) (rmax : Option Int) : Bool :=
  match rmax with
  | some mx => decide (cnt > mx)
  | none => false

mutual

/-- `Container.validate` dispatch: `Value` and `Choice` operate on an
optional `ConfigValue` (a `ConfigSection` input would crash accessing
`.value`); `Section.validate` (containers.py lines 340-406) rejects
non-sections, validates args, fields and unknown keys, building a
fresh output section.  The second component is the post-state of the
input object. -/
def validateC (c : Container) (o : Obj) : Except VErr Obj × Obj :=
  match c with
  | .value t d =>
    match o with
    | .section _ =>
      (.error (.crash "AttributeError: ConfigSection object has no attribute value"), o)
    | _ =>
      let r := valueValidate t d (optOfObj o)
      (r.1.map .value, objOfOpt r.2)
  | .choice ch d =>
    match o with
    | .section _ =>
      (.error (.crash "AttributeError: ConfigSection object has no attribute value"), o)
    | _ =>
      let r := choiceValidate ch d (optOfObj o)
      (r.1.map .value, objOfOpt r.2)
  | .section argsc _ _ _ allowU fields =>
    match o with
    | .pynone => (.error (.ve "Not a section" none), o)
    | .value _ => (.error (.ve "Not a section" none), o)
    | .section s =>
      match argsc with
      | none =>
        match s.args with
        | some _ =>
          (.error (.ve ("section " ++ s.name ++
            ", this section does not take any argument") (some s.position)), .section s)
        | none =>
          validateSectionBody allowU fields s
            (.mk s.name none s.position [] [])
      | some ac =>
        let r := validateC ac (objOfOpt s.argsRaw)
        let s2 := sectionWithArgs s (optOfObj r.2)
        match r.1 with
        | .error (.ve msg pos) =>
          (.error (.ve ("section " ++ s.name ++ ", arguments, " ++ msg) pos), .section s2)
        | .error (.crash w) => (.error (.crash w), .section s2)
        | .ok (.value av) =>
          validateSectionBody allowU fields s2
            (.mk s.name (some av) s.position [] [])
        | .ok _ =>
          (.error (.crash "args validator returned a non-value"), .section s2)
termination_by (sizeOf c, 0)

/-- Field validation and unknown-key sweep of `Section.validate`,
after the args phase: `s` is the (args-mutated) input, `out` the fresh
output section with validated args attached. -/
def validateSectionBody (allowU : Bool) (fields : List (String × Container))
    (s out : ConfigSection) : Except VErr Obj × Obj :=
  match validateFields fields s out with
  | (.error e, s3) => (.error e, .section s3)
  | (.ok out1, s3) =>
    match sweepUnknown fields allowU s3.name s3.iteritemsExpanded out1 with
    | .ok out2 => (.ok (.section out2), .section s3)
    | .error e => (.error e, .section s3)
termination_by (sizeOf fields + 1, 1)

/-- The declared-fields loop of `Section.validate` (lines 361-397).
For a `Section` field: gather the subsection occurrences (mutating the
input's `defaultdict`), check `rmin`/`rmax`, then validate each
occurrence (with the unique-args check).  For any other container:
validate `section.get(name)`, wrapping errors as
`'section <s>, key <n>, <msg>'`. -/
def validateFields (fs : List (String × Container)) (s out : ConfigSection) :
    Except VErr ConfigSection × ConfigSection :=
  match fs with
  | [] => (.ok out, s)
  | (n, c) :: rest =>
    match c with
    | .section argsc2 uniq2 rmin2 rmax2 au2 f2 =>
      let sp := s.subsections n
      let subs := sp.1
      let s1 := sp.2
      if rminGtRmax rmin2 rmax2 then
        (.error (.ve ("section " ++ n ++ ", rmin > rmax") none), s1)
      else if decide ((subs.length : Int) < rmin2) then
        (.error (.ve ("section " ++ n ++ ", section must be defined at least " ++
          toString rmin2 ++ " times") none), s1)
      else if countGtRmax (subs.length : Int) rmax2 then
        (.error (.ve ("section " ++ n ++ ", section must be defined at max " ++
          toString (rmax2.getD 0) ++ " times") none), s1)
      else
        match validateSubs (.section argsc2 uniq2 rmin2 rmax2 au2 f2)
            uniq2 n subs [] out with
        | (.error e, post) => (.error e, setSubsEntry s1 n post)
        | (.ok out2, post) => validateFields rest (setSubsEntry s1 n post) out2
    | cv =>
      let r := validateC cv (objOfOpt (s.get n))
      let s1 := match r.2 with
        | .value v2 => setValueEntry s n v2
        | _ => s
      match r.1 with
      | .error (.ve msg pos) =>
        (.error (.ve ("section " ++ s.name ++ ", key " ++ n ++ ", " ++ msg) pos), s1)
      | .error (.crash w) => (.error (.crash w), s1)
      | .ok (.value vv) =>
        match out.register (.value vv) (some n) with
        | .ok out2 => validateFields rest s1 out2
        | .error ke => (.error (.crash ke), s1)
      | .ok _ => (.error (.crash "value validator returned a non-value"), s1)
termination_by (sizeOf fs + 1, 0)

/-- The per-occurrence loop over the subsections of one declared
`Section` field (lines 376-388): unique-args check (against the keys
seen so far, failing `'section <n>, section must be unique'` at the
offending occurrence), then recursive validation and registration.
Returns the result and the post-state of the occurrence list. -/
def validateSubs (c : Container) (uniq : Bool) (n : String)
    (subs : List ConfigSection) (seen : List (Option (List Payload)))
    (out : ConfigSection) : Except VErr ConfigSection × List ConfigSection :=
  match subs with
  | [] => (.ok out, [])
  | sub :: rest =>
    let ks : Except VErr (List (Option (List Payload))) :=
      if uniq then
        match uniqueKeyOf sub with
        | .error e => .error e
        | .ok k =>
          if keyMemPy k seen then
            .error (.ve ("section " ++ n ++ ", section must be unique") (some sub.position))
          else .ok (seen ++ [k])
      else .ok seen
    match ks with
    | .error e => (.error e, sub :: rest)
    | .ok seen2 =>
      let r := validateC c (.section sub)
      let subPost := match r.2 with | .section sp => sp | _ => sub
      match r.1 with
      | .error e => (.error e, subPost :: rest)
      | .ok (.section vsub) =>
        match out.register (.section vsub) (some n) with
        | .error ke => (.error (.crash ke), subPost :: rest)
        | .ok out2 =>
          let rr := validateSubs c uniq n rest seen2 out2
          (rr.1, subPost :: rr.2)
      | .ok _ => (.error (.crash "section validator returned a non-section"), subPost :: rest)
termination_by (sizeOf c, sizeOf subs + 1)

end



/-- Claim C10: `Section.validate` on any input that is not a section
(a `ConfigValue` or `None`) raises `ValidationError('Not a section')`
immediately, for every schema — no args or field validation is
attempted, and the input is left untouched. -/
theorem c10_not_a_section :
    ∀ (argsc : Option Container) (u : Bool) (rmin : Int) (rmax : Option Int)
      (au : Bool) (fields : List (String × Container)) (v : ConfigValue),
      validateC (.section argsc u rmin rmax au fields) (.value v) =
        (.error (.ve "Not a section" none), .value v) ∧
      validateC (.section argsc u rmin rmax au fields) .pynone =
        (.error (.ve "Not a section" none), .pynone) := by
  intro argsc u rmin rmax au fields v
  constructor <;> simp [validateC]

/-- Claim C6: `Value.validate` behaviour.  Absent input without a
default fails `'this value is required'`; absent input with a default
yields the default carrying the sentinel position; a one-element list
payload is unwrapped to its element before type validation; a list
payload of any other length fails `'<repr> is a list'` at the input's
position. -/
theorem c6_value_container :
    (∀ t : SType, valueValidate t none none =
      (.error (.ve "this value is required" none), none)) ∧
    (∀ (t : SType) (d : Payload), valueValidate t (some d) none =
      (.ok ⟨none, d, sentinelPos⟩, none)) ∧
    (∀ (t : SType) (d : Option Payload) (v : ConfigValue) (x : Payload),
      v.value = .list [x] →
      valueValidate t d (some v) =
        (valueTypeStep t ⟨v.name, x, v.position⟩, some ⟨v.name, x, v.position⟩)) ∧
    (∀ (t : SType) (d : Option Payload) (v : ConfigValue) (l : List Payload),
      v.value = .list l → l.length ≠ 1 →
      valueValidate t d (some v) =
        (.error (.ve (pyRepr (.list l) ++ " is a list") (some v.position)), some v)) := by
  refine ⟨fun t => rfl, fun t d => rfl, ?_, ?_⟩
  · intro t d v x hv
    obtain ⟨nm, pl, pos⟩ := v
    simp only [ConfigValue.value] at hv
    subst hv
    rfl
  · intro t d v l hv hlen
    obtain ⟨nm, pl, pos⟩ := v
    simp only [ConfigValue.value] at hv
    subst hv
    match l, hlen with
    | [], _ => rfl
    | a :: b :: rest, _ => rfl
    | [a], h => exact absurd rfl h

/-- Witness for `c6_value_container` at concrete inputs: a required
miss, a default injection, a one-element unwrap validated as an
integer, and the two-element list error. -/
theorem c6_value_container_witness :
    valueValidate (.integer none none) none none =
      (.error (.ve "this value is required" none), none) ∧
    valueValidate (.integer none none) (some (.int 7)) none =
      (.ok ⟨none, .int 7, sentinelPos⟩, none) ∧
    valueValidate (.integer none none) none
        (some ⟨some "x", .list [.int 42], ⟨"f", 3, 5⟩⟩) =
      (.ok ⟨some "x", .int 42, ⟨"f", 3, 5⟩⟩,
       some ⟨some "x", .int 42, ⟨"f", 3, 5⟩⟩) ∧
    valueValidate (.integer none none) none
        (some ⟨some "x", .list [.int 1, .int 2], ⟨"f", 3, 5⟩⟩) =
      (.error (.ve "[1, 2] is a list" (some ⟨"f", 3, 5⟩)),
       some ⟨some "x", .list [.int 1, .int 2], ⟨"f", 3, 5⟩⟩) := by
  refine ⟨c6_value_container.1 _, c6_value_container.2.1 _ _, ?_, ?_⟩
  · have h := c6_value_container.2.2.1 (.integer none none) none
      ⟨some "x", .list [.int 42], ⟨"f", 3, 5⟩⟩ (.int 42) rfl
    rw [h]; decide
  · have h := c6_value_container.2.2.2 (.integer none none) none
      ⟨some "x", .list [.int 1, .int 2], ⟨"f", 3, 5⟩⟩ [.int 1, .int 2] rfl (by decide)
    rw [h]; decide

/-- Schema `{x: Value(Integer())}` used for the C2 mutation evidence. -/
def c2Schema : Container :=
  .section none false 1 (some 1) false [("x", .value (.integer none none) none)]

/-- Input section `{x = [42]}` (a one-element list payload, as the
parser produces for `x = 42,`). -/
def c2Input : ConfigSection :=
  .mk "__top__" none sentinelPos
    [("x", ⟨some "x", .list [.int 42], ⟨"f", 3, 5⟩⟩)] []

/-- Schema `{s: Section(repeat=(0,1))}` used for the C2 defaultdict
evidence. -/
def c2SchemaSub : Container :=
  .section none false 1 (some 1) false
    [("s", .section none false 0 (some 1) false [])]

/-- Input section with no children at all. -/
def c2InputEmpty : ConfigSection := .mk "__top__" none sentinelPos [] []

/-- Claim C2 (code bug): validation mutates its input.  Validating
`{x = [42]}` against `{x: Value(Integer())}` succeeds, but
`Value.validate`'s in-place unwrap (`value.value = value.value[0]`,
containers.py line 79) overwrites the input tree's payload `[42]` with
`42`; and validating an empty section against a schema declaring a
subsection `s` with `repeat=(0,1)` leaves an empty `('s', [])` entry
in the input's subsection mapping (`section.subsections(name)` reads a
`defaultdict`).  The spec requires the input tree to be unmutated. -/
theorem c2_validation_mutates_input :
    (validateC c2Schema (.section c2Input)).2 =
      .section (.mk "__top__" none sentinelPos
        [("x", ⟨some "x", .int 42, ⟨"f", 3, 5⟩⟩)] []) ∧
    (validateC c2Schema (.section c2Input)).2 ≠ .section c2Input ∧
    (validateC c2Schema (.section c2Input)).1.isOk = true ∧
    (validateC c2SchemaSub (.section c2InputEmpty)).2 =
      .section (.mk "__top__" none sentinelPos [] [("s", [])]) ∧
    (validateC c2SchemaSub (.section c2InputEmpty)).2 ≠ .section c2InputEmpty := by
  have h1 : validateC c2Schema (.section c2Input) =
      (.ok (.section (.mk "__top__" none sentinelPos
        [("x", ⟨some "x", .int 42, ⟨"f", 3, 5⟩⟩)] [])),
       .section (.mk "__top__" none sentinelPos
        [("x", ⟨some "x", .int 42, ⟨"f", 3, 5⟩⟩)] [])) := by
    simp [c2Schema, c2Input, validateC, validateSectionBody, validateFields,
      valueValidate, valueTypeStep, typeValidate, numVal, ConfigSection.get,
      keyGet, ConfigSection.args, ConfigSection.argsRaw, ConfigSection.values,
      ConfigSection.subsectionsMap, ConfigSection.name, ConfigSection.position,
      objOfOpt, optOfObj, setValueEntry, setEntry, sweepUnknown,
      ConfigSection.iteritemsExpanded, expandSubs, keyMem, ConfigSection.register,
      ConfigSection.contains, Option.orElse, Except.map]
  have h2 : validateC c2SchemaSub (.section c2InputEmpty) =
      (.ok (.section (.mk "__top__" none sentinelPos [] [])),
       .section (.mk "__top__" none sentinelPos [] [("s", [])])) := by
    simp [c2SchemaSub, c2InputEmpty, validateC, validateSectionBody, validateFields,
      validateSubs, ConfigSection.subsections, rminGtRmax, countGtRmax,
      ConfigSection.get, keyGet, ConfigSection.args, ConfigSection.argsRaw,
      ConfigSection.values, ConfigSection.subsectionsMap, ConfigSection.name,
      ConfigSection.position, objOfOpt, optOfObj, setSubsEntry, setEntry,
      sweepUnknown, ConfigSection.iteritemsExpanded, expandSubs, keyMem,
      ConfigSection.register, ConfigSection.contains, Option.orElse, Except.map]
  rw [h1, h2]
  refine ⟨rfl, by decide, rfl, rfl, by decide⟩

/-- Register a list of (name, child) pairs in order (`KeyError`
modelled as a crash), as the `allow_unknown` pass-through does. -/
def registerAll (items : List (String × Child)) (out : ConfigSection) :
    Except VErr ConfigSection :=
  match items with
  | [] => .ok out
  | (n, child) :: rest =>
    match out.register child (some n) with
    | .ok out2 => registerAll rest out2
    | .error e => .error (.crash e)

theorem sweepUnknown_no_allow (fields : List (String × Container))
    (sName : String) (items : List (String × Child)) (out : ConfigSection) :
    sweepUnknown fields false sName items out =
      (match items.find? (fun p => !(keyMem p.1 fields)) with
       | some p => .error (.ve ("section " ++ sName ++ ", unknown key " ++ p.1)
           (some p.2.position))
       | none => .ok out) := by
  induction items generalizing out with
  | nil => rfl
  | cons p rest ih =>
    obtain ⟨n, child⟩ := p
    by_cases hk : keyMem n fields = true
    · simp [sweepUnknown, hk, List.find?, ih]
    · simp only [Bool.not_eq_true] at hk
      simp [sweepUnknown, hk, List.find?]

theorem sweepUnknown_allow (fields : List (String × Container))
    (sName : String) (items : List (String × Child)) (out : ConfigSection) :
    sweepUnknown fields true sName items out =
      registerAll (items.filter (fun p => !(keyMem p.1 fields))) out := by
  induction items generalizing out with
  | nil => rfl
  | cons p rest ih =>
    obtain ⟨n, child⟩ := p
    by_cases hk : keyMem n fields = true
    · simp [sweepUnknown, hk, List.filter, ih]
    · simp only [Bool.not_eq_true] at hk
      simp only [sweepUnknown, hk, Bool.false_eq_true, if_false, if_true,
        List.filter, Bool.not_false]
      cases hreg : out.register child (some n) with
      | ok out2 => simp [registerAll, hreg, ih]
      | error e => simp [registerAll, hreg]

/-- Claim C4: the unknown-key sweep of `Section.validate`.  After a
successful args phase (no schema args, no input args) and fields
phase: with `allow_unknown=false`, validation fails with
`'section <S.name>, unknown key <name>'` at the position of the first
expanded child (value or individual subsection occurrence) whose name
is undeclared, and succeeds when every child name is declared; with
`allow_unknown=true`, every undeclared child is registered unchanged
into the validated output, in iteration order.  Two concrete
instances: an unknown value fails at its position, and an unknown
value plus two occurrences of an unknown subsection name are passed
through unchanged. -/
theorem c4_unknown_key_sweep :
    (∀ (fields : List (String × Container)) (u : Bool) (rmin : Int)
       (rmax : Option Int) (s out1 s3 : ConfigSection),
      s.args = none →
      validateFields fields s (.mk s.name none s.position [] []) = (.ok out1, s3) →
      validateC (.section none u rmin rmax false fields) (.section s) =
        (match s3.iteritemsExpanded.find? (fun p => !(keyMem p.1 fields)) with
         | some p => (.error (.ve ("section " ++ s3.name ++ ", unknown key " ++ p.1)
             (some p.2.position)), .section s3)
         | none => (.ok (.section out1), .section s3)) ∧
      validateC (.section none u rmin rmax true fields) (.section s) =
        (match registerAll (s3.iteritemsExpanded.filter
            (fun p => !(keyMem p.1 fields))) out1 with
         | .ok out2 => (.ok (.section out2), .section s3)
         | .error e => (.error e, .section s3))) ∧
    validateC (.section none false 1 (some 1) false [])
      (.section (.mk "top" none sentinelPos
        [("y", ⟨some "y", .int 5, ⟨"f", 2, 1⟩⟩)] [])) =
      (.error (.ve "section top, unknown key y" (some ⟨"f", 2, 1⟩)),
       .section (.mk "top" none sentinelPos
        [("y", ⟨some "y", .int 5, ⟨"f", 2, 1⟩⟩)] [])) ∧
    validateC (.section none false 1 (some 1) true [])
      (.section (.mk "top" none sentinelPos
        [("y", ⟨some "y", .int 5, ⟨"f", 2, 1⟩⟩)]
        [("t", [.mk "t" none ⟨"f", 4, 1⟩ [] [], .mk "t" none ⟨"f", 5, 1⟩ [] []])])) =
      (.ok (.section (.mk "top" none sentinelPos
        [("y", ⟨some "y", .int 5, ⟨"f", 2, 1⟩⟩)]
        [("t", [.mk "t" none ⟨"f", 4, 1⟩ [] [], .mk "t" none ⟨"f", 5, 1⟩ [] []])])),
       .section (.mk "top" none sentinelPos
        [("y", ⟨some "y", .int 5, ⟨"f", 2, 1⟩⟩)]
        [("t", [.mk "t" none ⟨"f", 4, 1⟩ [] [], .mk "t" none ⟨"f", 5, 1⟩ [] []])])) := by
  refine ⟨?_, ?_, ?_⟩
  · intro fields u rmin rmax s out1 s3 hargs hfields
    have hbody : validateSectionBody false fields s (.mk s.name none s.position [] []) =
        (match s3.iteritemsExpanded.find? (fun p => !(keyMem p.1 fields)) with
         | some p => (.error (.ve ("section " ++ s3.name ++ ", unknown key " ++ p.1)
             (some p.2.position)), .section s3)
         | none => (.ok (.section out1), .section s3)) := by
      rw [validateSectionBody, hfields]
      simp only [sweepUnknown_no_allow]
      cases s3.iteritemsExpanded.find? (fun p => !(keyMem p.1 fields)) with
      | none => rfl
      | some p => rfl
    have hbody2 : validateSectionBody true fields s (.mk s.name none s.position [] []) =
        (match registerAll (s3.iteritemsExpanded.filter
            (fun p => !(keyMem p.1 fields))) out1 with
         | .ok out2 => (.ok (.section out2), .section s3)
         | .error e => (.error e, .section s3)) := by
      rw [validateSectionBody, hfields]
      simp only [sweepUnknown_allow]
    constructor
    · rw [validateC, hargs]
      exact hbody
    · rw [validateC, hargs]
      exact hbody2
  · simp [validateC, validateSectionBody, validateFields, sweepUnknown,
      ConfigSection.iteritemsExpanded, expandSubs, keyMem, ConfigSection.args,
      ConfigSection.argsRaw, ConfigSection.values, ConfigSection.subsectionsMap,
      ConfigSection.name, ConfigSection.position, Child.position]
  · simp [validateC, validateSectionBody, validateFields, sweepUnknown,
      ConfigSection.iteritemsExpanded, expandSubs, keyMem, ConfigSection.args,
      ConfigSection.argsRaw, ConfigSection.values, ConfigSection.subsectionsMap,
      ConfigSection.name, ConfigSection.position, Child.position,
      ConfigSection.register, ConfigSection.contains, Option.orElse, insertAppend]

/-- Witness for `c4_unknown_key_sweep`: instantiating the quantified
part with the empty schema and a one-value section. -/
theorem c4_unknown_key_sweep_witness :
    validateC (.section none false 0 none false [])
      (.section (.mk "w" none sentinelPos
        [("z", ⟨some "z", .int 9, ⟨"g", 7, 2⟩⟩)] [])) =
      (.error (.ve "section w, unknown key z" (some ⟨"g", 7, 2⟩)),
       .section (.mk "w" none sentinelPos
        [("z", ⟨some "z", .int 9, ⟨"g", 7, 2⟩⟩)] [])) := by
  have h := (c4_unknown_key_sweep.1 [] false 0 none
    (.mk "w" none sentinelPos [("z", ⟨some "z", .int 9, ⟨"g", 7, 2⟩⟩)] [])
    (.mk "w" none sentinelPos [] [])
    (.mk "w" none sentinelPos [("z", ⟨some "z", .int 9, ⟨"g", 7, 2⟩⟩)] [])
    rfl (by simp [validateFields, ConfigSection.name, ConfigSection.position])).1
  simpa [ConfigSection.iteritemsExpanded, expandSubs, keyMem, List.find?,
    Child.position, ConfigSection.name, ConfigSection.values,
    ConfigSection.subsectionsMap] using h

/-- The unique-args key of an occurrence, assuming it is computable
(`uniqueKeyOf` succeeds): `None` without args, else the args tuple. -/
def keyOrNone (sub : ConfigSection) : Option (List Payload) :=
  match uniqueKeyOf sub with
  | .ok k => k
  | .error _ => none

/-- First occurrence whose unique-args key equals the key of an
earlier occurrence (or a key in `seen`), scanning left to right: the
occurrence `Section.validate`'s unique check would reject. -/
def collideScan (subs : List ConfigSection) (seen : List (Option (List Payload))) :
    Option ConfigSection :=
  match subs with
  | [] => none
  | sub :: rest =>
    match uniqueKeyOf sub with
    | .error _ => none
    | .ok k => if keyMemPy k seen then some sub else collideScan rest (seen ++ [k])

theorem register_section_of_no_value (out : ConfigSection) (o : ConfigSection)
    (n : String) (h : keyMem n out.values = false) :
    out.register (.section o) (some n) =
      .ok (.mk out.name out.argsRaw out.position out.values
        (insertAppend n o out.subsectionsMap)) ∧
    keyMem n (ConfigSection.mk out.name out.argsRaw out.position out.values
        (insertAppend n o out.subsectionsMap)).values = false := by
  constructor
  · simp [ConfigSection.register, Option.orElse, h]
  · simpa [ConfigSection.values] using h

theorem validateSubs_unique_characterization
    (c : Container) (n : String) (subs : List ConfigSection) :
    ∀ (seen : List (Option (List Payload))) (out : ConfigSection),
      (∀ sub ∈ subs, ∃ k, uniqueKeyOf sub = .ok k) →
      (∀ sub ∈ subs, ∃ o p, validateC c (.section sub) = (.ok (.section o), p)) →
      keyMem n out.values = false →
      (match collideScan subs seen with
       | some sub => (validateSubs c true n subs seen out).1 =
           .error (.ve ("section " ++ n ++ ", section must be unique") (some sub.position))
       | none => ∃ out2, (validateSubs c true n subs seen out).1 = .ok out2) := by
  induction subs with
  | nil =>
    intro seen out _ _ _
    exact ⟨out, by rw [validateSubs]⟩
  | cons sub rest ih =>
    intro seen out hkeys hok hout
    obtain ⟨k, hk⟩ := hkeys sub (by simp)
    by_cases hmem : keyMemPy k seen = true
    · simp only [collideScan, hk, hmem, if_true]
      rw [validateSubs]
      simp [hk, hmem]
    · simp only [Bool.not_eq_true] at hmem
      simp only [collideScan, hk, hmem, Bool.false_eq_true, if_false]
      obtain ⟨o, p, hvc⟩ := hok sub (by simp)
      obtain ⟨hreg, hout2⟩ := register_section_of_no_value out o n hout
      have step : validateSubs c true n (sub :: rest) seen out =
          ((validateSubs c true n rest (seen ++ [k])
            (.mk out.name out.argsRaw out.position out.values
              (insertAppend n o out.subsectionsMap))).1,
           (match p with | .section sp => sp | _ => sub) ::
             (validateSubs c true n rest (seen ++ [k])
               (.mk out.name out.argsRaw out.position out.values
                 (insertAppend n o out.subsectionsMap))).2) := by
        rw [validateSubs]
        simp only [hk, hmem, Bool.false_eq_true, if_false, if_true, hvc, hreg]
        cases p <;> rfl
      have hrec := ih (seen ++ [k])
        (.mk out.name out.argsRaw out.position out.values
          (insertAppend n o out.subsectionsMap))
        (fun s hs => hkeys s (by simp [hs]))
        (fun s hs => hok s (by simp [hs])) hout2
      cases hcs : collideScan rest (seen ++ [k]) with
      | some x =>
        rw [hcs] at hrec
        rw [step]
        exact hrec
      | none =>
        rw [hcs] at hrec
        obtain ⟨out2, h2⟩ := hrec
        rw [step]
        exact ⟨out2, h2⟩

theorem validateC_unique_pipeline
    (ac2 : Option Container) (rmin2 : Int) (rmax2 : Option Int) (au2 : Bool)
    (f2 : List (String × Container)) (u : Bool) (rmin : Int) (rmax : Option Int)
    (n sname : String) (spos : Position) (subs : List ConfigSection)
    (hb1 : rminGtRmax rmin2 rmax2 = false)
    (hb2 : decide ((subs.length : Int) < rmin2) = false)
    (hb3 : countGtRmax (subs.length : Int) rmax2 = false)
    (hkeys : ∀ sub ∈ subs, ∃ k, uniqueKeyOf sub = .ok k)
    (hok : ∀ sub ∈ subs, ∃ o p,
      validateC (.section ac2 true rmin2 rmax2 au2 f2) (.section sub) =
        (.ok (.section o), p)) :
    (match collideScan subs [] with
     | some x =>
       (validateC (.section none u rmin rmax false
           [(n, .section ac2 true rmin2 rmax2 au2 f2)])
         (.section (.mk sname none spos [] [(n, subs)]))).1 =
         .error (.ve ("section " ++ n ++ ", section must be unique") (some x.position))
     | none => ∃ out',
       (validateC (.section none u rmin rmax false
           [(n, .section ac2 true rmin2 rmax2 au2 f2)])
         (.section (.mk sname none spos [] [(n, subs)]))).1 =
         .ok (.section out')) := by
  have hchar := validateSubs_unique_characterization
    (.section ac2 true rmin2 rmax2 au2 f2) n subs []
    (.mk sname none spos [] []) hkeys hok (by simp [ConfigSection.values, keyMem])
  have hsubsec : (ConfigSection.mk sname none spos [] [(n, subs)]).subsections n =
      (subs, .mk sname none spos [] [(n, subs)]) := by
    simp [ConfigSection.subsections, keyGet, ConfigSection.subsectionsMap]
  have hout0 : (ConfigSection.mk sname none spos [] [(n, subs)]).name = sname ∧
      (ConfigSection.mk sname none spos [] [(n, subs)]).position = spos := ⟨rfl, rfl⟩
  have hvc0 : validateC (.section none u rmin rmax false
        [(n, .section ac2 true rmin2 rmax2 au2 f2)])
      (.section (.mk sname none spos [] [(n, subs)])) =
      validateSectionBody false [(n, .section ac2 true rmin2 rmax2 au2 f2)]
        (.mk sname none spos [] [(n, subs)]) (.mk sname none spos [] []) := by
    rw [validateC]
    simp [ConfigSection.args, ConfigSection.argsRaw, ConfigSection.name,
      ConfigSection.position]
  have hvf : validateFields [(n, .section ac2 true rmin2 rmax2 au2 f2)]
      (.mk sname none spos [] [(n, subs)]) (.mk sname none spos [] []) =
      (match validateSubs (.section ac2 true rmin2 rmax2 au2 f2) true n subs []
          (.mk sname none spos [] []) with
       | (.error e, post) =>
         (.error e, setSubsEntry (.mk sname none spos [] [(n, subs)]) n post)
       | (.ok out2, post) =>
         validateFields [] (setSubsEntry (.mk sname none spos [] [(n, subs)]) n post) out2) := by
    rw [validateFields]
    simp only [hsubsec, hb1, hb2, hb3, Bool.false_eq_true, if_false]
  cases hcs : collideScan subs [] with
  | some x =>
    rw [hcs] at hchar
    rw [hvc0, validateSectionBody, hvf]
    cases hvs : validateSubs (.section ac2 true rmin2 rmax2 au2 f2) true n subs []
        (.mk sname none spos [] []) with
    | mk r post =>
      rw [hvs] at hchar
      simp only at hchar
      rw [hchar]
  | none =>
    rw [hcs] at hchar
    obtain ⟨out2, h2⟩ := hchar
    rw [hvc0, validateSectionBody, hvf]
    cases hvs : validateSubs (.section ac2 true rmin2 rmax2 au2 f2) true n subs []
        (.mk sname none spos [] []) with
    | mk r post =>
      rw [hvs] at h2
      simp only at h2
      subst h2
      refine ⟨out2, ?_⟩
      have hvfnil : validateFields []
          (setSubsEntry (.mk sname none spos [] [(n, subs)]) n post) out2 =
          (.ok out2, setSubsEntry (.mk sname none spos [] [(n, subs)]) n post) := by
        rw [validateFields]
      simp only []
      rw [hvfnil]
      simp only []
      have hsweep : sweepUnknown [(n, .section ac2 true rmin2 rmax2 au2 f2)] false
          (setSubsEntry (.mk sname none spos [] [(n, subs)]) n post).name
          (setSubsEntry (.mk sname none spos [] [(n, subs)]) n post).iteritemsExpanded
          out2 = .ok out2 := by
        rw [sweepUnknown_no_allow]
        have : (setSubsEntry (.mk sname none spos [] [(n, subs)]) n post).iteritemsExpanded.find?
            (fun (p : String × Child) =>
              !(keyMem p.1 [(n, Container.section ac2 true rmin2 rmax2 au2 f2)])) = none := by
          rw [List.find?_eq_none]
          intro p hp
          simp [setSubsEntry, setEntry, ConfigSection.iteritemsExpanded,
            ConfigSection.values, ConfigSection.subsectionsMap, expandSubs] at hp
          obtain ⟨sub2, hsub2, rfl, _⟩ := hp
          simp [keyMem]
        rw [this]
      simp only [hsweep]

theorem collideScan_some_iff (subs : List ConfigSection) :
    ∀ seen, (∀ sub ∈ subs, ∃ k, uniqueKeyOf sub = .ok k) →
      ((collideScan subs seen).isSome = true ↔
        ∃ j b, subs[j]? = some b ∧
          keyMemPy (keyOrNone b) (seen ++ (subs.take j).map keyOrNone) = true) := by
  induction subs with
  | nil =>
    intro seen _
    simp [collideScan]
  | cons sub rest ih =>
    intro seen hkeys
    obtain ⟨k, hk⟩ := hkeys sub (by simp)
    have hkon : keyOrNone sub = k := by simp [keyOrNone, hk]
    by_cases hmem : keyMemPy k seen = true
    · simp only [collideScan, hk, hmem, if_true, Option.isSome_some, true_iff]
      exact ⟨0, sub, by simp, by simpa [hkon] using hmem⟩
    · simp only [Bool.not_eq_true] at hmem
      simp only [collideScan, hk, hmem, Bool.false_eq_true, if_false]
      rw [ih (seen ++ [k]) (fun s hs => hkeys s (by simp [hs]))]
      constructor
      · rintro ⟨j, b, hjb, hmem2⟩
        refine ⟨j + 1, b, by simpa using hjb, ?_⟩
        simpa [hkon, List.append_assoc] using hmem2
      · rintro ⟨j, b, hjb, hmem2⟩
        cases j with
        | zero =>
          simp only [List.getElem?_cons_zero, Option.some.injEq] at hjb
          subst hjb
          simp only [List.take_zero, List.map_nil, List.append_nil, hkon] at hmem2
          exact absurd hmem2 (by simp [hmem])
        | succ j =>
          refine ⟨j, b, by simpa using hjb, ?_⟩
          simpa [hkon, List.append_assoc] using hmem2

/-- Claim C5: with `unique=true`, validation of the occurrences of a
subsection name fails `'section <n>, section must be unique'` at the
first occurrence whose unique-args key (None without args, else the
tuple of the args payload) equals an earlier occurrence's key — and
succeeds when there is no such occurrence; the scan finds an
occurrence exactly when some occurrence's key equals the key of an
earlier occurrence.  In particular two occurrences both without args
collide (error positioned at the second), and occurrences with
distinct args tuples succeed. -/
theorem c5_unique_args :
    (∀ (ac2 : Option Container) (rmin2 : Int) (rmax2 : Option Int) (au2 : Bool)
       (f2 : List (String × Container)) (u : Bool) (rmin : Int) (rmax : Option Int)
       (n sname : String) (spos : Position) (subs : List ConfigSection),
      rminGtRmax rmin2 rmax2 = false →
      decide ((subs.length : Int) < rmin2) = false →
      countGtRmax (subs.length : Int) rmax2 = false →
      (∀ sub ∈ subs, ∃ k, uniqueKeyOf sub = .ok k) →
      (∀ sub ∈ subs, ∃ o p,
        validateC (.section ac2 true rmin2 rmax2 au2 f2) (.section sub) =
          (.ok (.section o), p)) →
      (match collideScan subs [] with
       | some x =>
         (validateC (.section none u rmin rmax false
             [(n, .section ac2 true rmin2 rmax2 au2 f2)])
           (.section (.mk sname none spos [] [(n, subs)]))).1 =
           .error (.ve ("section " ++ n ++ ", section must be unique") (some x.position))
       | none => ∃ out',
         (validateC (.section none u rmin rmax false
             [(n, .section ac2 true rmin2 rmax2 au2 f2)])
           (.section (.mk sname none spos [] [(n, subs)]))).1 =
           .ok (.section out')) ∧
      ((collideScan subs []).isSome = true ↔
        ∃ j b, subs[j]? = some b ∧ ∃ a ∈ subs.take j,
          optListPyEq (keyOrNone b) (keyOrNone a) = true)) ∧
    (validateC (.section none false 1 (some 1) false
        [("s", .section none true 0 none false [])])
      (.section (.mk "top" none sentinelPos []
        [("s", [.mk "s" none ⟨"f", 1, 1⟩ [] [], .mk "s" none ⟨"f", 2, 1⟩ [] []])]))).1 =
      .error (.ve "section s, section must be unique" (some ⟨"f", 2, 1⟩)) ∧
    (validateC (.section none false 1 (some 1) false
        [("s", .section (some (.value .string none)) true 0 none false [])])
      (.section (.mk "top" none sentinelPos []
        [("s", [.mk "s" (some ⟨some "<args>", .list [.str "a"], ⟨"f", 1, 5⟩⟩)
                  ⟨"f", 1, 1⟩ [] [],
                .mk "s" (some ⟨some "<args>", .list [.str "b"], ⟨"f", 2, 5⟩⟩)
                  ⟨"f", 2, 1⟩ [] []])]))).1 =
      .ok (.section (.mk "top" none sentinelPos []
        [("s", [.mk "s" (some ⟨some "<args>", .str "a", ⟨"f", 1, 5⟩⟩)
                  ⟨"f", 1, 1⟩ [] [],
                .mk "s" (some ⟨some "<args>", .str "b", ⟨"f", 2, 5⟩⟩)
                  ⟨"f", 2, 1⟩ [] []])])) := by
  refine ⟨?_, ?_, ?_⟩
  · intro ac2 rmin2 rmax2 au2 f2 u rmin rmax n sname spos subs hb1 hb2 hb3 hkeys hok
    refine ⟨validateC_unique_pipeline ac2 rmin2 rmax2 au2 f2 u rmin rmax n sname spos
      subs hb1 hb2 hb3 hkeys hok, ?_⟩
    rw [collideScan_some_iff subs [] hkeys]
    constructor
    · rintro ⟨j, b, hjb, hmem⟩
      refine ⟨j, b, hjb, ?_⟩
      simp only [List.nil_append, keyMemPy, List.any_eq_true, List.mem_map] at hmem
      obtain ⟨x, ⟨a, ha, rfl⟩, heq⟩ := hmem
      exact ⟨a, ha, heq⟩
    · rintro ⟨j, b, hjb, a, ha, heq⟩
      refine ⟨j, b, hjb, ?_⟩
      simp only [List.nil_append, keyMemPy, List.any_eq_true, List.mem_map]
      exact ⟨keyOrNone a, ⟨a, ha, rfl⟩, heq⟩
  · simp [validateC, validateSectionBody, validateFields, validateSubs,
      ConfigSection.subsections, keyGet, rminGtRmax, countGtRmax, uniqueKeyOf,
      pyTuple, keyMemPy, optListPyEq, ConfigSection.args, ConfigSection.argsRaw,
      ConfigSection.values, ConfigSection.subsectionsMap, ConfigSection.name,
      ConfigSection.position, setSubsEntry, setEntry, sweepUnknown,
      ConfigSection.iteritemsExpanded, expandSubs, keyMem, ConfigSection.register,
      ConfigSection.contains, Option.orElse, Except.map, objOfOpt, optOfObj,
      sectionWithArgs]
  · simp [validateC, validateSectionBody, validateFields, validateSubs,
      ConfigSection.subsections, keyGet, rminGtRmax, countGtRmax, uniqueKeyOf,
      pyTuple, keyMemPy, optListPyEq, pyEqList, pyEq, ConfigSection.args,
      ConfigSection.argsRaw, ConfigSection.values, ConfigSection.subsectionsMap,
      ConfigSection.name, ConfigSection.position, setSubsEntry, setEntry,
      sweepUnknown, ConfigSection.iteritemsExpanded, expandSubs, keyMem,
      ConfigSection.register, ConfigSection.contains, Option.orElse, Except.map,
      objOfOpt, optOfObj, sectionWithArgs, valueValidate, valueTypeStep,
      typeValidate, numVal, insertAppend]

/-- Witness for `c5_unique_args`: the quantified part applied to two
occurrences without args — the scan reports the second occurrence and
validation fails there. -/
theorem c5_unique_args_witness :
    (validateC (.section none true 1 (some 2) false
        [("q", .section none true 0 none false [])])
      (.section (.mk "w" none sentinelPos []
        [("q", [.mk "q" none ⟨"g", 1, 1⟩ [] [], .mk "q" none ⟨"g", 3, 1⟩ [] []])]))).1 =
      .error (.ve "section q, section must be unique" (some ⟨"g", 3, 1⟩)) := by
  have hkeys : ∀ sub ∈ [ConfigSection.mk "q" none ⟨"g", 1, 1⟩ [] [],
      ConfigSection.mk "q" none ⟨"g", 3, 1⟩ [] []], ∃ k, uniqueKeyOf sub = .ok k := by
    intro sub hs
    simp only [List.mem_cons, List.not_mem_nil, or_false] at hs
    rcases hs with rfl | rfl
    · exact ⟨none, rfl⟩
    · exact ⟨none, rfl⟩
  have hok : ∀ sub ∈ [ConfigSection.mk "q" none ⟨"g", 1, 1⟩ [] [],
      ConfigSection.mk "q" none ⟨"g", 3, 1⟩ [] []], ∃ o p,
      validateC (.section none true 0 none false []) (.section sub) =
        (.ok (.section o), p) := by
    intro sub hs
    simp only [List.mem_cons, List.not_mem_nil, or_false] at hs
    rcases hs with rfl | rfl
    · refine ⟨.mk "q" none ⟨"g", 1, 1⟩ [] [], .section (.mk "q" none ⟨"g", 1, 1⟩ [] []), ?_⟩
      simp [validateC, validateSectionBody, validateFields, sweepUnknown,
        ConfigSection.iteritemsExpanded, expandSubs, ConfigSection.args,
        ConfigSection.argsRaw, ConfigSection.values, ConfigSection.subsectionsMap,
        ConfigSection.name, ConfigSection.position]
    · refine ⟨.mk "q" none ⟨"g", 3, 1⟩ [] [], .section (.mk "q" none ⟨"g", 3, 1⟩ [] []), ?_⟩
      simp [validateC, validateSectionBody, validateFields, sweepUnknown,
        ConfigSection.iteritemsExpanded, expandSubs, ConfigSection.args,
        ConfigSection.argsRaw, ConfigSection.values, ConfigSection.subsectionsMap,
        ConfigSection.name, ConfigSection.position]
  have h := ((c5_unique_args.1 none 0 none false [] true 1 (some 2) "q" "w" sentinelPos
    [.mk "q" none ⟨"g", 1, 1⟩ [] [], .mk "q" none ⟨"g", 3, 1⟩ [] []]
    rfl rfl rfl hkeys hok)).1
  have hcs : collideScan
      [ConfigSection.mk "q" none ⟨"g", 1, 1⟩ [] [], .mk "q" none ⟨"g", 3, 1⟩ [] []]
      [] = some (.mk "q" none ⟨"g", 3, 1⟩ [] []) := by
    simp [collideScan, uniqueKeyOf, ConfigSection.args, ConfigSection.argsRaw,
      keyMemPy, optListPyEq]
  rw [hcs] at h
  simpa [ConfigSection.position] using h

/-!
## Lexer and grammar (`confiture/parser.py`)

Tokens are produced with PLY rule priority: `t_NAME`, `t_TEXT`,
`t_NUMBER`, `t_EOL`, `t_COMMENT`, then the single-character literals;
spaces and tabs are skipped.  Each token records the lexer's `lineno`
and `lexpos` at match time and the lexer's `lineno` after the rule ran
(a TEXT token advances it by its embedded newlines).  The tokenizer
also returns the final `lineno` (after trailing newline runs), which
is what `p.lexer.lineno` reads when a reduction happens at
end of input.  The grammar is embedded as a recursive-descent reader
of the token list that performs reductions in the same order as the
LALR parser, threading the parser's `_old_line` slot; the `include`
directive needs the filesystem and is modelled as a parse error.
-/

/-- The `UNITS` table (confiture/parser.py lines 13-28). -/
def unitsList : List (String × Nat) :=
  [("k", 10 ^ 3), ("M", 10 ^ 6), ("G", 10 ^ 9), ("T", 10 ^ 12),
   ("P", 10 ^ 15), ("E", 10 ^ 18), ("Z", 10 ^ 21), ("Y", 10 ^ 24),
   ("Ki", 2 ^ 10), ("Mi", 2 ^ 20), ("Gi", 2 ^ 30), ("Ti", 2 ^ 40),
   ("Pi", 2 ^ 50), ("Ei", 2 ^ 60), ("Zi", 2 ^ 70), ("Yi", 2 ^ 80)]

inductive Tok where
  | lbrace
  | rbrace
  | assign
  | listSep
  | name (s : String)
  | text (s : String)
  | number (p : Payload)
  | yes
  | no
  | includeTok
  | unit (m : Nat)
deriving DecidableEq

/-- A lexed token: kind, `lineno` and `lexpos` at match time, and the
lexer's `lineno` after the rule function ran. -/
structure Token where
  tok : Tok
  lineno : Nat
  lexpos : Nat
  afterLineno : Nat
deriving DecidableEq

/-- A `ParsingError`: message and optional position. -/
structure PErr where
  msg : String
  pos : Option Position
deriving DecidableEq

def isNameStart (c : Char) : Bool :=
  (decide ('a' ≤ c) && decide (c ≤ 'z')) || (decide ('A' ≤ c) && decide (c ≤ 'Z')) ||
    c = '_'

def isNameRest (c : Char) : Bool := isNameStart c || isDig c || c = '-'

/-- `t_NAME`'s reserved-word reclassification (yes/no/include and the
unit keywords). -/
def classifyName (s : String) : Tok :=
  if s = "yes" then .yes
  else if s = "no" then .no
  else if s = "include" then .includeTok
  else
    match keyGet s unitsList with
    | some m => .unit m
    | none => .name s

/-- Scan a quoted string body after the opening quote `q`: a
backslash-quote pair decodes to the quote, any other character stands
for itself; returns the decoded text and the number of characters
consumed (body plus closing quote), or `none` when unterminated. -/
def scanTextAux (q : Char) (fuel : Nat) (cs : List Char) : Option (List Char × Nat) :=
  match fuel with
  | 0 => none
  | fuel + 1 =>
    match cs with
    | [] => none
    | c :: rest =>
      if c = q then some ([], 1)
      else if c = '\\' then
        match rest with
        | [] => none
        | c2 :: rest2 =>
          if c2 = q then (scanTextAux q fuel rest2).map (fun p => (q :: p.1, p.2 + 2))
          else (scanTextAux q fuel rest).map (fun p => ('\\' :: p.1, p.2 + 1))
      else (scanTextAux q fuel rest).map (fun p => (c :: p.1, p.2 + 1))

def scanText (q : Char) (cs : List Char) : Option (List Char × Nat) :=
  scanTextAux q (cs.length + 1) cs

/-- Scan the text matched by `[-+]?[0-9]+(\.[0-9]+)?` at the current
position, returning it when the regex matches. -/
def scanNumber (cs : List Char) : Option (List Char) :=
  let sr : List Char × List Char :=
    match cs with
    | c :: rest => if c = '+' ∨ c = '-' then ([c], rest) else ([], cs)
    | [] => ([], [])
  let ip := sr.2.takeWhile isDig
  if ip.isEmpty then none
  else
    match sr.2.drop ip.length with
    | '.' :: r3 =>
      let fp := r3.takeWhile isDig
      if fp.isEmpty then some (sr.1 ++ ip)
      else some (sr.1 ++ ip ++ '.' :: fp)
    | _ => some (sr.1 ++ ip)

/-- The lexer loop.  Returns the token list and the final `lineno`. -/
def tokenizeAux (fuel : Nat) (cs : List Char) (lineno lexpos : Nat)
    (acc : List Token) : Except PErr (List Token × Nat) :=
  match fuel with
  | 0 => .error ⟨"lexer fuel exhausted", none⟩
  | fuel + 1 =>
    match cs with
    | [] => .ok (acc.reverse, lineno)
    | c :: rest =>
      if c = ' ' ∨ c = '\t' then tokenizeAux fuel rest lineno (lexpos + 1) acc
      else if isNameStart c then
        let tail := rest.takeWhile isNameRest
        let nm := String.mk (c :: tail)
        tokenizeAux fuel (rest.drop tail.length) lineno (lexpos + 1 + tail.length)
          (⟨classifyName nm, lineno, lexpos, lineno⟩ :: acc)
      else if c = '"' ∨ c = '\'' then
        match scanText c rest with
        | some p =>
          let nl := (p.1.filter (fun ch => ch = '\n')).length
          tokenizeAux fuel (rest.drop p.2) (lineno + nl) (lexpos + 1 + p.2)
            (⟨.text (String.mk p.1), lineno, lexpos, lineno + nl⟩ :: acc)
        | none =>
          .error ⟨"Illegal character " ++ pyRepr (.str (String.mk [c])),
            some ⟨"<unknown>", lineno, lexpos⟩⟩
      else
        match scanNumber (c :: rest) with
        | some txt =>
          tokenizeAux fuel ((c :: rest).drop txt.length) lineno (lexpos + txt.length)
            (⟨.number (t_NUMBER txt), lineno, lexpos, lineno⟩ :: acc)
        | none =>
          if c = '\n' then
            let nls := (c :: rest).takeWhile (fun ch => ch = '\n')
            tokenizeAux fuel ((c :: rest).drop nls.length) (lineno + nls.length)
              (lexpos + nls.length) acc
          else if c = '#' then
            let cm := rest.takeWhile (fun ch => ¬ch = '\n')
            tokenizeAux fuel (rest.drop cm.length) lineno (lexpos + 1 + cm.length) acc
          else if c = '{' then
            tokenizeAux fuel rest lineno (lexpos + 1) (⟨.lbrace, lineno, lexpos, lineno⟩ :: acc)
          else if c = '}' then
            tokenizeAux fuel rest lineno (lexpos + 1) (⟨.rbrace, lineno, lexpos, lineno⟩ :: acc)
          else if c = '=' then
            tokenizeAux fuel rest lineno (lexpos + 1) (⟨.assign, lineno, lexpos, lineno⟩ :: acc)
          else if c = ',' then
            tokenizeAux fuel rest lineno (lexpos + 1) (⟨.listSep, lineno, lexpos, lineno⟩ :: acc)
          else
            .error ⟨"Illegal character " ++ pyRepr (.str (String.mk [c])),
              some ⟨"<unknown>", lineno, lexpos⟩⟩

/-- Tokenize an input string (PLY's `lineno` starts at 1, `lexpos`
at 0). -/
def tokenize (input : String) : Except PErr (List Token × Nat) :=
  tokenizeAux (input.data.length + 1) input.data 1 0 []





/-- Index of the last newline strictly before the scan point, `-1`
when there is none. -/
def lastCrAux (cs : List Char) (i : Nat) (best : Int) : Int :=
  match cs with
  | [] => best
  | c :: rest => lastCrAux rest (i + 1) (if c = '\n' then (i : Int) else best)

/-- `ConfitureLexer.column(lexpos)`: `lexpos` minus the position of the
last preceding newline (taken as 0 when there is none). -/
def columnPy (input : List Char) (lexpos : Nat) : Nat :=
  let lc := lastCrAux (input.take lexpos) 0 (-1)
  lexpos - (if lc < 0 then 0 else lc.toNat)

/-- `p_number`: a NUMBER payload multiplied by a unit multiplier
(int stays int, float stays float; a NUMBER payload is always one of
the two). -/
def pyMulUnit (p : Payload) (m : Nat) : Payload :=
  match p with
  | .int n => .int (n * (m : Int))
  | .float q => .float (mkRat (q.num * m) q.den)
  | other => other

/-- The float case of `pyMulUnit` is multiplication by the unit. -/
theorem pyMulUnit_float (q : Rat) (m : Nat) :
    pyMulUnit (.float q) m = .float (q * (m : Rat)) := by
  have hden : ((q.den : Rat)) ≠ 0 := by
    exact_mod_cast q.den_nz
  simp only [pyMulUnit, Rat.mkRat_eq_div]
  congr 1
  conv_rhs => rw [← Rat.num_div_den q]
  push_cast
  field_simp

/-- Python `str()` of a token payload, used in error messages. -/
def pyStr (p : Payload) : String :=
  match p with
  | .str s => s
  | .int n => toString n
  | .float q => pyReprFloat q
  | .bool b => if b then "True" else "False"
  | .list l => pyRepr (.list l)

def tokValueStr (t : Tok) : String :=
  match t with
  | .lbrace => "\x7b"
  | .rbrace => "\x7d"
  | .assign => "="
  | .listSep => ","
  | .name s => s
  | .text s => s
  | .number p => pyStr p
  | .yes => "True"
  | .no => "False"
  | .includeTok => "include"
  | .unit m => toString m

/-- `p_error`: unexpected end of input has no position; an unexpected
token reports `'Syntax error near of "<value>"'` at its position. -/
def pError (tOpt : Option Token) (input : List Char) : PErr :=
  match tOpt with
  | none => ⟨"Unexpected end of file", none⟩
  | some t => ⟨"Syntax error near of \"" ++ tokValueStr t.tok ++ "\"",
      some ⟨"<unknown>", t.lineno, columnPy input t.lexpos⟩⟩

/-- `ConfitureParser._check_line` (lines 193-199): reject a child
reduced on the same current line as the previous one. -/
def checkLine (oldLine current lineno col : Nat) (childName : String) :
    Except PErr Nat :=
  if oldLine = current then
    .error ⟨"Syntax error near of \"" ++ childName ++ "\", newline missing?",
      some ⟨"<unknown>", lineno, col⟩⟩
  else .ok current

def childNameStr (ch : Child) : String :=
  match ch.childName with
  | some s => s
  | none => "None"

def isValueStart (t : Tok) : Bool :=
  match t with
  | .text _ => true
  | .yes => true
  | .no => true
  | .number _ => true
  | _ => false

/-- `p_value` / `p_number`: one value from the token stream, returning
its payload and the (lineno, lexpos) of its first token. -/
def parseValue (toks : List Token) (input : List Char) :
    Except PErr (Payload × Nat × Nat × List Token) :=
  match toks with
  | [] => .error (pError none input)
  | t :: rest =>
    match t.tok with
    | .text s => .ok (.str s, t.lineno, t.lexpos, rest)
    | .yes => .ok (.bool true, t.lineno, t.lexpos, rest)
    | .no => .ok (.bool false, t.lineno, t.lexpos, rest)
    | .number p =>
      match rest with
      | u :: rest2 =>
        match u.tok with
        | .unit m => .ok (pyMulUnit p m, t.lineno, t.lexpos, rest2)
        | _ => .ok (p, t.lineno, t.lexpos, rest)
      | [] => .ok (p, t.lineno, t.lexpos, rest)
    | _ => .error (pError (some t) input)

/-- `p_list` / `p_list_next`: the values following `value LIST_SEP`
(trailing comma accepted). -/
def parseListNext (fuel : Nat) (toks : List Token) (input : List Char) :
    Except PErr (List Payload × List Token) :=
  match fuel with
  | 0 => .error ⟨"fuel exhausted", none⟩
  | fuel + 1 =>
    match toks with
    | [] => .ok ([], [])
    | t :: _ =>
      if isValueStart t.tok then
        match parseValue toks input with
        | .error e => .error e
        | .ok (v, _, _, rest) =>
          match rest with
          | t2 :: rest2 =>
            if t2.tok = .listSep then
              match parseListNext fuel rest2 input with
              | .error e => .error e
              | .ok (vs, rest3) => .ok (v :: vs, rest3)
            else .ok ([v], rest)
          | [] => .ok ([v], rest)
      else .ok ([], toks)

/-- The right-hand side of an assignment: a single value, or a list
when a LIST_SEP follows the first value. -/
def parseAssignRhs (fuel : Nat) (toks : List Token) (input : List Char) :
    Except PErr (Payload × Nat × Nat × List Token) :=
  match parseValue toks input with
  | .error e => .error e
  | .ok (v1, ln, lp, rest) =>
    match rest with
    | t :: rest2 =>
      if t.tok = .listSep then
        match parseListNext fuel rest2 input with
        | .error e => .error e
        | .ok (vs, rest3) => .ok (.list (v1 :: vs), ln, lp, rest3)
      else .ok (v1, ln, lp, rest)
    | [] => .ok (v1, ln, lp, rest)

/-- `p_section_args`: comma-separated values; the resulting
`ConfigValue` is named `<args>`, holds the ordered list, and carries
the position of the last argument (the recursion's base case creates
it there). -/
def parseArgs (fuel : Nat) (toks : List Token) (input : List Char) :
    Except PErr (ConfigValue × List Token) :=
  match fuel with
  | 0 => .error ⟨"fuel exhausted", none⟩
  | fuel + 1 =>
    match parseValue toks input with
    | .error e => .error e
    | .ok (v1, ln, lp, rest) =>
      match rest with
      | t :: rest2 =>
        if t.tok = .listSep then
          match parseArgs fuel rest2 input with
          | .error e => .error e
          | .ok (argsv, rest3) =>
            match argsv.value with
            | .list l => .ok (⟨argsv.name, .list (v1 :: l), argsv.position⟩, rest3)
            | _ => .ok (argsv, rest3)
        else .ok (⟨some "<args>", .list [v1], ⟨"<unknown>", ln, columnPy input lp⟩⟩, rest)
      | [] => .ok (⟨some "<args>", .list [v1], ⟨"<unknown>", ln, columnPy input lp⟩⟩, rest)

/-- `p_top` / `p_section` child registration. -/
def registerChildren : List Child → ConfigSection → Except String ConfigSection
  | [], s => .ok s
  | ch :: rest, s =>
    match s.register ch none with
    | .ok s2 => registerChildren rest s2
    | .error e => .error e

mutual

/-- `section_content`: iterate statements until a closing brace or the
end of input, performing the newline-missing check after each child
with the lexer's current line (the line after the lookahead token, or
the final line at end of input), threading the parser's `_old_line`. -/
def parseContent (fuel : Nat) (toks : List Token) (oldLine : Nat)
    (acc : List Child) (input : List Char) (finalLineno : Nat) :
    Except PErr (List Child × Nat × List Token) :=
  match fuel with
  | 0 => .error ⟨"fuel exhausted", none⟩
  | fuel + 1 =>
    match toks with
    | [] => .ok (acc, oldLine, [])
    | t :: _ =>
      match t.tok with
      | .rbrace => .ok (acc, oldLine, toks)
      | .includeTok =>
        .error ⟨"include directive requires the filesystem (not modelled)", none⟩
      | _ =>
        match parseStatement fuel toks oldLine input finalLineno with
        | .error e => .error e
        | .ok (child, ln, lp, old2, rest) =>
          let current := match rest with | [] => finalLineno | u :: _ => u.afterLineno
          match checkLine old2 current ln (columnPy input lp) (childNameStr child) with
          | .error e => .error e
          | .ok old3 => parseContent fuel rest old3 (acc ++ [child]) input finalLineno

/-- One `assignment` or `section` statement, returning the child, the
(lineno, lexpos) of its first token, and the updated `_old_line`. -/
def parseStatement (fuel : Nat) (toks : List Token) (oldLine : Nat)
    (input : List Char) (finalLineno : Nat) :
    Except PErr (Child × Nat × Nat × Nat × List Token) :=
  match fuel with
  | 0 => .error ⟨"fuel exhausted", none⟩
  | fuel + 1 =>
    match toks with
    | [] => .error (pError none input)
    | t :: rest =>
      match t.tok with
      | .name n =>
        match rest with
        | [] => .error (pError none input)
        | t2 :: rest2 =>
          match t2.tok with
          | .assign =>
            match parseAssignRhs fuel rest2 input with
            | .error e => .error e
            | .ok (payload, vln, vlp, rest3) =>
              .ok (.value ⟨some n, payload, ⟨"<unknown>", vln, columnPy input vlp⟩⟩,
                t.lineno, t.lexpos, oldLine, rest3)
          | .lbrace =>
            match parseContent fuel rest2 oldLine [] input finalLineno with
            | .error e => .error e
            | .ok (children, old2, rest3) =>
              match rest3 with
              | [] => .error (pError none input)
              | _ :: rest4 =>
                match registerChildren children
                    (.mk n none ⟨"<unknown>", t.lineno, columnPy input t.lexpos⟩ [] []) with
                | .ok sec => .ok (.section sec, t.lineno, t.lexpos, old2, rest4)
                | .error ke => .error ⟨"KeyError: " ++ ke, none⟩
          | _ =>
            if isValueStart t2.tok then
              match parseArgs fuel rest input with
              | .error e => .error e
              | .ok (argsv, rest3) =>
                match rest3 with
                | [] => .error (pError none input)
                | t3 :: rest4 =>
                  if t3.tok = .lbrace then
                    match parseContent fuel rest4 oldLine [] input finalLineno with
                    | .error e => .error e
                    | .ok (children, old2, rest5) =>
                      match rest5 with
                      | [] => .error (pError none input)
                      | _ :: rest6 =>
                        match registerChildren children
                            (.mk n (some argsv)
                              ⟨"<unknown>", t.lineno, columnPy input t.lexpos⟩ [] []) with
                        | .ok sec => .ok (.section sec, t.lineno, t.lexpos, old2, rest6)
                        | .error ke => .error ⟨"KeyError: " ++ ke, none⟩
                  else .error (pError (some t3) input)
            else .error (pError (some t2) input)
      | _ => .error (pError (some t) input)

end

/-- Parse a whole input string into its `__top__` section
(`ConfitureParser.parse` with the default input name). -/
def parseTop (inputStr : String) : Except PErr ConfigSection :=
  match tokenize inputStr with
  | .error e => .error e
  | .ok (toks, finalLineno) =>
    match parseContent (2 * toks.length + 2) toks 0 [] inputStr.data finalLineno with
    | .error e => .error e
    | .ok (children, _, rest) =>
      match rest with
      | t :: _ => .error (pError (some t) inputStr.data)
      | [] =>
        match registerChildren children (.mk "__top__" none sentinelPos [] []) with
        | .ok sec => .ok sec
        | .error ke => .error ⟨"KeyError: " ++ ke, none⟩









/-- Claim C7: a NUMBER token followed by a UNIT keyword reduces to the
number multiplied by the unit's multiplier; the multipliers are the SI
decimal ones `k=10^3 .. Y=10^24` and the IEC binary ones
`Ki=2^10 .. Yi=2^80`; an int payload stays an int, a float payload a
float.  In particular parsing "x = 4 Ki" binds x to the integer 4096
and parsing "x = 1.5 M" binds x to the float 1500000.0. -/
theorem c7_number_unit :
    (keyGet "k" unitsList = some (10 ^ 3) ∧ keyGet "M" unitsList = some (10 ^ 6) ∧
     keyGet "G" unitsList = some (10 ^ 9) ∧ keyGet "T" unitsList = some (10 ^ 12) ∧
     keyGet "P" unitsList = some (10 ^ 15) ∧ keyGet "E" unitsList = some (10 ^ 18) ∧
     keyGet "Z" unitsList = some (10 ^ 21) ∧ keyGet "Y" unitsList = some (10 ^ 24) ∧
     keyGet "Ki" unitsList = some (2 ^ 10) ∧ keyGet "Mi" unitsList = some (2 ^ 20) ∧
     keyGet "Gi" unitsList = some (2 ^ 30) ∧ keyGet "Ti" unitsList = some (2 ^ 40) ∧
     keyGet "Pi" unitsList = some (2 ^ 50) ∧ keyGet "Ei" unitsList = some (2 ^ 60) ∧
     keyGet "Zi" unitsList = some (2 ^ 70) ∧ keyGet "Yi" unitsList = some (2 ^ 80)) ∧
    (∀ (p : Payload) (m : Nat) (t u : Token) (rest : List Token) (input : List Char),
      t.tok = .number p → u.tok = .unit m →
      parseValue (t :: u :: rest) input =
        .ok (pyMulUnit p m, t.lineno, t.lexpos, rest)) ∧
    (∀ (n : Int) (m : Nat), pyMulUnit (.int n) m = .int (n * (m : Int))) ∧
    (∀ (q : Rat) (m : Nat), pyMulUnit (.float q) m = .float (q * (m : Rat))) ∧
    parseTop "x = 4 Ki" =
      .ok (.mk "__top__" none sentinelPos
        [("x", ⟨some "x", .int 4096, ⟨"<unknown>", 1, 4⟩⟩)] []) ∧
    parseTop "x = 1.5 M" =
      .ok (.mk "__top__" none sentinelPos
        [("x", ⟨some "x", .float 1500000, ⟨"<unknown>", 1, 4⟩⟩)] []) := by
  refine ⟨by decide, ?_, fun n m => rfl, pyMulUnit_float, by decide, ?_⟩
  · intro p m t u rest input ht hu
    obtain ⟨tk, tln, tlp, tal⟩ := t
    obtain ⟨uk, uln, ulp, ual⟩ := u
    simp only at ht hu
    subst ht hu
    rfl
  · have he : (1500000 : Rat) = mkRat 1500000 1 := by norm_num
    rw [he]; decide

/-- Witness for `c7_number_unit`: the quantified reduction applied to
the NUMBER and UNIT tokens of "4 Ki". -/
theorem c7_number_unit_witness :
    parseValue [⟨.number (.int 4), 1, 4, 1⟩, ⟨.unit 1024, 1, 6, 1⟩] [] =
      .ok (.int 4096, 1, 4, []) := by
  have h := c7_number_unit.2.1 (.int 4) 1024 ⟨.number (.int 4), 1, 4, 1⟩
    ⟨.unit 1024, 1, 6, 1⟩ [] [] rfl rfl
  rw [h]; decide

/-- Claim C8 (counterexample): the newline-missing guard's message is
`'Syntax error near of "<name>", newline missing?'` — it contains
"near of", not the claimed `'Syntax error near "<name>", newline
missing?'`. -/
theorem c8_counterexample :
    parseTop "a = 1 b = 2" =
      .error ⟨"Syntax error near of \"b\", newline missing?",
        some ⟨"<unknown>", 1, 6⟩⟩ ∧
    ¬(match parseTop "a = 1 b = 2" with | .error e => e.msg | _ => "") =
      "Syntax error near \"b\", newline missing?" := by
  constructor
  · decide
  · decide

/-- Claim C8 (amended): two consecutive children of the same section
content reduced with the same current line number make parsing fail
with a ParsingError whose message is
`'Syntax error near of "<name>", newline missing?'` positioned at the
second child; `_check_line` errors exactly when the recorded line
equals the current one; "a = 1 b = 2" fails pointing at `b` (line 1,
column 6) while "a = 1\nb = 2\n" parses into the two assignments. -/
theorem c8_newline_guard :
    (∀ (oldLine current lineno col : Nat) (nm : String),
      (oldLine = current →
        checkLine oldLine current lineno col nm =
          .error ⟨"Syntax error near of \"" ++ nm ++ "\", newline missing?",
            some ⟨"<unknown>", lineno, col⟩⟩) ∧
      (oldLine ≠ current →
        checkLine oldLine current lineno col nm = .ok current)) ∧
    parseTop "a = 1 b = 2" =
      .error ⟨"Syntax error near of \"b\", newline missing?",
        some ⟨"<unknown>", 1, 6⟩⟩ ∧
    parseTop "a = 1\nb = 2\n" =
      .ok (.mk "__top__" none sentinelPos
        [("a", ⟨some "a", .int 1, ⟨"<unknown>", 1, 4⟩⟩),
         ("b", ⟨some "b", .int 2, ⟨"<unknown>", 2, 5⟩⟩)] []) := by
  refine ⟨?_, by decide, by decide⟩
  intro oldLine current lineno col nm
  constructor
  · intro h
    simp [checkLine, h]
  · intro h
    simp [checkLine, h]

/-- Witness for `c8_newline_guard`: the guard applied at equal and at
distinct line numbers. -/
theorem c8_newline_guard_witness :
    checkLine 1 1 1 6 "b" =
      .error ⟨"Syntax error near of \"b\", newline missing?",
        some ⟨"<unknown>", 1, 6⟩⟩ ∧
    checkLine 1 2 2 5 "b" = .ok 2 := by
  exact ⟨(c8_newline_guard.1 1 1 1 6 "b").1 rfl,
         (c8_newline_guard.1 1 2 2 5 "b").2 (by decide)⟩

/-!
## Claim C3: idempotence of validation

`Choice` breaks idempotence (its mapped values need not be acceptable
keys), so the claim is proved for schemas without `Choice`, with
type-fixpoint non-list defaults, and with `unique=false` subsection
schemas, on well-formed input trees (dict keys unique, list payloads
flat — every parsed tree is of this shape, since the grammar has no
nested lists).
-/

def isListP : Payload → Bool
  | .list _ => true
  | _ => false

/-- A payload as the parser produces: lists hold only scalars. -/
def FlatP : Payload → Prop
  | .list l => ∀ x ∈ l, isListP x = false
  | _ => True

/-- A well-formed section: flat payloads everywhere, and unique keys
in the `values` and `subsections` dicts. -/
inductive WfSec : ConfigSection → Prop where
  | mk : ∀ (name : String) (args : Option ConfigValue) (pos : Position)
      (values : List (String × ConfigValue))
      (subs : List (String × List ConfigSection)),
      (∀ v ∈ args, FlatP v.value) →
      (∀ p ∈ values, FlatP p.2.value) →
      (values.map Prod.fst).Nodup →
      (subs.map Prod.fst).Nodup →
      (∀ p ∈ subs, ∀ sub ∈ p.2, WfSec sub) →
      WfSec (.mk name args pos values subs)

def FlatObj : Obj → Prop
  | .pynone => True
  | .value v => FlatP v.value
  | .section s => WfSec s

/-- The schema class for which idempotence holds: `Value` containers
whose default (if any) is a non-list fixpoint of the declared type,
and `Section` containers with `unique=false`, duplicate-free field
names, and stable args container and fields. -/
inductive Stable : Container → Prop where
  | value : ∀ (t : SType) (d : Option Payload),
      (∀ dv ∈ d, isListP dv = false ∧ typeValidate t dv = .ok dv) →
      Stable (.value t d)
  | section : ∀ (argsc : Option Container) (rmin : Int) (rmax : Option Int)
      (allowU : Bool) (fields : List (String × Container)),
      (∀ ac ∈ argsc, Stable ac) →
      (∀ p ∈ fields, Stable p.2) →
      ((fields.map Prod.fst).Nodup) →
      Stable (.section argsc false rmin rmax allowU fields)

/-- The induction invariant: a successful validation of a flat input
yields a flat output that re-validates to itself; for a `Value`
container the output is a scalar-payload value and even the
re-validation's post-state is unchanged. -/
def IdemProp (c : Container) : Prop :=
  ∀ o out q, FlatObj o → validateC c o = (.ok out, q) →
    FlatObj out ∧ (validateC c out).1 = .ok out ∧
    (∀ t d, c = .value t d →
      (∃ vv, out = .value vv ∧ isListP vv.value = false) ∧
      (validateC c out).2 = out)

theorem typeValidate_fixpoint (t : SType) (u w : Payload)
    (hu : isListP u = false) (h : typeValidate t u = .ok w) :
    isListP w = false ∧ typeValidate t w = .ok w := by
  cases t with
  | number =>
    simp only [typeValidate] at h ⊢
    cases hn : numVal u with
    | none => rw [hn] at h; exact absurd h (by simp)
    | some q =>
      rw [hn] at h
      simp only [Except.ok.injEq] at h
      subst h
      rw [hn]
      exact ⟨hu, rfl⟩
  | integer mn mx =>
    simp only [typeValidate] at h ⊢
    cases hn : numVal u with
    | none => rw [hn] at h; exact absurd h (by simp)
    | some q =>
      rw [hn] at h
      simp only [] at h
      by_cases hden : q.den = 1
      · rw [if_pos hden] at h
        split at h
        · exact absurd h (by simp)
        · split at h
          · exact absurd h (by simp)
          · rename_i h1 h2
            simp only [Except.ok.injEq] at h
            subst h
            refine ⟨rfl, ?_⟩
            simp only [numVal, Rat.den_intCast, Rat.num_intCast, if_pos]
            rw [if_neg h1, if_neg h2]
      · rw [if_neg hden] at h; exact absurd h (by simp)
  | float =>
    simp only [typeValidate] at h ⊢
    cases hn : numVal u with
    | none => rw [hn] at h; exact absurd h (by simp)
    | some q =>
      rw [hn] at h
      simp only [Except.ok.injEq] at h
      subst h
      exact ⟨rfl, rfl⟩
  | boolean =>
    cases u with
    | bool b =>
      simp only [typeValidate, Except.ok.injEq] at h
      subst h
      exact ⟨rfl, rfl⟩
    | str s => simp [typeValidate] at h
    | int n => simp [typeValidate] at h
    | float q => simp [typeValidate] at h
    | list l => simp [typeValidate] at h
  | string =>
    simp only [typeValidate, Except.ok.injEq] at h
    subst h
    exact ⟨hu, rfl⟩

theorem flat_of_scalar {p : Payload} (h : isListP p = false) : FlatP p := by
  cases p <;> simp_all [isListP, FlatP]

theorem valueValidate_scalar (t : SType) (d : Option Payload) (v : ConfigValue)
    (h : isListP v.value = false) :
    valueValidate t d (some v) = (valueTypeStep t v, some v) := by
  obtain ⟨nm, pl, pos⟩ := v
  simp only [ConfigValue.value] at h
  cases pl <;> simp_all [valueValidate, isListP]

theorem valueTypeStep_ok (t : SType) (v : ConfigValue) (vv : ConfigValue)
    (h : valueTypeStep t v = .ok vv) :
    ∃ w, typeValidate t v.value = .ok w ∧ vv = ⟨v.name, w, v.position⟩ := by
  unfold valueTypeStep at h
  cases ht : typeValidate t v.value with
  | error m => rw [ht] at h; exact absurd h (by simp)
  | ok w =>
    rw [ht] at h
    simp only [Except.ok.injEq] at h
    exact ⟨w, rfl, h.symm⟩

theorem valueTypeStep_of (t : SType) (v : ConfigValue) (w : Payload)
    (h : typeValidate t v.value = .ok w) :
    valueTypeStep t v = .ok ⟨v.name, w, v.position⟩ := by
  unfold valueTypeStep
  rw [h]

theorem validateC_value_on_value (t : SType) (d : Option Payload) (v : ConfigValue) :
    validateC (.value t d) (.value v) =
      ((valueValidate t d (some v)).1.map .value,
       objOfOpt (valueValidate t d (some v)).2) := by
  rw [validateC] <;> simp [optOfObj]

theorem validateC_value_on_pynone (t : SType) (d : Option Payload) :
    validateC (.value t d) .pynone =
      ((valueValidate t d none).1.map .value, objOfOpt (valueValidate t d none).2) := by
  rw [validateC] <;> simp [optOfObj]

theorem validateC_value_on_section (t : SType) (d : Option Payload) (s : ConfigSection) :
    validateC (.value t d) (.section s) =
      (.error (.crash "AttributeError: ConfigSection object has no attribute value"),
       .section s) := by
  rw [validateC]

theorem value_idem_step (t : SType) (d : Option Payload) (v2 vv : ConfigValue)
    (hscal : isListP v2.value = false) (hstep : valueTypeStep t v2 = .ok vv) :
    FlatObj (.value vv) ∧
    (validateC (.value t d) (.value vv)).1 = .ok (.value vv) ∧
    isListP vv.value = false ∧
    (validateC (.value t d) (.value vv)).2 = .value vv := by
  obtain ⟨w, hw, rfl⟩ := valueTypeStep_ok t v2 vv hstep
  obtain ⟨hwScal, hwFix⟩ := typeValidate_fixpoint t v2.value w hscal hw
  have hreval : validateC (.value t d) (.value ⟨v2.name, w, v2.position⟩) =
      (.ok (.value ⟨v2.name, w, v2.position⟩), .value ⟨v2.name, w, v2.position⟩) := by
    rw [validateC_value_on_value]
    rw [valueValidate_scalar t d ⟨v2.name, w, v2.position⟩ (by simpa using hwScal)]
    rw [valueTypeStep_of t ⟨v2.name, w, v2.position⟩ w (by simpa using hwFix)]
    rfl
  refine ⟨flat_of_scalar (by simpa using hwScal), ?_, by simpa using hwScal, ?_⟩
  · rw [hreval]
  · rw [hreval]

theorem value_idem (t : SType) (d : Option Payload)
    (hd : ∀ dv ∈ d, isListP dv = false ∧ typeValidate t dv = .ok dv) :
    IdemProp (.value t d) := by
  intro o out q hflat hval
  rcases o with _ | v | s
  · rw [validateC_value_on_pynone] at hval
    cases d with
    | none => simp [valueValidate, Except.map] at hval
    | some dv =>
      obtain ⟨hdl, hdt⟩ := hd dv (by simp)
      simp only [valueValidate, objOfOpt, Except.map, Prod.mk.injEq,
        Except.ok.injEq] at hval
      obtain ⟨hout, hq⟩ := hval
      subst hout
      have hstep : valueTypeStep t (⟨none, dv, sentinelPos⟩ : ConfigValue) =
          .ok ⟨none, dv, sentinelPos⟩ :=
        valueTypeStep_of t ⟨none, dv, sentinelPos⟩ dv hdt
      obtain ⟨hfo, hrev, hsc, hpost⟩ := value_idem_step t (some dv) _ _ hdl hstep
      exact ⟨hfo, hrev, fun t2 d2 hc => ⟨⟨_, rfl, hsc⟩, hpost⟩⟩
  · rw [validateC_value_on_value] at hval
    by_cases hl : isListP v.value = true
    · obtain ⟨nm, pl, pos⟩ := v
      simp only [ConfigValue.value] at hl
      cases pl with
      | str s => simp [isListP] at hl
      | int n => simp [isListP] at hl
      | float qq => simp [isListP] at hl
      | bool b => simp [isListP] at hl
      | list l =>
        match l with
        | [] => simp [valueValidate, Except.map, Prod.mk.injEq] at hval
        | [x] =>
          have hx : isListP x = false := by
            have h2 := hflat
            simp only [FlatObj, ConfigValue.value, FlatP] at h2
            exact h2 x (by simp)
          simp only [valueValidate, Except.map, objOfOpt] at hval
          cases hst : valueTypeStep t ⟨nm, x, pos⟩ with
          | error e =>
            rw [hst] at hval
            simp at hval
          | ok vv =>
            rw [hst] at hval
            simp only [Prod.mk.injEq, Except.ok.injEq] at hval
            obtain ⟨hout, hq⟩ := hval
            subst hout
            obtain ⟨hfo, hrev, hsc, hpost⟩ :=
              value_idem_step t d ⟨nm, x, pos⟩ vv (by simpa using hx) hst
            exact ⟨hfo, hrev, fun t2 d2 hc => ⟨⟨_, rfl, hsc⟩, hpost⟩⟩
        | x :: y :: rest => simp [valueValidate, Except.map, Prod.mk.injEq] at hval
    · simp only [Bool.not_eq_true] at hl
      rw [valueValidate_scalar t d v hl] at hval
      simp only [Except.map, objOfOpt] at hval
      cases hst : valueTypeStep t v with
      | error e =>
        rw [hst] at hval
        simp at hval
      | ok vv =>
        rw [hst] at hval
        simp only [Prod.mk.injEq, Except.ok.injEq] at hval
        obtain ⟨hout, hq⟩ := hval
        subst hout
        obtain ⟨hfo, hrev, hsc, hpost⟩ := value_idem_step t d v vv hl hst
        exact ⟨hfo, hrev, fun t2 d2 hc => ⟨⟨_, rfl, hsc⟩, hpost⟩⟩
  · rw [validateC_value_on_section] at hval
    simp at hval

/-!
## Idempotence for `Section` containers

The remaining machinery for C3: association-list toolkit, a per-field
alignment relation between a schema's fields and the validated output's
entries, structure lemmas for both validation passes, and the
unknown-key sweep analysis.
-/

theorem keyMem_eq_false_iff (n : String) (l : List (String × α)) :
    keyMem n l = false ↔ ∀ p ∈ l, p.1 ≠ n := by
  induction l with
  | nil => simp [keyMem]
  | cons hd tl ih =>
    obtain ⟨k, v⟩ := hd
    simp [keyMem, ih, and_comm]

theorem keyMem_eq_true_iff (n : String) (l : List (String × α)) :
    keyMem n l = true ↔ ∃ p ∈ l, p.1 = n := by
  induction l with
  | nil => simp [keyMem]
  | cons hd tl ih =>
    obtain ⟨k, v⟩ := hd
    simp [keyMem, ih]

theorem keyGet_eq_none_iff (n : String) (l : List (String × α)) :
    keyGet n l = none ↔ ∀ p ∈ l, p.1 ≠ n := by
  induction l with
  | nil => simp [keyGet]
  | cons hd tl ih =>
    obtain ⟨k, v⟩ := hd
    by_cases hk : k = n
    · subst hk
      simp [keyGet]
    · simp [keyGet, hk, ih]

theorem keyGet_mem {n : String} {l : List (String × α)} {v : α}
    (h : keyGet n l = some v) : (n, v) ∈ l := by
  induction l with
  | nil => simp [keyGet] at h
  | cons hd tl ih =>
    obtain ⟨k, w⟩ := hd
    by_cases hk : k = n
    · subst hk
      simp [keyGet] at h
      simp [h]
    · simp [keyGet, hk] at h
      exact List.mem_cons_of_mem _ (ih h)

theorem keyMem_append (n : String) (a b : List (String × α)) :
    keyMem n (a ++ b) = (keyMem n a || keyMem n b) := by
  induction a with
  | nil => simp [keyMem]
  | cons hd tl ih => simp [keyMem, ih, Bool.or_assoc]

theorem keyMem_of_mem {p : String × α} {l : List (String × α)} (h : p ∈ l) :
    keyMem p.1 l = true := by
  rw [keyMem_eq_true_iff]
  exact ⟨p, h, rfl⟩

theorem setEntry_self {n : String} {l : List (String × α)} {v : α}
    (h : keyGet n l = some v) : setEntry n v l = l := by
  induction l with
  | nil => rfl
  | cons hd tl ih =>
    obtain ⟨k, w⟩ := hd
    by_cases hk : k = n
    · subst hk
      simp [keyGet] at h
      simp [setEntry, h]
    · simp [keyGet, hk] at h
      simp [setEntry, hk, ih h]

theorem setEntry_mem {p : String × α} {n : String} {x : α} {l : List (String × α)}
    (h : p ∈ setEntry n x l) : p ∈ l ∨ p = (n, x) := by
  induction l with
  | nil => simp [setEntry] at h
  | cons hd tl ih =>
    obtain ⟨k, w⟩ := hd
    by_cases hk : k = n
    · subst hk
      simp [setEntry] at h
      rcases h with h | h
      · exact Or.inr (by simp [h])
      · exact Or.inl (List.mem_cons_of_mem _ h)
    · simp [setEntry, hk] at h
      rcases h with h | h
      · exact Or.inl (by simp [h])
      · rcases ih h with h2 | h2
        · exact Or.inl (List.mem_cons_of_mem _ h2)
        · exact Or.inr h2

theorem setEntry_keys (n : String) (x : α) (l : List (String × α)) :
    (setEntry n x l).map Prod.fst = l.map Prod.fst := by
  induction l with
  | nil => rfl
  | cons hd tl ih =>
    obtain ⟨k, w⟩ := hd
    by_cases hk : k = n
    · subst hk; simp [setEntry]
    · simp [setEntry, hk, ih]

theorem setEntry_append_left {n : String} {a : List (String × α)}
    (b : List (String × α)) (x : α) (h : keyMem n a = false) :
    setEntry n x (a ++ b) = a ++ setEntry n x b := by
  induction a with
  | nil => rfl
  | cons hd tl ih =>
    obtain ⟨k, w⟩ := hd
    simp [keyMem] at h
    simp [setEntry, h.1, ih h.2]

theorem filter_key_setEntry {P : String → Bool} {n : String}
    (hP : P n = false) (x : α) (l : List (String × α)) :
    (setEntry n x l).filter (fun p => P p.1) = l.filter (fun p => P p.1) := by
  induction l with
  | nil => rfl
  | cons hd tl ih =>
    obtain ⟨k, w⟩ := hd
    by_cases hk : k = n
    · subst hk
      simp [setEntry, List.filter, hP]
    · simp only [setEntry, beq_iff_eq, hk, if_false]
      simp [List.filter_cons, ih]

theorem filter_filter_imp {p q : α → Bool} (l : List α)
    (h : ∀ a, q a = true → p a = true) :
    (l.filter p).filter q = l.filter q := by
  induction l with
  | nil => rfl
  | cons hd tl ih =>
    by_cases hq : q hd = true
    · have hp := h hd hq
      simp [List.filter_cons, hp, hq, ih]
    · simp only [Bool.not_eq_true] at hq
      by_cases hp : p hd = true
      · simp [List.filter_cons, hp, hq, ih]
      · simp only [Bool.not_eq_true] at hp
        simp [List.filter_cons, hp, hq, ih]

theorem keyGet_filter_key {P : String → Bool} {n : String}
    (hP : P n = true) (l : List (String × α)) :
    keyGet n (l.filter (fun p => P p.1)) = keyGet n l := by
  induction l with
  | nil => rfl
  | cons hd tl ih =>
    obtain ⟨k, w⟩ := hd
    by_cases hk : k = n
    · subst hk
      simp [List.filter_cons, hP, keyGet]
    · by_cases hPk : P k = true
      · simp [List.filter_cons, hPk, keyGet, hk, ih]
      · simp only [Bool.not_eq_true] at hPk
        simp [List.filter_cons, hPk, keyGet, hk, ih]

theorem filter_key_eq_self {P : String → Bool} {l : List (String × α)}
    (h : ∀ p ∈ l, P p.1 = true) : l.filter (fun p => P p.1) = l := by
  rw [List.filter_eq_self]
  intro a ha
  exact h a ha

theorem filter_key_eq_nil {P : String → Bool} {l : List (String × α)}
    (h : ∀ p ∈ l, P p.1 = false) : l.filter (fun p => P p.1) = [] := by
  induction l with
  | nil => rfl
  | cons hd tl ih =>
    have h1 := h hd (by simp)
    simp only [List.filter_cons, h1, Bool.false_eq_true, if_false]
    exact ih (fun p hp => h p (List.mem_cons_of_mem _ hp))

theorem filter_key_append (P : String → Bool) (a b : List (String × α)) :
    (a ++ b).filter (fun p => P p.1) =
      a.filter (fun p => P p.1) ++ b.filter (fun p => P p.1) :=
  List.filter_append a b

theorem sec_eta (s : ConfigSection) :
    s = .mk s.name s.argsRaw s.position s.values s.subsectionsMap := by
  cases s
  rfl

theorem insertAppend_absent {n : String} {m : List (String × List ConfigSection)}
    (h : keyMem n m = false) (sub : ConfigSection) :
    insertAppend n sub m = m ++ [(n, [sub])] := by
  induction m with
  | nil => rfl
  | cons hd tl ih =>
    obtain ⟨k, l⟩ := hd
    simp [keyMem] at h
    simp [insertAppend, h.1, ih h.2]

theorem insertAppend_append_left {n : String} {a : List (String × List ConfigSection)}
    (b : List (String × List ConfigSection)) (sub : ConfigSection)
    (h : keyMem n a = false) :
    insertAppend n sub (a ++ b) = a ++ insertAppend n sub b := by
  induction a with
  | nil => rfl
  | cons hd tl ih =>
    obtain ⟨k, l⟩ := hd
    simp [keyMem] at h
    simp [insertAppend, h.1, ih h.2]

theorem insertAppend_found_append {n : String} {m : List (String × List ConfigSection)}
    (p : List ConfigSection) (sub : ConfigSection) (h : keyMem n m = false) :
    insertAppend n sub (m ++ [(n, p)]) = m ++ [(n, p ++ [sub])] := by
  rw [insertAppend_append_left _ _ h]
  simp [insertAppend]

/-- Registering a list of subsection occurrences under one name:
iterated `insertAppend`. -/
def regGroup (n : String) (g : List ConfigSection)
    (m : List (String × List ConfigSection)) : List (String × List ConfigSection) :=
  g.foldl (fun acc sub => insertAppend n sub acc) m

theorem regGroup_nil (n : String) (m : List (String × List ConfigSection)) :
    regGroup n [] m = m := rfl

theorem regGroup_cons (n : String) (sub : ConfigSection) (g : List ConfigSection)
    (m : List (String × List ConfigSection)) :
    regGroup n (sub :: g) m = regGroup n g (insertAppend n sub m) := rfl

theorem regGroup_acc {n : String} {m : List (String × List ConfigSection)}
    (g : List ConfigSection) (p : List ConfigSection) (h : keyMem n m = false) :
    regGroup n g (m ++ [(n, p)]) = m ++ [(n, p ++ g)] := by
  induction g generalizing p with
  | nil => simp [regGroup_nil]
  | cons sub g ih =>
    rw [regGroup_cons, insertAppend_found_append p sub h, ih]
    simp

theorem regGroup_fresh {n : String} {m : List (String × List ConfigSection)}
    {g : List ConfigSection} (h : keyMem n m = false) (hg : g ≠ []) :
    regGroup n g m = m ++ [(n, g)] := by
  cases g with
  | nil => exact absurd rfl hg
  | cons sub g =>
    rw [regGroup_cons, insertAppend_absent h, regGroup_acc g [sub] h]
    simp

theorem keyMem_insertAppend (k n : String) (sub : ConfigSection)
    (m : List (String × List ConfigSection)) :
    keyMem k (insertAppend n sub m) = (keyMem k m || n == k) := by
  induction m with
  | nil => simp [insertAppend, keyMem]
  | cons hd tl ih =>
    obtain ⟨k2, l⟩ := hd
    by_cases hk : k2 = n
    · subst hk
      by_cases hkk : k2 = k
      · subst hkk
        simp [insertAppend, keyMem]
      · simp [insertAppend, keyMem, hkk]
    · simp [insertAppend, hk, keyMem, ih, Bool.or_assoc]

/-- `register` of a value child under an explicit name, unfolded. -/
theorem register_value_ok_inv {s : ConfigSection} {v : ConfigValue} {n : String}
    {out : ConfigSection} (h : s.register (.value v) (some n) = .ok out) :
    s.contains n = false ∧
    out = .mk s.name s.argsRaw s.position (s.values ++ [(n, v)]) s.subsectionsMap := by
  unfold ConfigSection.register at h
  simp only [Option.orElse, Option.some.injEq] at h
  cases hc : s.contains n with
  | true => rw [hc] at h; simp at h
  | false =>
    rw [hc] at h
    simp only [Bool.false_eq_true, if_false, Except.ok.injEq] at h
    exact ⟨rfl, h.symm⟩

theorem register_value_ok {s : ConfigSection} {n : String} (v : ConfigValue)
    (hc : s.contains n = false) :
    s.register (.value v) (some n) =
      .ok (.mk s.name s.argsRaw s.position (s.values ++ [(n, v)]) s.subsectionsMap) := by
  unfold ConfigSection.register
  simp [Option.orElse, hc]

theorem register_section_ok_inv {s : ConfigSection} {sub : ConfigSection} {n : String}
    {out : ConfigSection} (h : s.register (.section sub) (some n) = .ok out) :
    keyMem n s.values = false ∧
    out = .mk s.name s.argsRaw s.position s.values (insertAppend n sub s.subsectionsMap) := by
  unfold ConfigSection.register at h
  simp only [Option.orElse, Option.some.injEq] at h
  cases hc : keyMem n s.values with
  | true => rw [hc] at h; simp at h
  | false =>
    rw [hc] at h
    simp only [Bool.false_eq_true, if_false, Except.ok.injEq] at h
    exact ⟨rfl, h.symm⟩

theorem register_section_ok {s : ConfigSection} {n : String} (sub : ConfigSection)
    (hc : keyMem n s.values = false) :
    s.register (.section sub) (some n) =
      .ok (.mk s.name s.argsRaw s.position s.values
        (insertAppend n sub s.subsectionsMap)) := by
  unfold ConfigSection.register
  simp [Option.orElse, hc]

theorem contains_mk (nm : String) (a : Option ConfigValue) (pos : Position)
    (vs : List (String × ConfigValue)) (ss : List (String × List ConfigSection))
    (n : String) :
    ConfigSection.contains (.mk nm a pos vs ss) n = (keyMem n vs || keyMem n ss) := rfl

theorem register_contains_other {s out : ConfigSection} {ch : Child} {n m : String}
    (h : s.register ch (some n) = .ok out) (hne : m ≠ n) :
    out.contains m = s.contains m := by
  rcases ch with v | sub
  · obtain ⟨hc, rfl⟩ := register_value_ok_inv h
    simp only [ConfigSection.contains, ConfigSection.values, ConfigSection.subsectionsMap,
      keyMem_append]
    have hone : keyMem m [(n, v)] = false := by
      simp [keyMem]
      exact fun hq => absurd hq.symm hne
    rw [hone]
    simp
  · obtain ⟨hc, rfl⟩ := register_section_ok_inv h
    simp only [ConfigSection.contains, ConfigSection.values, ConfigSection.subsectionsMap,
      keyMem_insertAppend]
    have hone : (n == m) = false := by
      simp
      exact fun hq => absurd hq.symm hne
    rw [hone]
    simp

theorem expandSubs_append (a b : List (String × List ConfigSection)) :
    expandSubs (a ++ b) = expandSubs a ++ expandSubs b := by
  simp [expandSubs]

theorem filter_map_const_key {P : String → Bool} (k : String)
    (g : List ConfigSection) :
    (g.map (fun sub => (k, sub))).filter (fun p => P p.1) =
      if P k then g.map (fun sub => (k, sub)) else [] := by
  induction g with
  | nil => simp
  | cons sub g ih =>
    by_cases hP : P k = true
    · simp [List.filter_cons, hP, ih]
    · simp only [Bool.not_eq_true] at hP
      simp [List.filter_cons, hP, ih]

theorem filter_expandSubs (P : String → Bool) (m : List (String × List ConfigSection)) :
    (expandSubs m).filter (fun p => P p.1) =
      expandSubs (m.filter (fun p => P p.1)) := by
  induction m with
  | nil => rfl
  | cons hd tl ih =>
    obtain ⟨k, g⟩ := hd
    by_cases hP : P k = true
    · simp only [expandSubs, List.flatMap_cons, List.filter_append,
        List.filter_cons, hP, if_true]
      rw [← expandSubs, ← expandSubs, ih, filter_map_const_key, if_pos hP]
    · simp only [Bool.not_eq_true] at hP
      simp only [expandSubs, List.flatMap_cons, List.filter_append,
        List.filter_cons, hP, Bool.false_eq_true, if_false]
      rw [← expandSubs, ← expandSubs, ih, filter_map_const_key, if_neg (by simp [hP])]
      simp

theorem expandSubs_cons (k : String) (g : List ConfigSection)
    (tl : List (String × List ConfigSection)) :
    expandSubs ((k, g) :: tl) = g.map (fun sub => (k, sub)) ++ expandSubs tl := by
  simp [expandSubs]

theorem expandSubs_filter_ne_nil (m : List (String × List ConfigSection)) :
    expandSubs (m.filter (fun p => !p.2.isEmpty)) = expandSubs m := by
  induction m with
  | nil => rfl
  | cons hd tl ih =>
    obtain ⟨k, g⟩ := hd
    cases g with
    | nil =>
      rw [List.filter_cons]
      have h1 : (!((k, ([] : List ConfigSection)).2.isEmpty)) = false := rfl
      rw [h1]
      simp only [Bool.false_eq_true, if_false]
      rw [ih]
      simp [expandSubs]
    | cons sub g =>
      rw [List.filter_cons]
      have h1 : (!((k, sub :: g).2.isEmpty)) = true := rfl
      rw [h1]
      simp only [if_true]
      rw [expandSubs_cons, expandSubs_cons, ih]

/-- The undeclared-key filter of the expanded items of a section,
decomposed into its value and subsection parts. -/
theorem items_filter (fields : List (String × Container)) (s : ConfigSection) :
    s.iteritemsExpanded.filter (fun p => !keyMem p.1 fields) =
      (s.values.filter (fun p => !keyMem p.1 fields)).map
        (fun p => (p.1, Child.value p.2)) ++
      (expandSubs (s.subsectionsMap.filter (fun p => !keyMem p.1 fields))).map
        (fun p => (p.1, Child.section p.2)) := by
  rw [ConfigSection.iteritemsExpanded, List.filter_append]
  congr 1
  · rw [List.filter_map]
    rfl
  · rw [List.filter_map]
    have hc : ((fun p => !keyMem p.1 fields) ∘
        (fun p : String × ConfigSection => (p.1, Child.section p.2))) =
        (fun p : String × ConfigSection => !keyMem p.1 fields) := rfl
    rw [hc]
    exact congrArg (List.map (fun p : String × ConfigSection => (p.1, Child.section p.2)))
      (filter_expandSubs (fun k => !keyMem k fields) s.subsectionsMap)

/-- Alignment between a schema's field list and the entries the first
validation pass registered into the output: one value entry per
non-section field (a full-pair fixpoint of its container), and one
non-empty group of self-revalidating occurrences per section field
with at least one occurrence (none for an occurrence-free field whose
bounds admit zero). -/
inductive Aligned : List (String × Container) → List (String × ConfigValue) →
    List (String × List ConfigSection) → Prop where
  | nil : Aligned [] [] []
  | value : ∀ (n : String) (t : SType) (d : Option Payload) rest dv ds
      (vv : ConfigValue),
      validateC (.value t d) (.value vv) = (.ok (.value vv), .value vv) →
      Aligned rest dv ds →
      Aligned ((n, .value t d) :: rest) ((n, vv) :: dv) ds
  | secNil : ∀ (n : String) (a2 : Option Container) (r1 : Int) (r2 : Option Int)
      (au2 : Bool) (f2 : List (String × Container)) rest dv ds,
      rminGtRmax r1 r2 = false →
      decide ((0 : Int) < r1) = false →
      countGtRmax 0 r2 = false →
      Aligned rest dv ds →
      Aligned ((n, .section a2 false r1 r2 au2 f2) :: rest) dv ds
  | secCons : ∀ (n : String) (a2 : Option Container) (r1 : Int) (r2 : Option Int)
      (au2 : Bool) (f2 : List (String × Container)) rest dv ds
      (g : List ConfigSection),
      g ≠ [] →
      (∀ sub ∈ g,
        (validateC (.section a2 false r1 r2 au2 f2) (.section sub)).1 =
          .ok (.section sub)) →
      rminGtRmax r1 r2 = false →
      decide ((g.length : Int) < r1) = false →
      countGtRmax (g.length : Int) r2 = false →
      Aligned rest dv ds →
      Aligned ((n, .section a2 false r1 r2 au2 f2) :: rest) dv ((n, g) :: ds)

theorem aligned_declared {fields : List (String × Container)}
    {dv : List (String × ConfigValue)} {ds : List (String × List ConfigSection)}
    (h : Aligned fields dv ds) :
    (∀ p ∈ dv, keyMem p.1 fields = true) ∧ (∀ p ∈ ds, keyMem p.1 fields = true) := by
  induction h with
  | nil => exact ⟨by simp, by simp⟩
  | value n t d rest dv ds vv hrev hal ih =>
    refine ⟨?_, ?_⟩
    · intro p hp
      rcases List.mem_cons.mp hp with h | h
      · subst h; simp [keyMem]
      · simp [keyMem, ih.1 p h]
    · intro p hp
      simp [keyMem, ih.2 p hp]
  | secNil n a2 r1 r2 au2 f2 rest dv ds h1 h2 h3 hal ih =>
    refine ⟨?_, ?_⟩
    · intro p hp
      simp [keyMem, ih.1 p hp]
    · intro p hp
      simp [keyMem, ih.2 p hp]
  | secCons n a2 r1 r2 au2 f2 rest dv ds g hg hrev h1 h2 h3 hal ih =>
    refine ⟨?_, ?_⟩
    · intro p hp
      simp [keyMem, ih.1 p hp]
    · intro p hp
      rcases List.mem_cons.mp hp with h | h
      · subst h; simp [keyMem]
      · simp [keyMem, ih.2 p h]

theorem aligned_keys_sublist {fields : List (String × Container)}
    {dv : List (String × ConfigValue)} {ds : List (String × List ConfigSection)}
    (h : Aligned fields dv ds) :
    List.Sublist (dv.map Prod.fst) (fields.map Prod.fst) ∧
    List.Sublist (ds.map Prod.fst) (fields.map Prod.fst) := by
  induction h with
  | nil => exact ⟨List.Sublist.refl _, List.Sublist.refl _⟩
  | value n t d rest dv ds vv hrev hal ih =>
    exact ⟨List.Sublist.cons₂ _ ih.1, List.Sublist.cons _ ih.2⟩
  | secNil n a2 r1 r2 au2 f2 rest dv ds h1 h2 h3 hal ih =>
    exact ⟨List.Sublist.cons _ ih.1, List.Sublist.cons _ ih.2⟩
  | secCons n a2 r1 r2 au2 f2 rest dv ds g hg hrev h1 h2 h3 hal ih =>
    exact ⟨List.Sublist.cons _ ih.1, List.Sublist.cons₂ _ ih.2⟩

/-- The post-state of a `Value` container validation keeps the input's
payload flat (the only mutation is the in-place one-element list
unwrap). -/
theorem validateC_value_post {t : SType} {d : Option Payload} {o : Obj}
    {r1 : Except VErr Obj} {v2 : ConfigValue}
    (hflat : FlatObj o) (h : validateC (.value t d) o = (r1, .value v2)) :
    FlatP v2.value := by
  rcases o with _ | v | s
  · rw [validateC_value_on_pynone] at h
    rcases d with _ | dv
    · simp [valueValidate, objOfOpt] at h
    · simp [valueValidate, objOfOpt] at h
  · rw [validateC_value_on_value] at h
    obtain ⟨nm, pl, pos⟩ := v
    simp only [FlatObj, ConfigValue.value] at hflat
    cases pl with
    | str s2 =>
      simp [valueValidate, objOfOpt, ConfigValue.value] at h
      rw [← h.2]
      exact hflat
    | int n2 =>
      simp [valueValidate, objOfOpt, ConfigValue.value] at h
      rw [← h.2]
      exact hflat
    | float q =>
      simp [valueValidate, objOfOpt, ConfigValue.value] at h
      rw [← h.2]
      exact hflat
    | bool b =>
      simp [valueValidate, objOfOpt, ConfigValue.value] at h
      rw [← h.2]
      exact hflat
    | list l =>
      match l with
      | [] =>
        simp [valueValidate, objOfOpt, ConfigValue.value] at h
        rw [← h.2]
        exact hflat
      | [x] =>
        simp [valueValidate, objOfOpt, ConfigValue.value] at h
        rw [← h.2]
        simp only [ConfigValue.value]
        exact flat_of_scalar (hflat x (by simp))
      | x :: y :: rest =>
        simp [valueValidate, objOfOpt, ConfigValue.value] at h
        rw [← h.2]
        exact hflat
  · rw [validateC_value_on_section] at h
    simp at h

/-- Second pass over a group of already-validated subsection
occurrences: with `unique=false`, every occurrence revalidates to
itself and is registered, extending the entry of `n`. -/
theorem vs2 {c : Container} {n : String} (g : List ConfigSection) :
    ∀ (out : ConfigSection) (seen : List (Option (List Payload))),
    (∀ sub ∈ g, (validateC c (.section sub)).1 = .ok (.section sub)) →
    keyMem n out.values = false →
    ∃ posts, validateSubs c false n g seen out =
      (.ok (.mk out.name out.argsRaw out.position out.values
        (regGroup n g out.subsectionsMap)), posts) := by
  induction g with
  | nil =>
    intro out seen hrev hkv
    refine ⟨[], ?_⟩
    rw [validateSubs]
    rw [regGroup_nil, ← sec_eta]
  | cons sub g ih =>
    intro out seen hrev hkv
    cases hr : validateC c (.section sub) with
    | mk r1 r2 =>
      have hr1 : r1 = .ok (.section sub) := by
        have h2 := hrev sub (by simp)
        rw [hr] at h2
        exact h2
      subst hr1
      obtain ⟨posts', hrr⟩ := ih
        (.mk out.name out.argsRaw out.position out.values
          (insertAppend n sub out.subsectionsMap)) seen
        (fun s2 hs2 => hrev s2 (List.mem_cons_of_mem _ hs2))
        (by simpa [ConfigSection.values] using hkv)
      have hrr2 : validateSubs c false n g seen
          (.mk out.name out.argsRaw out.position out.values
            (insertAppend n sub out.subsectionsMap)) =
          (.ok (.mk out.name out.argsRaw out.position out.values
            (regGroup n (sub :: g) out.subsectionsMap)), posts') := by
        rw [hrr]
        simp only [ConfigSection.name, ConfigSection.argsRaw, ConfigSection.position,
          ConfigSection.values, ConfigSection.subsectionsMap]
        rw [regGroup_cons]
      rcases r2 with _ | v2 | sp
      · refine ⟨sub :: posts', ?_⟩
        rw [validateSubs]
        simp only [Bool.false_eq_true, if_false, hr, register_section_ok sub hkv, hrr2]
      · refine ⟨sub :: posts', ?_⟩
        rw [validateSubs]
        simp only [Bool.false_eq_true, if_false, hr, register_section_ok sub hkv, hrr2]
      · refine ⟨sp :: posts', ?_⟩
        rw [validateSubs]
        simp only [Bool.false_eq_true, if_false, hr, register_section_ok sub hkv, hrr2]

/-- First pass over the occurrences of one section field: on success
every occurrence validates to a well-formed section that revalidates
to itself, and the registered output extends the entry of `n` by the
validated occurrences in order. -/
theorem vs_ok {c : Container} {n : String} (hIdem : IdemProp c) :
    ∀ (subs : List ConfigSection) (seen : List (Option (List Payload)))
      (out res : ConfigSection) (posts : List ConfigSection),
    validateSubs c false n subs seen out = (.ok res, posts) →
    (∀ sub ∈ subs, WfSec sub) →
    ∃ vg, vg.length = subs.length ∧
      (∀ sub ∈ vg, WfSec sub ∧ (validateC c (.section sub)).1 = .ok (.section sub)) ∧
      res = .mk out.name out.argsRaw out.position out.values
        (regGroup n vg out.subsectionsMap) := by
  intro subs
  induction subs with
  | nil =>
    intro seen out res posts h hwf
    rw [validateSubs] at h
    simp only [Prod.mk.injEq, Except.ok.injEq] at h
    refine ⟨[], rfl, by simp, ?_⟩
    rw [regGroup_nil, ← sec_eta]
    exact h.1.symm
  | cons sub rest ih =>
    intro seen out res posts h hwf
    rw [validateSubs] at h
    simp only [Bool.false_eq_true, if_false] at h
    cases hr : validateC c (.section sub) with
    | mk r1 r2 =>
      rw [hr] at h
      simp only [] at h
      cases r1 with
      | error e => simp at h
      | ok o2 =>
        rcases o2 with _ | v | vsub
        · simp at h
        · simp at h
        · simp only [] at h
          cases hreg : out.register (.section vsub) (some n) with
          | error ke =>
            rw [hreg] at h
            simp at h
          | ok out2 =>
            rw [hreg] at h
            simp only [] at h
            cases hrr : validateSubs c false n rest seen out2 with
            | mk rr1 rr2 =>
              rw [hrr] at h
              simp only [Prod.mk.injEq] at h
              obtain ⟨hrr1, hposts⟩ := h
              subst hrr1
              obtain ⟨vg, hlen, hvg, hres⟩ := ih seen out2 res rr2 hrr
                (fun s2 hs2 => hwf s2 (List.mem_cons_of_mem _ hs2))
              obtain ⟨hwfv, hrev⟩ := hIdem (.section sub) (.section vsub) r2
                (hwf sub (by simp)) (by rw [hr])
              obtain ⟨hkv, hout2⟩ := register_section_ok_inv hreg
              refine ⟨vsub :: vg, by simp [hlen], ?_, ?_⟩
              · intro s2 hs2
                rcases List.mem_cons.mp hs2 with h2 | h2
                · subst h2
                  exact ⟨hwfv, hrev.1⟩
                · exact hvg s2 h2
              · rw [hres, hout2]
                simp [ConfigSection.name, ConfigSection.argsRaw, ConfigSection.position,
                  ConfigSection.values, ConfigSection.subsectionsMap, regGroup_cons]

/-- On a successful `validateFields` run the input section keeps its
name, args and position, its entries under undeclared keys are
untouched, and duplicate-freedom of its subsection keys is
preserved. -/
theorem vf_undecl :
    ∀ (fields : List (String × Container)) (s out0 out1 s3 : ConfigSection),
    validateFields fields s out0 = (.ok out1, s3) →
    s3.name = s.name ∧ s3.argsRaw = s.argsRaw ∧ s3.position = s.position ∧
    s3.values.filter (fun p => !keyMem p.1 fields) =
      s.values.filter (fun p => !keyMem p.1 fields) ∧
    s3.subsectionsMap.filter (fun p => !keyMem p.1 fields) =
      s.subsectionsMap.filter (fun p => !keyMem p.1 fields) ∧
    ((s.subsectionsMap.map Prod.fst).Nodup → (s3.subsectionsMap.map Prod.fst).Nodup) := by
  intro fields
  induction fields with
  | nil =>
    intro s out0 out1 s3 h
    rw [validateFields] at h
    simp only [Prod.mk.injEq, Except.ok.injEq] at h
    rw [← h.2]
    exact ⟨rfl, rfl, rfl, rfl, rfl, fun hnd => hnd⟩
  | cons hd rest ih =>
    obtain ⟨n, c⟩ := hd
    intro s out0 out1 s3 h
    rcases c with ⟨t, d⟩ | ⟨ch, d⟩ | ⟨a2, u2, rr1, rr2, au2, f2⟩
    · -- a `Value` field goes through the generic branch
      rw [validateFields] at h
      have himpV : ∀ a : String × ConfigValue,
          (fun p : String × ConfigValue =>
            !keyMem p.1 ((n, Container.value t d) :: rest)) a = true →
          (fun p : String × ConfigValue => !keyMem p.1 rest) a = true := by
        intro a ha
        simp only [keyMem, Bool.not_or, Bool.and_eq_true] at ha
        exact ha.2
      have himpS : ∀ a : String × List ConfigSection,
          (fun p : String × List ConfigSection =>
            !keyMem p.1 ((n, Container.value t d) :: rest)) a = true →
          (fun p : String × List ConfigSection => !keyMem p.1 rest) a = true := by
        intro a ha
        simp only [keyMem, Bool.not_or, Bool.and_eq_true] at ha
        exact ha.2
      have hPn : (fun k => !keyMem k ((n, Container.value t d) :: rest)) n = false := by
        simp [keyMem]
      cases hr : validateC (Container.value t d) (objOfOpt (s.get n)) with
      | mk r1 r2 =>
        rw [hr] at h
        rcases r2 with _ | v2 | sp2
        · -- post-state None: the input section is unchanged
          cases r1 with
          | error e =>
            rcases e with ⟨msg, pos⟩ | w
            · simp at h
            · simp at h
          | ok o =>
            rcases o with _ | vv | sp3
            · simp at h
            · simp only [] at h
              cases hreg : out0.register (.value vv) (some n) with
              | error ke =>
                rw [hreg] at h
                simp at h
              | ok out2 =>
                rw [hreg] at h
                simp only [] at h
                obtain ⟨ihn, iha, ihp, ihv, ihs, ihnd⟩ := ih _ _ _ _ h
                exact ⟨ihn, iha, ihp,
                  by rw [← filter_filter_imp s3.values himpV, ihv, filter_filter_imp _ himpV],
                  by rw [← filter_filter_imp s3.subsectionsMap himpS, ihs,
                       filter_filter_imp _ himpS],
                  ihnd⟩
            · simp at h
        · -- post-state a value: the declared entry is overwritten in place
          cases r1 with
          | error e =>
            rcases e with ⟨msg, pos⟩ | w
            · simp at h
            · simp at h
          | ok o =>
            rcases o with _ | vv | sp3
            · simp at h
            · simp only [] at h
              cases hreg : out0.register (.value vv) (some n) with
              | error ke =>
                rw [hreg] at h
                simp at h
              | ok out2 =>
                rw [hreg] at h
                simp only [] at h
                obtain ⟨ihn, iha, ihp, ihv, ihs, ihnd⟩ := ih _ _ _ _ h
                refine ⟨?_, ?_, ?_, ?_, ?_, ?_⟩
                · rw [ihn]; simp [setValueEntry, ConfigSection.name]
                · rw [iha]; simp [setValueEntry, ConfigSection.argsRaw]
                · rw [ihp]; simp [setValueEntry, ConfigSection.position]
                · rw [← filter_filter_imp s3.values himpV, ihv, filter_filter_imp _ himpV]
                  simp only [setValueEntry, ConfigSection.values]
                  exact filter_key_setEntry (P := fun k => !keyMem k ((n, Container.value t d) :: rest))
                    hPn v2 s.values
                · rw [← filter_filter_imp s3.subsectionsMap himpS, ihs,
                    filter_filter_imp _ himpS]
                  simp [setValueEntry, ConfigSection.subsectionsMap]
                · intro hnd
                  apply ihnd
                  simpa [setValueEntry, ConfigSection.subsectionsMap] using hnd
            · simp at h
        · -- post-state a section: the input section is unchanged
          cases r1 with
          | error e =>
            rcases e with ⟨msg, pos⟩ | w
            · simp at h
            · simp at h
          | ok o =>
            rcases o with _ | vv | sp3
            · simp at h
            · simp only [] at h
              cases hreg : out0.register (.value vv) (some n) with
              | error ke =>
                rw [hreg] at h
                simp at h
              | ok out2 =>
                rw [hreg] at h
                simp only [] at h
                obtain ⟨ihn, iha, ihp, ihv, ihs, ihnd⟩ := ih _ _ _ _ h
                exact ⟨ihn, iha, ihp,
                  by rw [← filter_filter_imp s3.values himpV, ihv, filter_filter_imp _ himpV],
                  by rw [← filter_filter_imp s3.subsectionsMap himpS, ihs,
                       filter_filter_imp _ himpS],
                  ihnd⟩
            · simp at h
      next =>
        intro a1 b1 c1 d1 e1 f1 hcon
        exact Container.noConfusion hcon
    · -- a `Choice` field goes through the same generic branch
      rw [validateFields] at h
      have himpV : ∀ a : String × ConfigValue,
          (fun p : String × ConfigValue =>
            !keyMem p.1 ((n, Container.choice ch d) :: rest)) a = true →
          (fun p : String × ConfigValue => !keyMem p.1 rest) a = true := by
        intro a ha
        simp only [keyMem, Bool.not_or, Bool.and_eq_true] at ha
        exact ha.2
      have himpS : ∀ a : String × List ConfigSection,
          (fun p : String × List ConfigSection =>
            !keyMem p.1 ((n, Container.choice ch d) :: rest)) a = true →
          (fun p : String × List ConfigSection => !keyMem p.1 rest) a = true := by
        intro a ha
        simp only [keyMem, Bool.not_or, Bool.and_eq_true] at ha
        exact ha.2
      have hPn : (fun k => !keyMem k ((n, Container.choice ch d) :: rest)) n = false := by
        simp [keyMem]
      cases hr : validateC (Container.choice ch d) (objOfOpt (s.get n)) with
      | mk r1 r2 =>
        rw [hr] at h
        rcases r2 with _ | v2 | sp2
        · -- post-state None: the input section is unchanged
          cases r1 with
          | error e =>
            rcases e with ⟨msg, pos⟩ | w
            · simp at h
            · simp at h
          | ok o =>
            rcases o with _ | vv | sp3
            · simp at h
            · simp only [] at h
              cases hreg : out0.register (.value vv) (some n) with
              | error ke =>
                rw [hreg] at h
                simp at h
              | ok out2 =>
                rw [hreg] at h
                simp only [] at h
                obtain ⟨ihn, iha, ihp, ihv, ihs, ihnd⟩ := ih _ _ _ _ h
                exact ⟨ihn, iha, ihp,
                  by rw [← filter_filter_imp s3.values himpV, ihv, filter_filter_imp _ himpV],
                  by rw [← filter_filter_imp s3.subsectionsMap himpS, ihs,
                       filter_filter_imp _ himpS],
                  ihnd⟩
            · simp at h
        · -- post-state a value: the declared entry is overwritten in place
          cases r1 with
          | error e =>
            rcases e with ⟨msg, pos⟩ | w
            · simp at h
            · simp at h
          | ok o =>
            rcases o with _ | vv | sp3
            · simp at h
            · simp only [] at h
              cases hreg : out0.register (.value vv) (some n) with
              | error ke =>
                rw [hreg] at h
                simp at h
              | ok out2 =>
                rw [hreg] at h
                simp only [] at h
                obtain ⟨ihn, iha, ihp, ihv, ihs, ihnd⟩ := ih _ _ _ _ h
                refine ⟨?_, ?_, ?_, ?_, ?_, ?_⟩
                · rw [ihn]; simp [setValueEntry, ConfigSection.name]
                · rw [iha]; simp [setValueEntry, ConfigSection.argsRaw]
                · rw [ihp]; simp [setValueEntry, ConfigSection.position]
                · rw [← filter_filter_imp s3.values himpV, ihv, filter_filter_imp _ himpV]
                  simp only [setValueEntry, ConfigSection.values]
                  exact filter_key_setEntry (P := fun k => !keyMem k ((n, Container.choice ch d) :: rest))
                    hPn v2 s.values
                · rw [← filter_filter_imp s3.subsectionsMap himpS, ihs,
                    filter_filter_imp _ himpS]
                  simp [setValueEntry, ConfigSection.subsectionsMap]
                · intro hnd
                  apply ihnd
                  simpa [setValueEntry, ConfigSection.subsectionsMap] using hnd
            · simp at h
        · -- post-state a section: the input section is unchanged
          cases r1 with
          | error e =>
            rcases e with ⟨msg, pos⟩ | w
            · simp at h
            · simp at h
          | ok o =>
            rcases o with _ | vv | sp3
            · simp at h
            · simp only [] at h
              cases hreg : out0.register (.value vv) (some n) with
              | error ke =>
                rw [hreg] at h
                simp at h
              | ok out2 =>
                rw [hreg] at h
                simp only [] at h
                obtain ⟨ihn, iha, ihp, ihv, ihs, ihnd⟩ := ih _ _ _ _ h
                exact ⟨ihn, iha, ihp,
                  by rw [← filter_filter_imp s3.values himpV, ihv, filter_filter_imp _ himpV],
                  by rw [← filter_filter_imp s3.subsectionsMap himpS, ihs,
                       filter_filter_imp _ himpS],
                  ihnd⟩
            · simp at h
      next =>
        intro a1 b1 c1 d1 e1 f1 hcon
        exact Container.noConfusion hcon
    · -- a `Section` field
      rw [validateFields] at h
      have himpV : ∀ a : String × ConfigValue,
          (fun p : String × ConfigValue =>
            !keyMem p.1 ((n, Container.section a2 u2 rr1 rr2 au2 f2) :: rest)) a = true →
          (fun p : String × ConfigValue => !keyMem p.1 rest) a = true := by
        intro a ha
        simp only [keyMem, Bool.not_or, Bool.and_eq_true] at ha
        exact ha.2
      have himpS : ∀ a : String × List ConfigSection,
          (fun p : String × List ConfigSection =>
            !keyMem p.1 ((n, Container.section a2 u2 rr1 rr2 au2 f2) :: rest)) a = true →
          (fun p : String × List ConfigSection => !keyMem p.1 rest) a = true := by
        intro a ha
        simp only [keyMem, Bool.not_or, Bool.and_eq_true] at ha
        exact ha.2
      have hPn : (fun k => !keyMem k ((n, Container.section a2 u2 rr1 rr2 au2 f2) :: rest)) n = false := by
        simp [keyMem]
      cases hg : keyGet n s.subsectionsMap with
      | some subs =>
        have hsub : s.subsections n = (subs, s) := by
          simp [ConfigSection.subsections, hg]
        rw [hsub] at h
        split at h
        case isTrue => simp at h
        split at h
        case isTrue => simp at h
        split at h
        case isTrue => simp at h
        cases hvs : validateSubs (.section a2 u2 rr1 rr2 au2 f2) u2 n subs [] out0 with
        | mk vr vposts =>
          rw [hvs] at h
          simp only [] at h
          cases vr with
          | error e => simp at h
          | ok out2 =>
            obtain ⟨ihn, iha, ihp, ihv, ihs, ihnd⟩ := ih _ _ _ _ h
            refine ⟨?_, ?_, ?_, ?_, ?_, ?_⟩
            · rw [ihn]; simp [setSubsEntry, ConfigSection.name]
            · rw [iha]; simp [setSubsEntry, ConfigSection.argsRaw]
            · rw [ihp]; simp [setSubsEntry, ConfigSection.position]
            · rw [← filter_filter_imp s3.values himpV, ihv, filter_filter_imp _ himpV]
              simp [setSubsEntry, ConfigSection.values]
            · rw [← filter_filter_imp s3.subsectionsMap himpS, ihs,
                filter_filter_imp _ himpS]
              simp only [setSubsEntry, ConfigSection.subsectionsMap]
              exact filter_key_setEntry
                (P := fun k => !keyMem k ((n, Container.section a2 u2 rr1 rr2 au2 f2) :: rest))
                hPn vposts s.subsectionsMap
            · intro hnd
              apply ihnd
              simpa [setSubsEntry, ConfigSection.subsectionsMap, setEntry_keys] using hnd
      | none =>
        have hkm : keyMem n s.subsectionsMap = false := by
          rw [keyMem_eq_false_iff]
          exact (keyGet_eq_none_iff n s.subsectionsMap).mp hg
        have hsub : s.subsections n =
            ([], .mk s.name s.argsRaw s.position s.values
              (s.subsectionsMap ++ [(n, [])])) := by
          simp [ConfigSection.subsections, hg]
        rw [hsub] at h
        split at h
        case isTrue => simp at h
        split at h
        case isTrue => simp at h
        split at h
        case isTrue => simp at h
        cases hvs : validateSubs (.section a2 u2 rr1 rr2 au2 f2) u2 n
            ([] : List ConfigSection) [] out0 with
        | mk vr vposts =>
          rw [hvs] at h
          simp only [] at h
          cases vr with
          | error e => simp at h
          | ok out2 =>
            have hset : setSubsEntry
                (.mk s.name s.argsRaw s.position s.values (s.subsectionsMap ++ [(n, [])]))
                n vposts =
                .mk s.name s.argsRaw s.position s.values
                  (s.subsectionsMap ++ [(n, vposts)]) := by
              show ConfigSection.mk s.name s.argsRaw s.position s.values
                (setEntry n vposts (s.subsectionsMap ++ [(n, [])])) = _
              rw [setEntry_append_left _ _ hkm]
              simp [setEntry]
            simp only [] at h
            rw [hset] at h
            obtain ⟨ihn, iha, ihp, ihv, ihs, ihnd⟩ := ih _ _ _ _ h
            refine ⟨?_, ?_, ?_, ?_, ?_, ?_⟩
            · rw [ihn]; simp [ConfigSection.name]
            · rw [iha]; simp [ConfigSection.argsRaw]
            · rw [ihp]; simp [ConfigSection.position]
            · rw [← filter_filter_imp s3.values himpV, ihv, filter_filter_imp _ himpV]
              simp [ConfigSection.values]
            · rw [← filter_filter_imp s3.subsectionsMap himpS, ihs,
                filter_filter_imp _ himpS]
              show List.filter _ (s.subsectionsMap ++ [(n, vposts)]) = _
              rw [List.filter_append]
              have hdrop : List.filter
                  (fun p => !keyMem p.1 ((n, Container.section a2 u2 rr1 rr2 au2 f2) :: rest))
                  [(n, vposts)] = [] := by
                simp [List.filter, keyMem]
              rw [hdrop]
              simp
            · intro hnd
              apply ihnd
              show ((s.subsectionsMap ++ [(n, vposts)]).map Prod.fst).Nodup
              have hnmem : n ∉ s.subsectionsMap.map Prod.fst := by
                intro hmem
                obtain ⟨p, hp, hp1⟩ := List.mem_map.mp hmem
                exact ((keyGet_eq_none_iff n s.subsectionsMap).mp hg p hp) hp1
              simp [List.nodup_append, hnd, hnmem]

theorem stable_section_inv {a2 : Option Container} {u2 : Bool} {rr1 : Int}
    {rr2 : Option Int} {au2 : Bool} {f2 : List (String × Container)}
    (h : Stable (.section a2 u2 rr1 rr2 au2 f2)) :
    u2 = false ∧ (∀ ac ∈ a2, Stable ac) ∧ (∀ p ∈ f2, Stable p.2) ∧
    (f2.map Prod.fst).Nodup := by
  cases h with
  | «section» argsc rmin rmax allowU fields hac hstf hndf =>
    exact ⟨rfl, hac, hstf, hndf⟩

/-- First-pass structure of a successful `validateFields` run over a
stable schema: the output is the accumulator extended by one value
entry per non-section field and one non-empty validated group per
occupied section field, all aligned with the field list; every
registered payload is flat and every registered occurrence is a
well-formed section. -/
theorem vf_ok :
    ∀ (fields : List (String × Container)) (s out0 out1 s3 : ConfigSection),
    validateFields fields s out0 = (.ok out1, s3) →
    (∀ p ∈ fields, Stable p.2 ∧ IdemProp p.2) →
    (fields.map Prod.fst).Nodup →
    (∀ p ∈ s.values, FlatP p.2.value) →
    (∀ p ∈ s.subsectionsMap, keyMem p.1 fields = true → ∀ sub ∈ p.2, WfSec sub) →
    (∀ p ∈ fields, out0.contains p.1 = false) →
    ∃ dv ds,
      out1 = .mk out0.name out0.argsRaw out0.position (out0.values ++ dv)
        (out0.subsectionsMap ++ ds) ∧
      Aligned fields dv ds ∧
      (∀ p ∈ dv, FlatP p.2.value) ∧
      (∀ p ∈ ds, ∀ sub ∈ p.2, WfSec sub) := by
  intro fields
  induction fields with
  | nil =>
    intro s out0 out1 s3 h hstab hnd hsv hsubs hout
    rw [validateFields] at h
    simp only [Prod.mk.injEq, Except.ok.injEq] at h
    refine ⟨[], [], ?_, Aligned.nil, by simp, by simp⟩
    rw [← h.1]
    simp [← sec_eta]
  | cons hd rest ih =>
    obtain ⟨n, c⟩ := hd
    intro s out0 out1 s3 h hstab hnd hsv hsubs hout
    rcases c with ⟨t, d⟩ | ⟨ch, d⟩ | ⟨a2, u2, rr1, rr2, au2, f2⟩
    · -- a `Value` field
      have hIdem := (hstab (n, Container.value t d) (by simp)).2
      rw [validateFields] at h
      have hflat_in : FlatObj (objOfOpt (s.get n)) := by
        cases hgn : s.get n with
        | none => simp [objOfOpt, FlatObj]
        | some v =>
          have hm := hsv (n, v) (keyGet_mem hgn)
          simpa [objOfOpt, FlatObj] using hm
      cases hr : validateC (.value t d) (objOfOpt (s.get n)) with
      | mk r1 r2 =>
        rw [hr] at h
        rcases r2 with _ | v2 | sp2
        · -- input post-state `None`: the input section is untouched
          cases r1 with
          | error e =>
            rcases e with ⟨msg, pos⟩ | w
            · simp at h
            · simp at h
          | ok o =>
            rcases o with _ | vv | sp3
            · simp at h
            · simp only [] at h
              cases hreg : out0.register (.value vv) (some n) with
              | error ke =>
                rw [hreg] at h
                simp at h
              | ok out2 =>
                rw [hreg] at h
                have h2 : validateFields rest s out2 = (.ok out1, s3) := h
                obtain ⟨hfo, hrev1, hextra⟩ := hIdem (objOfOpt (s.get n)) (.value vv)
                  .pynone hflat_in hr
                obtain ⟨⟨vv2, hvv2, hscal⟩, hpost⟩ := hextra t d rfl
                have hpair : validateC (.value t d) (.value vv) =
                    (.ok (.value vv), .value vv) := Prod.ext hrev1 hpost
                obtain ⟨hcont, hout2⟩ := register_value_ok_inv hreg
                have hsubs1 : ∀ p ∈ s.subsectionsMap,
                    keyMem p.1 rest = true → ∀ sub ∈ p.2, WfSec sub := by
                  intro p hp hk
                  exact hsubs p hp (by simp [keyMem, hk])
                have hout' : ∀ p ∈ rest, out2.contains p.1 = false := by
                  intro p hp
                  have hne : p.1 ≠ n := by
                    intro hq
                    have hmem : n ∈ rest.map Prod.fst := by
                      rw [← hq]
                      exact List.mem_map_of_mem _ hp
                    exact (List.nodup_cons.mp hnd).1 hmem
                  rw [register_contains_other hreg hne]
                  exact hout p (List.mem_cons_of_mem _ hp)
                obtain ⟨dv', ds', hout1, hal, hdvf, hdsw⟩ := ih s out2 out1 s3 h2
                  (fun p hp => hstab p (List.mem_cons_of_mem _ hp))
                  (List.Nodup.of_cons hnd) hsv hsubs1 hout'
                refine ⟨(n, vv) :: dv', ds', ?_, ?_, ?_, hdsw⟩
                · rw [hout1, hout2]
                  simp [ConfigSection.name, ConfigSection.argsRaw, ConfigSection.position,
                    ConfigSection.values, ConfigSection.subsectionsMap, List.append_assoc]
                · exact Aligned.value n t d rest dv' ds' vv hpair hal
                · intro p hp
                  rcases List.mem_cons.mp hp with hp1 | hp1
                  · subst hp1
                    exact hfo
                  · exact hdvf p hp1
            · simp at h
        · -- input post-state a value: the list-unwrap happened in place
          cases r1 with
          | error e =>
            rcases e with ⟨msg, pos⟩ | w
            · simp at h
            · simp at h
          | ok o =>
            rcases o with _ | vv | sp3
            · simp at h
            · simp only [] at h
              cases hreg : out0.register (.value vv) (some n) with
              | error ke =>
                rw [hreg] at h
                simp at h
              | ok out2 =>
                rw [hreg] at h
                have h2 : validateFields rest (setValueEntry s n v2) out2 =
                    (.ok out1, s3) := h
                obtain ⟨hfo, hrev1, hextra⟩ := hIdem (objOfOpt (s.get n)) (.value vv)
                  (.value v2) hflat_in hr
                obtain ⟨⟨vv2, hvv2, hscal⟩, hpost⟩ := hextra t d rfl
                have hpair : validateC (.value t d) (.value vv) =
                    (.ok (.value vv), .value vv) := Prod.ext hrev1 hpost
                obtain ⟨hcont, hout2⟩ := register_value_ok_inv hreg
                have hflatv2 : FlatP v2.value := validateC_value_post hflat_in hr
                have hsv1 : ∀ p ∈ (setValueEntry s n v2).values, FlatP p.2.value := by
                  intro p hp
                  rcases setEntry_mem hp with h3 | h3
                  · exact hsv p h3
                  · rw [h3]
                    exact hflatv2
                have hsubs1 : ∀ p ∈ (setValueEntry s n v2).subsectionsMap,
                    keyMem p.1 rest = true → ∀ sub ∈ p.2, WfSec sub := by
                  intro p hp hk
                  exact hsubs p hp (by simp [keyMem, hk])
                have hout' : ∀ p ∈ rest, out2.contains p.1 = false := by
                  intro p hp
                  have hne : p.1 ≠ n := by
                    intro hq
                    have hmem : n ∈ rest.map Prod.fst := by
                      rw [← hq]
                      exact List.mem_map_of_mem _ hp
                    exact (List.nodup_cons.mp hnd).1 hmem
                  rw [register_contains_other hreg hne]
                  exact hout p (List.mem_cons_of_mem _ hp)
                obtain ⟨dv', ds', hout1, hal, hdvf, hdsw⟩ :=
                  ih (setValueEntry s n v2) out2 out1 s3 h2
                  (fun p hp => hstab p (List.mem_cons_of_mem _ hp))
                  (List.Nodup.of_cons hnd) hsv1 hsubs1 hout'
                refine ⟨(n, vv) :: dv', ds', ?_, ?_, ?_, hdsw⟩
                · rw [hout1, hout2]
                  simp [ConfigSection.name, ConfigSection.argsRaw, ConfigSection.position,
                    ConfigSection.values, ConfigSection.subsectionsMap, List.append_assoc]
                · exact Aligned.value n t d rest dv' ds' vv hpair hal
                · intro p hp
                  rcases List.mem_cons.mp hp with hp1 | hp1
                  · subst hp1
                    exact hfo
                  · exact hdvf p hp1
            · simp at h
        · -- input post-state a section: impossible for a value container,
          -- but the branch is handled uniformly (input untouched)
          cases r1 with
          | error e =>
            rcases e with ⟨msg, pos⟩ | w
            · simp at h
            · simp at h
          | ok o =>
            rcases o with _ | vv | sp3
            · simp at h
            · simp only [] at h
              cases hreg : out0.register (.value vv) (some n) with
              | error ke =>
                rw [hreg] at h
                simp at h
              | ok out2 =>
                rw [hreg] at h
                have h2 : validateFields rest s out2 = (.ok out1, s3) := h
                obtain ⟨hfo, hrev1, hextra⟩ := hIdem (objOfOpt (s.get n)) (.value vv)
                  (.section sp2) hflat_in hr
                obtain ⟨⟨vv2, hvv2, hscal⟩, hpost⟩ := hextra t d rfl
                have hpair : validateC (.value t d) (.value vv) =
                    (.ok (.value vv), .value vv) := Prod.ext hrev1 hpost
                obtain ⟨hcont, hout2⟩ := register_value_ok_inv hreg
                have hsubs1 : ∀ p ∈ s.subsectionsMap,
                    keyMem p.1 rest = true → ∀ sub ∈ p.2, WfSec sub := by
                  intro p hp hk
                  exact hsubs p hp (by simp [keyMem, hk])
                have hout' : ∀ p ∈ rest, out2.contains p.1 = false := by
                  intro p hp
                  have hne : p.1 ≠ n := by
                    intro hq
                    have hmem : n ∈ rest.map Prod.fst := by
                      rw [← hq]
                      exact List.mem_map_of_mem _ hp
                    exact (List.nodup_cons.mp hnd).1 hmem
                  rw [register_contains_other hreg hne]
                  exact hout p (List.mem_cons_of_mem _ hp)
                obtain ⟨dv', ds', hout1, hal, hdvf, hdsw⟩ := ih s out2 out1 s3 h2
                  (fun p hp => hstab p (List.mem_cons_of_mem _ hp))
                  (List.Nodup.of_cons hnd) hsv hsubs1 hout'
                refine ⟨(n, vv) :: dv', ds', ?_, ?_, ?_, hdsw⟩
                · rw [hout1, hout2]
                  simp [ConfigSection.name, ConfigSection.argsRaw, ConfigSection.position,
                    ConfigSection.values, ConfigSection.subsectionsMap, List.append_assoc]
                · exact Aligned.value n t d rest dv' ds' vv hpair hal
                · intro p hp
                  rcases List.mem_cons.mp hp with hp1 | hp1
                  · subst hp1
                    exact hfo
                  · exact hdvf p hp1
            · simp at h
      next =>
        intro a1 b1 c1 d1 e1 f1 hcon
        exact Container.noConfusion hcon
    · -- a `Choice` field cannot be stable
      have hc := (hstab (n, Container.choice ch d) (by simp)).1
      cases hc
    · -- a `Section` field
      obtain ⟨hu2, hacS, hstfS, hndfS⟩ := stable_section_inv
        (hstab (n, Container.section a2 u2 rr1 rr2 au2 f2) (by simp)).1
      subst hu2
      have hIdemC := (hstab (n, Container.section a2 false rr1 rr2 au2 f2) (by simp)).2
      rw [validateFields] at h
      cases hg : keyGet n s.subsectionsMap with
      | some subs =>
        have hsub1 : (s.subsections n).1 = subs := by
          simp [ConfigSection.subsections, hg]
        have hsub2 : (s.subsections n).2 = s := by
          simp [ConfigSection.subsections, hg]
        rw [hsub1, hsub2] at h
        cases hb1 : rminGtRmax rr1 rr2 with
        | true =>
          rw [hb1] at h
          simp at h
        | false =>
          rw [hb1] at h
          cases hb2 : decide ((subs.length : Int) < rr1) with
          | true =>
            rw [hb2] at h
            simp at h
          | false =>
            rw [hb2] at h
            cases hb3 : countGtRmax (subs.length : Int) rr2 with
            | true =>
              rw [hb3] at h
              simp at h
            | false =>
              rw [hb3] at h
              cases hvs : validateSubs (.section a2 false rr1 rr2 au2 f2) false n
                  subs [] out0 with
              | mk vr vposts =>
                rw [hvs] at h
                cases vr with
                | error e => simp at h
                | ok out2acc =>
                  have h2 : validateFields rest (setSubsEntry s n vposts) out2acc =
                      (.ok out1, s3) := h
                  have hwfsubs : ∀ sub ∈ subs, WfSec sub := by
                    intro sub hs2
                    exact hsubs (n, subs) (keyGet_mem hg) (by simp [keyMem]) sub hs2
                  obtain ⟨vg, hlen, hvgp, hresacc⟩ :=
                    vs_ok hIdemC subs [] out0 out2acc vposts hvs hwfsubs
                  have hsv1 : ∀ p ∈ (setSubsEntry s n vposts).values,
                      FlatP p.2.value := hsv
                  have hsubs1 : ∀ p ∈ (setSubsEntry s n vposts).subsectionsMap,
                      keyMem p.1 rest = true → ∀ sub ∈ p.2, WfSec sub := by
                    intro p hp hk
                    rcases setEntry_mem hp with h3 | h3
                    · exact hsubs p h3 (by simp [keyMem, hk])
                    · exfalso
                      rw [h3] at hk
                      obtain ⟨q, hq, hq1⟩ := (keyMem_eq_true_iff _ rest).mp hk
                      have hmem : n ∈ rest.map Prod.fst := List.mem_map.mpr ⟨q, hq, hq1⟩
                      exact (List.nodup_cons.mp hnd).1 hmem
                  cases vg with
                  | nil =>
                    have hsubs0 : subs = [] := List.length_eq_zero.mp hlen.symm
                    subst hsubs0
                    have hout2acc : out2acc = out0 := by
                      rw [hresacc, regGroup_nil, ← sec_eta]
                    rw [hout2acc] at h2
                    obtain ⟨dv', ds', hout1, hal, hdvf, hdsw⟩ :=
                      ih (setSubsEntry s n vposts) out0 out1 s3 h2
                      (fun p hp => hstab p (List.mem_cons_of_mem _ hp))
                      (List.Nodup.of_cons hnd) hsv1 hsubs1
                      (fun p hp => hout p (List.mem_cons_of_mem _ hp))
                    refine ⟨dv', ds', hout1, ?_, hdvf, hdsw⟩
                    refine Aligned.secNil n a2 rr1 rr2 au2 f2 rest dv' ds' hb1 ?_ ?_ hal
                    · simpa using hb2
                    · simpa using hb3
                  | cons v1 vgr =>
                    have hvgne : v1 :: vgr ≠ [] := by simp
                    have hcont0 := hout (n, Container.section a2 false rr1 rr2 au2 f2)
                      (by simp)
                    have hcont0' : (keyMem n out0.values ||
                        keyMem n out0.subsectionsMap) = false := hcont0
                    have hkv0 : keyMem n out0.values = false :=
                      (Bool.or_eq_false_iff.mp hcont0').1
                    have hkm0 : keyMem n out0.subsectionsMap = false :=
                      (Bool.or_eq_false_iff.mp hcont0').2
                    have hout2acc : out2acc = .mk out0.name out0.argsRaw out0.position
                        out0.values (out0.subsectionsMap ++ [(n, v1 :: vgr)]) := by
                      rw [hresacc, regGroup_fresh hkm0 hvgne]
                    rw [hout2acc] at h2
                    have hout' : ∀ p ∈ rest,
                        (ConfigSection.mk out0.name out0.argsRaw out0.position
                          out0.values (out0.subsectionsMap ++ [(n, v1 :: vgr)])).contains
                          p.1 = false := by
                      intro p hp
                      have hne : p.1 ≠ n := by
                        intro hq
                        have hmem : n ∈ rest.map Prod.fst := by
                          rw [← hq]
                          exact List.mem_map_of_mem _ hp
                        exact (List.nodup_cons.mp hnd).1 hmem
                      have hc0 : (keyMem p.1 out0.values ||
                          keyMem p.1 out0.subsectionsMap) = false :=
                        hout p (List.mem_cons_of_mem _ hp)
                      show (keyMem p.1 out0.values ||
                        keyMem p.1 (out0.subsectionsMap ++ [(n, v1 :: vgr)])) = false
                      rw [keyMem_append]
                      have h1 : keyMem p.1 [(n, v1 :: vgr)] = false := by
                        simp [keyMem]
                        exact fun hq => hne hq.symm
                      rw [h1]
                      simpa using hc0
                    obtain ⟨dv', ds', hout1, hal, hdvf, hdsw⟩ :=
                      ih (setSubsEntry s n vposts) _ out1 s3 h2
                      (fun p hp => hstab p (List.mem_cons_of_mem _ hp))
                      (List.Nodup.of_cons hnd) hsv1 hsubs1 hout'
                    refine ⟨dv', (n, v1 :: vgr) :: ds', ?_, ?_, hdvf, ?_⟩
                    · rw [hout1]
                      simp [ConfigSection.name, ConfigSection.argsRaw,
                        ConfigSection.position, ConfigSection.values,
                        ConfigSection.subsectionsMap, List.append_assoc]
                    · refine Aligned.secCons n a2 rr1 rr2 au2 f2 rest dv' ds'
                        (v1 :: vgr) hvgne (fun sub hs => (hvgp sub hs).2) hb1 ?_ ?_ hal
                      · rw [hlen]
                        exact hb2
                      · rw [hlen]
                        exact hb3
                    · intro p hp
                      rcases List.mem_cons.mp hp with hp1 | hp1
                      · subst hp1
                        intro sub hs
                        exact (hvgp sub hs).1
                      · exact hdsw p hp1
      | none =>
        have hkm : keyMem n s.subsectionsMap = false := by
          rw [keyMem_eq_false_iff]
          exact (keyGet_eq_none_iff n s.subsectionsMap).mp hg
        have hsub1 : (s.subsections n).1 = [] := by
          simp [ConfigSection.subsections, hg]
        have hsub2 : (s.subsections n).2 = .mk s.name s.argsRaw s.position s.values
            (s.subsectionsMap ++ [(n, [])]) := by
          simp [ConfigSection.subsections, hg]
        rw [hsub1, hsub2] at h
        cases hb1 : rminGtRmax rr1 rr2 with
        | true =>
          rw [hb1] at h
          simp at h
        | false =>
          rw [hb1] at h
          cases hb2 : decide ((([] : List ConfigSection).length : Int) < rr1) with
          | true =>
            rw [hb2] at h
            simp at h
          | false =>
            rw [hb2] at h
            cases hb3 : countGtRmax ((([] : List ConfigSection).length : Int)) rr2 with
            | true =>
              rw [hb3] at h
              simp at h
            | false =>
              rw [hb3] at h
              have hvs : validateSubs (Container.section a2 false rr1 rr2 au2 f2)
                  false n [] [] out0 = (.ok out0, []) := by
                rw [validateSubs]
              rw [hvs] at h
              have hset : setSubsEntry
                  (.mk s.name s.argsRaw s.position s.values
                    (s.subsectionsMap ++ [(n, [])])) n [] =
                  .mk s.name s.argsRaw s.position s.values
                    (s.subsectionsMap ++ [(n, [])]) := by
                show ConfigSection.mk s.name s.argsRaw s.position s.values
                  (setEntry n [] (s.subsectionsMap ++ [(n, [])])) = _
                rw [setEntry_append_left _ _ hkm]
                simp [setEntry]
              have h2 : validateFields rest
                  (setSubsEntry (.mk s.name s.argsRaw s.position s.values
                    (s.subsectionsMap ++ [(n, [])])) n []) out0 = (.ok out1, s3) := h
              rw [hset] at h2
              have hsv1 : ∀ p ∈ (ConfigSection.mk s.name s.argsRaw s.position s.values
                  (s.subsectionsMap ++ [(n, [])])).values, FlatP p.2.value := hsv
              have hsubs1 : ∀ p ∈ (ConfigSection.mk s.name s.argsRaw s.position s.values
                  (s.subsectionsMap ++ [(n, [])])).subsectionsMap,
                  keyMem p.1 rest = true → ∀ sub ∈ p.2, WfSec sub := by
                intro p hp hk
                rcases List.mem_append.mp hp with h3 | h3
                · exact hsubs p h3 (by simp [keyMem, hk])
                · rw [List.mem_singleton.mp h3]
                  intro sub hs
                  simp at hs
              obtain ⟨dv', ds', hout1, hal, hdvf, hdsw⟩ :=
                ih (.mk s.name s.argsRaw s.position s.values
                  (s.subsectionsMap ++ [(n, [])])) out0 out1 s3 h2
                (fun p hp => hstab p (List.mem_cons_of_mem _ hp))
                (List.Nodup.of_cons hnd) hsv1 hsubs1
                (fun p hp => hout p (List.mem_cons_of_mem _ hp))
              refine ⟨dv', ds', hout1, ?_, hdvf, hdsw⟩
              refine Aligned.secNil n a2 rr1 rr2 au2 f2 rest dv' ds' hb1 ?_ ?_ hal
              · simpa using hb2
              · simpa using hb3

theorem filter_chain_rest {α : Type} (l : List (String × α)) (n : String)
    (c : Container) (rest : List (String × Container)) :
    l.filter (fun p => keyMem p.1 rest) =
      (l.filter (fun p => keyMem p.1 ((n, c) :: rest))).filter
        (fun p => keyMem p.1 rest) :=
  (filter_filter_imp l (fun a ha => by simp [keyMem, ha])).symm

theorem keyGet_decl {α : Type} (l : List (String × α)) (n : String)
    (c : Container) (rest : List (String × Container)) :
    keyGet n l = keyGet n (l.filter (fun p => keyMem p.1 ((n, c) :: rest))) :=
  (keyGet_filter_key (P := fun k => keyMem k ((n, c) :: rest)) (by simp [keyMem]) l).symm

theorem filter_key_not_head {α : Type} {n : String} {rest : List (String × Container)}
    (hnmem : n ∉ rest.map Prod.fst) (x : α) (l : List (String × α)) :
    ((n, x) :: l).filter (fun p => keyMem p.1 rest) =
      l.filter (fun p => keyMem p.1 rest) := by
  have hkm : keyMem n rest = false := by
    rw [keyMem_eq_false_iff]
    intro p hp hpn
    exact hnmem (List.mem_map.mpr ⟨p, hp, hpn⟩)
  simp [List.filter_cons, hkm]

/-- Second pass of the field loop: run `validateFields` on a section
whose declared entries are exactly the aligned `dv`/`ds` of a first
pass.  Every field revalidates to the same child and the accumulator
collects exactly `dv` and `ds` again. -/
theorem vf2 {fields : List (String × Container)} {dv : List (String × ConfigValue)}
    {ds : List (String × List ConfigSection)}
    (hal : Aligned fields dv ds) :
    ∀ (s2 out0 : ConfigSection),
    (fields.map Prod.fst).Nodup →
    s2.values.filter (fun p => keyMem p.1 fields) = dv →
    s2.subsectionsMap.filter (fun p => keyMem p.1 fields) = ds →
    (∀ p ∈ fields, out0.contains p.1 = false) →
    ∃ s3, validateFields fields s2 out0 =
      (.ok (.mk out0.name out0.argsRaw out0.position (out0.values ++ dv)
        (out0.subsectionsMap ++ ds)), s3) := by
  induction hal with
  | nil =>
    intro s2 out0 hnd hfv hfs hout
    refine ⟨s2, ?_⟩
    rw [validateFields]
    rw [List.append_nil, List.append_nil, ← sec_eta]
  | value n t d rest dv ds vv hpair halr iha =>
    intro s2 out0 hnd hfv hfs hout
    have hnmem : n ∉ rest.map Prod.fst := (List.nodup_cons.mp hnd).1
    have hkmrest : keyMem n rest = false := by
      rw [keyMem_eq_false_iff]
      intro p hp hpn
      exact hnmem (List.mem_map.mpr ⟨p, hp, hpn⟩)
    have hkv : keyGet n s2.values = some vv := by
      rw [keyGet_decl s2.values n (Container.value t d) rest, hfv]
      simp [keyGet]
    have hself : setValueEntry s2 n vv = s2 := by
      show ConfigSection.mk s2.name s2.argsRaw s2.position (setEntry n vv s2.values)
        s2.subsectionsMap = s2
      rw [setEntry_self hkv, ← sec_eta]
    have hcontn : out0.contains n = false :=
      hout (n, Container.value t d) (by simp)
    have hget : s2.get n = some vv := hkv
    have hfv' : s2.values.filter (fun p => keyMem p.1 rest) = dv := by
      rw [filter_chain_rest s2.values n (Container.value t d) rest, hfv,
        filter_key_not_head hnmem]
      exact filter_key_eq_self (P := fun k => keyMem k rest) (aligned_declared halr).1
    have hfs' : s2.subsectionsMap.filter (fun p => keyMem p.1 rest) = ds := by
      rw [filter_chain_rest s2.subsectionsMap n (Container.value t d) rest, hfs]
      exact filter_key_eq_self (P := fun k => keyMem k rest) (aligned_declared halr).2
    have hout' : ∀ p ∈ rest,
        (ConfigSection.mk out0.name out0.argsRaw out0.position
          (out0.values ++ [(n, vv)]) out0.subsectionsMap).contains p.1 = false := by
      intro p hp
      have hne : p.1 ≠ n := by
        intro hq
        exact hnmem (by rw [← hq]; exact List.mem_map_of_mem _ hp)
      have hc0 : (keyMem p.1 out0.values || keyMem p.1 out0.subsectionsMap) = false :=
        hout p (List.mem_cons_of_mem _ hp)
      show (keyMem p.1 (out0.values ++ [(n, vv)]) || keyMem p.1 out0.subsectionsMap) =
        false
      rw [keyMem_append]
      have h1 : keyMem p.1 [(n, vv)] = false := by
        simp [keyMem]
        exact fun hq => hne hq.symm
      rw [h1]
      simpa using hc0
    obtain ⟨s3, hrec⟩ := iha s2
      (.mk out0.name out0.argsRaw out0.position (out0.values ++ [(n, vv)])
        out0.subsectionsMap)
      (List.Nodup.of_cons hnd) hfv' hfs' hout'
    refine ⟨s3, ?_⟩
    rw [validateFields, hget]
    simp only [objOfOpt]
    rw [hpair]
    simp only []
    rw [register_value_ok vv hcontn]
    simp only []
    rw [hself, hrec]
    simp [ConfigSection.name, ConfigSection.argsRaw, ConfigSection.position,
      ConfigSection.values, ConfigSection.subsectionsMap, List.append_assoc]
    intro a1 b1 c1 d1 e1 f1 hcon
    exact Container.noConfusion hcon
  | secNil n a2 rr1 rr2 au2 f2 rest dv ds hb1 hb2 hb3 halr iha =>
    intro s2 out0 hnd hfv hfs hout
    have hnmem : n ∉ rest.map Prod.fst := (List.nodup_cons.mp hnd).1
    have hkmrest : keyMem n rest = false := by
      rw [keyMem_eq_false_iff]
      intro p hp hpn
      exact hnmem (List.mem_map.mpr ⟨p, hp, hpn⟩)
    have hgnone : keyGet n s2.subsectionsMap = none := by
      rw [keyGet_decl s2.subsectionsMap n (Container.section a2 false rr1 rr2 au2 f2)
        rest, hfs]
      rw [keyGet_eq_none_iff]
      intro p hp hpn
      have hd2 := (aligned_declared halr).2 p hp
      rw [hpn, hkmrest] at hd2
      exact Bool.false_ne_true hd2
    have hsubp : s2.subsections n =
        ([], .mk s2.name s2.argsRaw s2.position s2.values
          (s2.subsectionsMap ++ [(n, [])])) := by
      simp [ConfigSection.subsections, hgnone]
    have hsub1 : (s2.subsections n).1 = ([] : List ConfigSection) := by rw [hsubp]
    have hsub2 : (s2.subsections n).2 = .mk s2.name s2.argsRaw s2.position s2.values
        (s2.subsectionsMap ++ [(n, [])]) := by rw [hsubp]
    have hb2' : decide ((([] : List ConfigSection).length : Int) < rr1) = false := by
      simpa using hb2
    have hb3' : countGtRmax ((([] : List ConfigSection).length : Int)) rr2 = false := by
      simpa using hb3
    have hvs : validateSubs (Container.section a2 false rr1 rr2 au2 f2)
        false n [] [] out0 = (.ok out0, []) := by
      rw [validateSubs]
    have hkm2 : keyMem n s2.subsectionsMap = false := by
      rw [keyMem_eq_false_iff]
      exact (keyGet_eq_none_iff n s2.subsectionsMap).mp hgnone
    have hset : setSubsEntry
        (.mk s2.name s2.argsRaw s2.position s2.values
          (s2.subsectionsMap ++ [(n, [])])) n [] =
        .mk s2.name s2.argsRaw s2.position s2.values
          (s2.subsectionsMap ++ [(n, [])]) := by
      show ConfigSection.mk s2.name s2.argsRaw s2.position s2.values
        (setEntry n [] (s2.subsectionsMap ++ [(n, [])])) = _
      rw [setEntry_append_left _ _ hkm2]
      simp [setEntry]
    have hfv' : (ConfigSection.mk s2.name s2.argsRaw s2.position s2.values
        (s2.subsectionsMap ++ [(n, [])])).values.filter
        (fun p => keyMem p.1 rest) = dv := by
      show s2.values.filter (fun p => keyMem p.1 rest) = dv
      rw [filter_chain_rest s2.values n (Container.section a2 false rr1 rr2 au2 f2)
        rest, hfv]
      exact filter_key_eq_self (P := fun k => keyMem k rest) (aligned_declared halr).1
    have hfs' : (ConfigSection.mk s2.name s2.argsRaw s2.position s2.values
        (s2.subsectionsMap ++ [(n, [])])).subsectionsMap.filter
        (fun p => keyMem p.1 rest) = ds := by
      show (s2.subsectionsMap ++ [(n, [])]).filter (fun p => keyMem p.1 rest) = ds
      rw [List.filter_append]
      have h1 : ([(n, ([] : List ConfigSection))]).filter
          (fun p => keyMem p.1 rest) = [] := by
        simp [List.filter_cons, hkmrest]
      rw [h1, List.append_nil]
      rw [filter_chain_rest s2.subsectionsMap n
        (Container.section a2 false rr1 rr2 au2 f2) rest, hfs]
      exact filter_key_eq_self (P := fun k => keyMem k rest) (aligned_declared halr).2
    obtain ⟨s3, hrec⟩ := iha
      (.mk s2.name s2.argsRaw s2.position s2.values (s2.subsectionsMap ++ [(n, [])]))
      out0 (List.Nodup.of_cons hnd) hfv' hfs'
      (fun p hp => hout p (List.mem_cons_of_mem _ hp))
    refine ⟨s3, ?_⟩
    rw [validateFields, hsub1, hsub2, hb1]
    simp only [Bool.false_eq_true, if_false]
    rw [hb2']
    simp only [Bool.false_eq_true, if_false]
    rw [hb3']
    simp only [Bool.false_eq_true, if_false]
    rw [hvs]
    simp only []
    rw [hset, hrec]
  | secCons n a2 rr1 rr2 au2 f2 rest dv ds g hgne hrevg hb1 hb2 hb3 halr iha =>
    intro s2 out0 hnd hfv hfs hout
    have hnmem : n ∉ rest.map Prod.fst := (List.nodup_cons.mp hnd).1
    have hkmrest : keyMem n rest = false := by
      rw [keyMem_eq_false_iff]
      intro p hp hpn
      exact hnmem (List.mem_map.mpr ⟨p, hp, hpn⟩)
    have hgsome : keyGet n s2.subsectionsMap = some g := by
      rw [keyGet_decl s2.subsectionsMap n (Container.section a2 false rr1 rr2 au2 f2)
        rest, hfs]
      simp [keyGet]
    have hsubp : s2.subsections n = (g, s2) := by
      simp [ConfigSection.subsections, hgsome]
    have hsub1 : (s2.subsections n).1 = g := by rw [hsubp]
    have hsub2 : (s2.subsections n).2 = s2 := by rw [hsubp]
    have hcontn : out0.contains n = false :=
      hout (n, Container.section a2 false rr1 rr2 au2 f2) (by simp)
    have hcontn' : (keyMem n out0.values || keyMem n out0.subsectionsMap) = false :=
      hcontn
    have hkv0 : keyMem n out0.values = false := (Bool.or_eq_false_iff.mp hcontn').1
    have hkm0 : keyMem n out0.subsectionsMap = false :=
      (Bool.or_eq_false_iff.mp hcontn').2
    obtain ⟨posts, hvs⟩ := vs2 g out0 [] hrevg hkv0
    have hfv' : s2.values.filter (fun p => keyMem p.1 rest) = dv := by
      rw [filter_chain_rest s2.values n (Container.section a2 false rr1 rr2 au2 f2)
        rest, hfv]
      exact filter_key_eq_self (P := fun k => keyMem k rest) (aligned_declared halr).1
    have hfs' : (setSubsEntry s2 n posts).subsectionsMap.filter
        (fun p => keyMem p.1 rest) = ds := by
      show (setEntry n posts s2.subsectionsMap).filter (fun p => keyMem p.1 rest) = ds
      rw [filter_key_setEntry (P := fun k => keyMem k rest) hkmrest posts
        s2.subsectionsMap]
      rw [filter_chain_rest s2.subsectionsMap n
        (Container.section a2 false rr1 rr2 au2 f2) rest, hfs]
      rw [filter_key_not_head hnmem]
      exact filter_key_eq_self (P := fun k => keyMem k rest) (aligned_declared halr).2
    have hout' : ∀ p ∈ rest,
        (ConfigSection.mk out0.name out0.argsRaw out0.position out0.values
          (out0.subsectionsMap ++ [(n, g)])).contains p.1 = false := by
      intro p hp
      have hne : p.1 ≠ n := by
        intro hq
        exact hnmem (by rw [← hq]; exact List.mem_map_of_mem _ hp)
      have hc0 : (keyMem p.1 out0.values || keyMem p.1 out0.subsectionsMap) = false :=
        hout p (List.mem_cons_of_mem _ hp)
      show (keyMem p.1 out0.values ||
        keyMem p.1 (out0.subsectionsMap ++ [(n, g)])) = false
      rw [keyMem_append]
      have h1 : keyMem p.1 [(n, g)] = false := by
        simp [keyMem]
        exact fun hq => hne hq.symm
      rw [h1]
      simpa using hc0
    obtain ⟨s3, hrec⟩ := iha (setSubsEntry s2 n posts)
      (.mk out0.name out0.argsRaw out0.position out0.values
        (out0.subsectionsMap ++ [(n, g)]))
      (List.Nodup.of_cons hnd)
      (by
        show s2.values.filter (fun p => keyMem p.1 rest) = dv
        exact hfv')
      hfs' hout'
    refine ⟨s3, ?_⟩
    rw [validateFields, hsub1, hsub2, hb1]
    simp only [Bool.false_eq_true, if_false]
    rw [hb2]
    simp only [Bool.false_eq_true, if_false]
    rw [hb3]
    simp only [Bool.false_eq_true, if_false]
    rw [hvs]
    simp only []
    rw [regGroup_fresh hkm0 hgne, hrec]
    simp [ConfigSection.name, ConfigSection.argsRaw, ConfigSection.position,
      ConfigSection.values, ConfigSection.subsectionsMap, List.append_assoc]

theorem sweep_append (fields : List (String × Container)) (au : Bool) (nm : String) :
    ∀ (l1 l2 : List (String × Child)) (out : ConfigSection),
    sweepUnknown fields au nm (l1 ++ l2) out =
      (match sweepUnknown fields au nm l1 out with
       | .ok o => sweepUnknown fields au nm l2 o
       | .error e => .error e) := by
  intro l1
  induction l1 with
  | nil => intro l2 out; simp [sweepUnknown]
  | cons hd tl ih =>
    intro l2 out
    obtain ⟨n, child⟩ := hd
    by_cases hk : keyMem n fields = true
    · simp [sweepUnknown, hk, ih]
    · simp only [Bool.not_eq_true] at hk
      cases au with
      | false => simp [sweepUnknown, hk]
      | true =>
        cases hreg : out.register child (some n) with
        | ok o2 => simp [sweepUnknown, hk, hreg, ih]
        | error e => simp [sweepUnknown, hk, hreg]

theorem sweep_filter (fields : List (String × Container)) (au : Bool) (nm : String) :
    ∀ (items : List (String × Child)) (out : ConfigSection),
    sweepUnknown fields au nm items out =
      sweepUnknown fields au nm (items.filter (fun p => !keyMem p.1 fields)) out := by
  intro items
  induction items with
  | nil => intro out; rfl
  | cons hd tl ih =>
    intro out
    obtain ⟨n, child⟩ := hd
    by_cases hk : keyMem n fields = true
    · simp [sweepUnknown, hk, List.filter_cons, ih]
    · simp only [Bool.not_eq_true] at hk
      simp [sweepUnknown, hk, List.filter_cons, ih]

/-- Inversion of the unknown-value phase of the sweep: the values are
appended in order, their names fresh in the accumulator and
duplicate-free. -/
theorem sweepA_inv (fields : List (String × Container)) (au : Bool) (nm : String) :
    ∀ (uv : List (String × ConfigValue)) (S out2 : ConfigSection),
    sweepUnknown fields au nm (uv.map (fun p => (p.1, Child.value p.2))) S = .ok out2 →
    (∀ p ∈ uv, keyMem p.1 fields = false) →
    out2 = .mk S.name S.argsRaw S.position (S.values ++ uv) S.subsectionsMap ∧
    (∀ p ∈ uv, keyMem p.1 S.values = false ∧ keyMem p.1 S.subsectionsMap = false) ∧
    (uv.map Prod.fst).Nodup := by
  intro uv
  induction uv with
  | nil =>
    intro S out2 h hu
    simp only [List.map_nil, sweepUnknown, Except.ok.injEq] at h
    refine ⟨?_, by simp, by simp⟩
    rw [← h, List.append_nil, ← sec_eta]
  | cons hd tl ih =>
    intro S out2 h hu
    obtain ⟨n, v⟩ := hd
    have hk : keyMem n fields = false := hu (n, v) (by simp)
    cases au with
    | false =>
      simp [sweepUnknown, hk] at h
    | true =>
      simp only [List.map_cons] at h
      rw [sweepUnknown] at h
      rw [hk] at h
      simp only [Bool.false_eq_true, if_false, if_true] at h
      cases hreg : S.register (.value v) (some n) with
      | error ke =>
        rw [hreg] at h
        simp at h
      | ok S1 =>
        rw [hreg] at h
        obtain ⟨hcont, hS1⟩ := register_value_ok_inv hreg
        have hcont' : (keyMem n S.values || keyMem n S.subsectionsMap) = false := hcont
        have hkv : keyMem n S.values = false := (Bool.or_eq_false_iff.mp hcont').1
        have hks : keyMem n S.subsectionsMap = false := (Bool.or_eq_false_iff.mp hcont').2
        have h2 : sweepUnknown fields true nm
            (tl.map (fun p => (p.1, Child.value p.2))) S1 = .ok out2 := h
        rw [hS1] at h2
        obtain ⟨hout2, hfacts, hnd⟩ := ih _ out2 h2
          (fun p hp => hu p (List.mem_cons_of_mem _ hp))
        refine ⟨?_, ?_, ?_⟩
        · rw [hout2]
          simp [ConfigSection.name, ConfigSection.argsRaw, ConfigSection.position,
            ConfigSection.values, ConfigSection.subsectionsMap, List.append_assoc]
        · intro p hp
          rcases List.mem_cons.mp hp with hp1 | hp1
          · rw [hp1]
            exact ⟨hkv, hks⟩
          · have hf := hfacts p hp1
            have hf1 : keyMem p.1 (S.values ++ [(n, v)]) = false := hf.1
            rw [keyMem_append] at hf1
            obtain ⟨hf1a, hf1b⟩ := Bool.or_eq_false_iff.mp hf1
            exact ⟨hf1a, hf.2⟩
        · simp only [List.map_cons, List.nodup_cons]
          refine ⟨?_, hnd⟩
          intro hmem
          obtain ⟨p, hp, hp1⟩ := List.mem_map.mp hmem
          have hf : keyMem p.1 (S.values ++ [(n, v)]) = false := (hfacts p hp).1
          rw [keyMem_append] at hf
          obtain ⟨hf1a, hf1b⟩ := Bool.or_eq_false_iff.mp hf
          rw [hp1] at hf1b
          simp [keyMem] at hf1b

/-- Inversion of the registrations of one unknown subsection group:
successive occurrences of the same fresh name extend its entry. -/
theorem sweep_entry_inv (fields : List (String × Container)) (au : Bool) (nm : String)
    {n : String} :
    ∀ (g2 : List ConfigSection) (base : List (String × List ConfigSection))
      (p : List ConfigSection) (nm0 : String) (a0 : Option ConfigValue)
      (p0 : Position) (V : List (String × ConfigValue)) (out2 : ConfigSection),
    keyMem n fields = false →
    keyMem n base = false →
    sweepUnknown fields au nm (g2.map (fun sub => (n, Child.section sub)))
      (.mk nm0 a0 p0 V (base ++ [(n, p)])) = .ok out2 →
    out2 = .mk nm0 a0 p0 V (base ++ [(n, p ++ g2)]) := by
  intro g2
  induction g2 with
  | nil =>
    intro base p nm0 a0 p0 V out2 hk hb h
    simp only [List.map_nil, sweepUnknown, Except.ok.injEq] at h
    rw [← h, List.append_nil]
  | cons sub gtl ih =>
    intro base p nm0 a0 p0 V out2 hk hb h
    cases au with
    | false =>
      simp [sweepUnknown, hk] at h
    | true =>
      simp only [List.map_cons] at h
      rw [sweepUnknown] at h
      rw [hk] at h
      simp only [Bool.false_eq_true, if_false, if_true] at h
      cases hreg : (ConfigSection.mk nm0 a0 p0 V (base ++ [(n, p)])).register
          (.section sub) (some n) with
      | error ke =>
        rw [hreg] at h
        simp at h
      | ok S1 =>
        rw [hreg] at h
        obtain ⟨hkv, hS1⟩ := register_section_ok_inv hreg
        have h2 : sweepUnknown fields true nm
            (gtl.map (fun sub => (n, Child.section sub))) S1 = .ok out2 := h
        have hS1' : S1 = .mk nm0 a0 p0 V (base ++ [(n, p ++ [sub])]) := by
          rw [hS1]
          simp only [ConfigSection.name, ConfigSection.argsRaw, ConfigSection.position,
            ConfigSection.values, ConfigSection.subsectionsMap]
          rw [insertAppend_found_append p sub hb]
        rw [hS1'] at h2
        have hres := ih base (p ++ [sub]) nm0 a0 p0 V out2 hk hb h2
        rw [hres]
        simp

/-- Inversion of the unknown-subsection phase of the sweep: the
groups are appended to the subsections map in order. -/
theorem sweepB_inv (fields : List (String × Container)) (au : Bool) (nm : String) :
    ∀ (us : List (String × List ConfigSection)) (S out2 : ConfigSection),
    sweepUnknown fields au nm ((expandSubs us).map (fun q => (q.1, Child.section q.2)))
      S = .ok out2 →
    (∀ p ∈ us, keyMem p.1 fields = false) →
    (∀ p ∈ us, p.2 ≠ []) →
    (us.map Prod.fst).Nodup →
    (∀ p ∈ us, keyMem p.1 S.subsectionsMap = false) →
    out2 = .mk S.name S.argsRaw S.position S.values (S.subsectionsMap ++ us) := by
  intro us
  induction us with
  | nil =>
    intro S out2 h hu hne hnd hfresh
    simp only [expandSubs, List.flatMap_nil, List.map_nil, sweepUnknown,
      Except.ok.injEq] at h
    rw [← h, List.append_nil, ← sec_eta]
  | cons hd tl ih =>
    obtain ⟨n, g⟩ := hd
    intro S out2 h hu hne hnd hfresh
    have hk : keyMem n fields = false := hu (n, g) (by simp)
    have hfr : keyMem n S.subsectionsMap = false := hfresh (n, g) (by simp)
    cases g with
    | nil => exact absurd rfl (hne (n, []) (by simp))
    | cons g0 grest =>
      rw [expandSubs_cons] at h
      rw [List.map_append, sweep_append] at h
      cases hmid : sweepUnknown fields au nm
          (((g0 :: grest).map (fun sub => (n, sub))).map
            (fun q => (q.1, Child.section q.2))) S with
      | error e =>
        rw [hmid] at h
        simp at h
      | ok mid =>
        rw [hmid] at h
        have h2 : sweepUnknown fields au nm
            ((expandSubs tl).map (fun q => (q.1, Child.section q.2))) mid =
            .ok out2 := h
        -- the head group lands as one fresh entry
        have hmid2 : sweepUnknown fields au nm
            ((g0 :: grest).map (fun sub => (n, Child.section sub))) S = .ok mid := by
          rw [← hmid]
          congr 1
          rw [List.map_map]
          rfl
        have hmidval : mid = .mk S.name S.argsRaw S.position S.values
            (S.subsectionsMap ++ [(n, g0 :: grest)]) := by
          cases au with
          | false =>
            simp [sweepUnknown, hk] at hmid2
          | true =>
            simp only [List.map_cons] at hmid2
            rw [sweepUnknown] at hmid2
            rw [hk] at hmid2
            simp only [Bool.false_eq_true, if_false, if_true] at hmid2
            cases hreg : S.register (.section g0) (some n) with
            | error ke =>
              rw [hreg] at hmid2
              simp at hmid2
            | ok S1 =>
              rw [hreg] at hmid2
              obtain ⟨hkv, hS1⟩ := register_section_ok_inv hreg
              have h3 : sweepUnknown fields true nm
                  (grest.map (fun sub => (n, Child.section sub))) S1 = .ok mid := hmid2
              have hS1' : S1 = .mk S.name S.argsRaw S.position S.values
                  (S.subsectionsMap ++ [(n, [g0])]) := by
                rw [hS1, insertAppend_absent hfr]
              rw [hS1'] at h3
              have hres := sweep_entry_inv fields true nm grest S.subsectionsMap [g0]
                S.name S.argsRaw S.position S.values mid hk hfr h3
              rw [hres]
              simp
        rw [hmidval] at h2
        have hndtl : (tl.map Prod.fst).Nodup := List.Nodup.of_cons hnd
        have hfresh' : ∀ p ∈ tl,
            keyMem p.1 (ConfigSection.mk S.name S.argsRaw S.position S.values
              (S.subsectionsMap ++ [(n, g0 :: grest)])).subsectionsMap = false := by
          intro p hp
          show keyMem p.1 (S.subsectionsMap ++ [(n, g0 :: grest)]) = false
          rw [keyMem_append]
          have h1 : keyMem p.1 [(n, g0 :: grest)] = false := by
            simp [keyMem]
            intro hq
            exact absurd (List.mem_map.mpr ⟨p, hp, hq.symm⟩) (List.nodup_cons.mp hnd).1
          rw [h1, hfresh p (List.mem_cons_of_mem _ hp)]
          rfl
        have hres2 := ih _ out2 h2 (fun p hp => hu p (List.mem_cons_of_mem _ hp))
          (fun p hp => hne p (List.mem_cons_of_mem _ hp)) hndtl hfresh'
        rw [hres2]
        simp [ConfigSection.name, ConfigSection.argsRaw, ConfigSection.position,
          ConfigSection.values, ConfigSection.subsectionsMap, List.append_assoc]

/-- Structure of a successful unknown-key sweep over the post-state
input: the output extends the accumulator by exactly the undeclared
value entries and the non-empty undeclared subsection groups, in
order. -/
theorem sweep_ok_struct (fields : List (String × Container)) (au : Bool) (nm : String)
    (s3 out1 out2 : ConfigSection)
    (h : sweepUnknown fields au nm s3.iteritemsExpanded out1 = .ok out2)
    (hndk : (s3.subsectionsMap.map Prod.fst).Nodup)
    (hdecl_s : ∀ p ∈ out1.subsectionsMap, keyMem p.1 fields = true) :
    out2 = .mk out1.name out1.argsRaw out1.position
      (out1.values ++ s3.values.filter (fun p => !keyMem p.1 fields))
      (out1.subsectionsMap ++
        ((s3.subsectionsMap.filter (fun p => !keyMem p.1 fields)).filter
          (fun p => !p.2.isEmpty))) ∧
    (∀ p ∈ s3.values.filter (fun p => !keyMem p.1 fields),
      keyMem p.1 out1.values = false ∧ keyMem p.1 out1.subsectionsMap = false) ∧
    ((s3.values.filter (fun p => !keyMem p.1 fields)).map Prod.fst).Nodup := by
  rw [sweep_filter, items_filter] at h
  rw [sweep_append] at h
  cases hmid : sweepUnknown fields au nm
      ((s3.values.filter (fun p => !keyMem p.1 fields)).map
        (fun p => (p.1, Child.value p.2))) out1 with
  | error e =>
    rw [hmid] at h
    simp at h
  | ok mid =>
    rw [hmid] at h
    have h2 : sweepUnknown fields au nm
        ((expandSubs (s3.subsectionsMap.filter (fun p => !keyMem p.1 fields))).map
          (fun p => (p.1, Child.section p.2))) mid = .ok out2 := h
    have huv : ∀ p ∈ s3.values.filter (fun p => !keyMem p.1 fields),
        keyMem p.1 fields = false := by
      intro p hp
      have := List.of_mem_filter hp
      simpa using this
    obtain ⟨hmidval, hmidfacts, hmidnd⟩ := sweepA_inv fields au nm _ out1 mid hmid huv
    rw [← expandSubs_filter_ne_nil] at h2
    have hus : ∀ p ∈ (s3.subsectionsMap.filter
        (fun p => !keyMem p.1 fields)).filter (fun p => !p.2.isEmpty),
        keyMem p.1 fields = false := by
      intro p hp
      have hp2 := List.mem_of_mem_filter hp
      have := List.of_mem_filter hp2
      simpa using this
    have hne : ∀ p ∈ (s3.subsectionsMap.filter
        (fun p => !keyMem p.1 fields)).filter (fun p => !p.2.isEmpty), p.2 ≠ [] := by
      intro p hp
      have := List.of_mem_filter hp
      simp only [Bool.not_eq_true'] at this
      intro hq
      rw [hq] at this
      simp at this
    have hnd2 : (((s3.subsectionsMap.filter
        (fun p => !keyMem p.1 fields)).filter (fun p => !p.2.isEmpty)).map
        Prod.fst).Nodup := by
      apply List.Nodup.sublist _ hndk
      apply List.Sublist.map
      exact List.Sublist.trans (List.filter_sublist _) (List.filter_sublist _)
    have hfresh : ∀ p ∈ (s3.subsectionsMap.filter
        (fun p => !keyMem p.1 fields)).filter (fun p => !p.2.isEmpty),
        keyMem p.1 mid.subsectionsMap = false := by
      intro p hp
      have hundecl := hus p hp
      rw [hmidval]
      show keyMem p.1 out1.subsectionsMap = false
      cases hq : keyMem p.1 out1.subsectionsMap with
      | false => rfl
      | true =>
        obtain ⟨q, hq2, hq3⟩ := (keyMem_eq_true_iff _ _).mp hq
        have := hdecl_s q hq2
        rw [hq3] at this
        rw [hundecl] at this
        exact absurd this (by simp)
    have hres := sweepB_inv fields au nm _ mid out2 h2 hus hne hnd2 hfresh
    refine ⟨?_, ?_, hmidnd⟩
    · rw [hres, hmidval]
      simp [ConfigSection.name, ConfigSection.argsRaw, ConfigSection.position,
        ConfigSection.values, ConfigSection.subsectionsMap]
    · exact hmidfacts

theorem wfsec_inv {s : ConfigSection} (h : WfSec s) :
    (∀ v ∈ s.argsRaw, FlatP v.value) ∧ (∀ p ∈ s.values, FlatP p.2.value) ∧
    (s.values.map Prod.fst).Nodup ∧ (s.subsectionsMap.map Prod.fst).Nodup ∧
    (∀ p ∈ s.subsectionsMap, ∀ sub ∈ p.2, WfSec sub) := by
  cases h with
  | mk name args pos values subs h1 h2 h3 h4 h5 => exact ⟨h1, h2, h3, h4, h5⟩

/-- The body of `Section.validate` (fields then unknown-key sweep) on a
well-formed input produces a well-formed output section that the same
body maps to itself. -/
theorem body_idem (allowU : Bool) (fields : List (String × Container))
    (hstab : ∀ p ∈ fields, Stable p.2 ∧ IdemProp p.2)
    (hndf : (fields.map Prod.fst).Nodup)
    (sIn : ConfigSection) (argsOut : Option ConfigValue) (out q : Obj)
    (hargsflat : ∀ v ∈ argsOut, FlatP v.value)
    (hsv : ∀ p ∈ sIn.values, FlatP p.2.value)
    (hnds : (sIn.subsectionsMap.map Prod.fst).Nodup)
    (hsubswf : ∀ p ∈ sIn.subsectionsMap, ∀ sub ∈ p.2, WfSec sub)
    (hbody : validateSectionBody allowU fields sIn
      (.mk sIn.name argsOut sIn.position [] []) = (.ok out, q)) :
    ∃ out2, out = .section out2 ∧ WfSec out2 ∧
      out2.name = sIn.name ∧ out2.argsRaw = argsOut ∧ out2.position = sIn.position ∧
      ∃ s3x, validateSectionBody allowU fields out2
        (.mk sIn.name argsOut sIn.position [] []) = (.ok (.section out2), .section s3x) := by
  rw [validateSectionBody] at hbody
  cases hvf : validateFields fields sIn (.mk sIn.name argsOut sIn.position [] []) with
  | mk vfr s3 =>
    rw [hvf] at hbody
    cases vfr with
    | error e => simp at hbody
    | ok out1 =>
      simp only [] at hbody
      cases hsw : sweepUnknown fields allowU s3.name s3.iteritemsExpanded out1 with
      | error e =>
        rw [hsw] at hbody
        simp at hbody
      | ok out2 =>
        rw [hsw] at hbody
        have hb2 : ((Except.ok (Obj.section out2) : Except VErr Obj),
            (Obj.section s3 : Obj)) = (.ok out, q) := hbody
        simp only [Prod.mk.injEq, Except.ok.injEq] at hb2
        obtain ⟨houtv, hqv⟩ := hb2
        obtain ⟨dv, ds, hout1eq, hal, hdvf, hdsw⟩ := vf_ok fields sIn _ out1 s3 hvf
          hstab hndf hsv (fun p hp hk => hsubswf p hp) (fun p hp => rfl)
        have hout1' : out1 = .mk sIn.name argsOut sIn.position dv ds := hout1eq
        obtain ⟨hs3n, hs3a, hs3p, hs3v, hs3s, hs3nd⟩ := vf_undecl fields sIn _ out1 s3 hvf
        have hndk : (s3.subsectionsMap.map Prod.fst).Nodup := hs3nd hnds
        have hdecl1 : ∀ p ∈ out1.subsectionsMap, keyMem p.1 fields = true := by
          intro p hp
          rw [hout1'] at hp
          exact (aligned_declared hal).2 p hp
        obtain ⟨hout2eq, huvfacts, huvnd⟩ := sweep_ok_struct fields allowU s3.name
          s3 out1 out2 hsw hndk hdecl1
        have hout2' : out2 = .mk sIn.name argsOut sIn.position
            (dv ++ s3.values.filter (fun p => !keyMem p.1 fields))
            (ds ++ (s3.subsectionsMap.filter (fun p => !keyMem p.1 fields)).filter
              (fun p => !p.2.isEmpty)) := by
          rw [hout2eq, hout1']
          rfl
        have huvundecl : ∀ p ∈ s3.values.filter (fun p => !keyMem p.1 fields),
            keyMem p.1 fields = false := by
          intro p hp
          simpa using List.of_mem_filter hp
        have husundecl : ∀ p ∈ (s3.subsectionsMap.filter
            (fun p => !keyMem p.1 fields)).filter (fun p => !p.2.isEmpty),
            keyMem p.1 fields = false := by
          intro p hp
          simpa using List.of_mem_filter (List.mem_of_mem_filter hp)
        have huvflat : ∀ p ∈ s3.values.filter (fun p => !keyMem p.1 fields),
            FlatP p.2.value := by
          intro p hp
          rw [hs3v] at hp
          exact hsv p (List.mem_of_mem_filter hp)
        have huswf : ∀ p ∈ (s3.subsectionsMap.filter
            (fun p => !keyMem p.1 fields)).filter (fun p => !p.2.isEmpty),
            ∀ sub ∈ p.2, WfSec sub := by
          intro p hp
          have hp2 := List.mem_of_mem_filter hp
          rw [hs3s] at hp2
          exact hsubswf p (List.mem_of_mem_filter hp2)
        have husnd : (((s3.subsectionsMap.filter (fun p => !keyMem p.1 fields)).filter
            (fun p => !p.2.isEmpty)).map Prod.fst).Nodup := by
          apply List.Nodup.sublist _ hndk
          apply List.Sublist.map
          exact List.Sublist.trans (List.filter_sublist _) (List.filter_sublist _)
        have hdvnd : (dv.map Prod.fst).Nodup :=
          List.Nodup.sublist (aligned_keys_sublist hal).1 hndf
        have hdsnd : (ds.map Prod.fst).Nodup :=
          List.Nodup.sublist (aligned_keys_sublist hal).2 hndf
        have hdisjv : List.Disjoint (dv.map Prod.fst)
            ((s3.values.filter (fun p => !keyMem p.1 fields)).map Prod.fst) := by
          intro a ha hb
          obtain ⟨p, hp, hp1⟩ := List.mem_map.mp ha
          obtain ⟨p2, hp2, hp21⟩ := List.mem_map.mp hb
          have h1 := (aligned_declared hal).1 p hp
          have h2 := huvundecl p2 hp2
          rw [hp1] at h1
          rw [hp21] at h2
          rw [h1] at h2
          exact absurd h2 (by simp)
        have hdisjs : List.Disjoint (ds.map Prod.fst)
            (((s3.subsectionsMap.filter (fun p => !keyMem p.1 fields)).filter
              (fun p => !p.2.isEmpty)).map Prod.fst) := by
          intro a ha hb
          obtain ⟨p, hp, hp1⟩ := List.mem_map.mp ha
          obtain ⟨p2, hp2, hp21⟩ := List.mem_map.mp hb
          have h1 := (aligned_declared hal).2 p hp
          have h2 := husundecl p2 hp2
          rw [hp1] at h1
          rw [hp21] at h2
          rw [h1] at h2
          exact absurd h2 (by simp)
        have hwf2 : WfSec out2 := by
          rw [hout2']
          refine WfSec.mk sIn.name argsOut sIn.position _ _ hargsflat ?_ ?_ ?_ ?_
          · intro p hp
            rcases List.mem_append.mp hp with hp1 | hp1
            · exact hdvf p hp1
            · exact huvflat p hp1
          · rw [List.map_append]
            exact List.Nodup.append hdvnd huvnd hdisjv
          · rw [List.map_append]
            exact List.Nodup.append hdsnd husnd hdisjs
          · intro p hp
            rcases List.mem_append.mp hp with hp1 | hp1
            · exact hdsw p hp1
            · exact huswf p hp1
        have hfv2 : (ConfigSection.mk sIn.name argsOut sIn.position
            (dv ++ s3.values.filter (fun p => !keyMem p.1 fields))
            (ds ++ (s3.subsectionsMap.filter (fun p => !keyMem p.1 fields)).filter
              (fun p => !p.2.isEmpty))).values.filter
            (fun p => keyMem p.1 fields) = dv := by
          show ((dv ++ s3.values.filter (fun p => !keyMem p.1 fields)).filter
            (fun p => keyMem p.1 fields)) = dv
          rw [List.filter_append]
          have h1 : dv.filter (fun p => keyMem p.1 fields) = dv :=
            filter_key_eq_self (P := fun k => keyMem k fields) (aligned_declared hal).1
          have h2 : (s3.values.filter (fun p => !keyMem p.1 fields)).filter
              (fun p => keyMem p.1 fields) = [] :=
            filter_key_eq_nil (P := fun k => keyMem k fields) huvundecl
          rw [h1, h2, List.append_nil]
        have hfs2 : (ConfigSection.mk sIn.name argsOut sIn.position
            (dv ++ s3.values.filter (fun p => !keyMem p.1 fields))
            (ds ++ (s3.subsectionsMap.filter (fun p => !keyMem p.1 fields)).filter
              (fun p => !p.2.isEmpty))).subsectionsMap.filter
            (fun p => keyMem p.1 fields) = ds := by
          show ((ds ++ (s3.subsectionsMap.filter (fun p => !keyMem p.1 fields)).filter
            (fun p => !p.2.isEmpty)).filter (fun p => keyMem p.1 fields)) = ds
          rw [List.filter_append]
          have h1 : ds.filter (fun p => keyMem p.1 fields) = ds :=
            filter_key_eq_self (P := fun k => keyMem k fields) (aligned_declared hal).2
          have h2 : ((s3.subsectionsMap.filter (fun p => !keyMem p.1 fields)).filter
              (fun p => !p.2.isEmpty)).filter (fun p => keyMem p.1 fields) = [] :=
            filter_key_eq_nil (P := fun k => keyMem k fields) husundecl
          rw [h1, h2, List.append_nil]
        obtain ⟨s3x, hvf2⟩ := vf2 hal
          (.mk sIn.name argsOut sIn.position
            (dv ++ s3.values.filter (fun p => !keyMem p.1 fields))
            (ds ++ (s3.subsectionsMap.filter (fun p => !keyMem p.1 fields)).filter
              (fun p => !p.2.isEmpty)))
          (.mk sIn.name argsOut sIn.position [] []) hndf hfv2 hfs2 (fun p hp => rfl)
        obtain ⟨hs3n', hs3a', hs3p', hs3v', hs3s', hs3nd'⟩ :=
          vf_undecl fields _ _ _ _ hvf2
        have hname3 : s3x.name = sIn.name := hs3n'
        have he1 : s3x.values.filter (fun p => !keyMem p.1 fields) =
            s3.values.filter (fun p => !keyMem p.1 fields) := by
          rw [hs3v']
          show ((dv ++ s3.values.filter (fun p => !keyMem p.1 fields)).filter
            (fun p => !keyMem p.1 fields)) =
            s3.values.filter (fun p => !keyMem p.1 fields)
          rw [List.filter_append]
          have h1 : dv.filter (fun p => !keyMem p.1 fields) = [] := by
            apply filter_key_eq_nil (P := fun k => !keyMem k fields)
            intro p hp
            simp [(aligned_declared hal).1 p hp]
          have h2 : (s3.values.filter (fun p => !keyMem p.1 fields)).filter
              (fun p => !keyMem p.1 fields) =
              s3.values.filter (fun p => !keyMem p.1 fields) := by
            apply filter_key_eq_self (P := fun k => !keyMem k fields)
            intro p hp
            simp [huvundecl p hp]
          rw [h1, h2, List.nil_append]
        have he2 : s3x.subsectionsMap.filter (fun p => !keyMem p.1 fields) =
            (s3.subsectionsMap.filter (fun p => !keyMem p.1 fields)).filter
              (fun p => !p.2.isEmpty) := by
          rw [hs3s']
          show ((ds ++ (s3.subsectionsMap.filter (fun p => !keyMem p.1 fields)).filter
            (fun p => !p.2.isEmpty)).filter (fun p => !keyMem p.1 fields)) = _
          rw [List.filter_append]
          have h1 : ds.filter (fun p => !keyMem p.1 fields) = [] := by
            apply filter_key_eq_nil (P := fun k => !keyMem k fields)
            intro p hp
            simp [(aligned_declared hal).2 p hp]
          have h2 : ((s3.subsectionsMap.filter (fun p => !keyMem p.1 fields)).filter
              (fun p => !p.2.isEmpty)).filter (fun p => !keyMem p.1 fields) =
              (s3.subsectionsMap.filter (fun p => !keyMem p.1 fields)).filter
                (fun p => !p.2.isEmpty) := by
            apply filter_key_eq_self (P := fun k => !keyMem k fields)
            intro p hp
            simp [husundecl p hp]
          rw [h1, h2, List.nil_append]
        have hsweep2 : sweepUnknown fields allowU s3x.name s3x.iteritemsExpanded
            (.mk sIn.name argsOut sIn.position dv ds) = .ok out2 := by
          rw [sweep_filter, items_filter, he1, he2, hname3]
          have hsw1' := hsw
          rw [sweep_filter, items_filter] at hsw1'
          rw [← expandSubs_filter_ne_nil (s3.subsectionsMap.filter
            (fun p => !keyMem p.1 fields))] at hsw1'
          rw [hout1', hs3n] at hsw1'
          exact hsw1'
        refine ⟨out2, houtv.symm, hwf2, ?_, ?_, ?_, ⟨s3x, ?_⟩⟩
        · rw [hout2']
          rfl
        · rw [hout2']
          rfl
        · rw [hout2']
          rfl
        · rw [validateSectionBody, hout2', hvf2]
          simp only []
          have hsweep2' : sweepUnknown fields allowU s3x.name s3x.iteritemsExpanded
              (.mk (ConfigSection.mk sIn.name argsOut sIn.position
                  ([] : List (String × ConfigValue))
                  ([] : List (String × List ConfigSection))).name
                (ConfigSection.mk sIn.name argsOut sIn.position [] []).argsRaw
                (ConfigSection.mk sIn.name argsOut sIn.position [] []).position
                ((ConfigSection.mk sIn.name argsOut sIn.position [] []).values ++ dv)
                ((ConfigSection.mk sIn.name argsOut sIn.position
                  [] []).subsectionsMap ++ ds)) = .ok out2 := hsweep2
          rw [hsweep2']
          simp only []
          rw [← hout2']

/-- The section case of idempotence: given the induction hypothesis
for strictly smaller containers, a stable `Section` container
satisfies the idempotence invariant. -/
theorem section_idem (argsc : Option Container) (rmin : Int) (rmax : Option Int)
    (allowU : Bool) (fields : List (String × Container))
    (hIH : ∀ c2 : Container, sizeOf c2 <
      sizeOf (Container.section argsc false rmin rmax allowU fields) →
      Stable c2 → IdemProp c2)
    (hac : ∀ ac ∈ argsc, Stable ac)
    (hstf : ∀ p ∈ fields, Stable p.2)
    (hndf : (fields.map Prod.fst).Nodup) :
    IdemProp (.section argsc false rmin rmax allowU fields) := by
  have hszf : ∀ p ∈ fields, sizeOf p.2 <
      sizeOf (Container.section argsc false rmin rmax allowU fields) := by
    intro p hp
    have h1 : sizeOf p < sizeOf fields := List.sizeOf_lt_of_mem hp
    have h2 : sizeOf p.2 < sizeOf p := by
      obtain ⟨a, b⟩ := p
      simp
    simp only [Container.section.sizeOf_spec]
    omega
  have hsza : ∀ ac2 ∈ argsc, sizeOf ac2 <
      sizeOf (Container.section argsc false rmin rmax allowU fields) := by
    intro ac2 hmem
    cases argsc with
    | none => simp at hmem
    | some a0 =>
      have ha0 : ac2 = a0 := by
        have := hmem
        simp only [Option.mem_def, Option.some.injEq] at this
        exact this.symm
      subst ha0
      simp only [Container.section.sizeOf_spec, Option.some.sizeOf_spec]
      omega
  have hstab : ∀ p ∈ fields, Stable p.2 ∧ IdemProp p.2 :=
    fun p hp => ⟨hstf p hp, hIH p.2 (hszf p hp) (hstf p hp)⟩
  intro o out q hflat hval
  rcases o with _ | v | s
  · simp [validateC] at hval
  · simp [validateC] at hval
  · obtain ⟨hargsF, hsv, hndv, hnds, hsubswf⟩ := wfsec_inv hflat
    cases argsc with
    | none =>
      rw [validateC] at hval
      cases hargs : s.args with
      | some av0 =>
        rw [hargs] at hval
        simp at hval
      | none =>
        rw [hargs] at hval
        simp only [] at hval
        obtain ⟨out2, houteq, hwf2, hnm, hargR, hpos, s3x, hrev⟩ :=
          body_idem allowU fields hstab hndf s none out q (by simp) hsv hnds
            hsubswf hval
        subst houteq
        refine ⟨hwf2, ?_, ?_⟩
        · rw [validateC]
          have hargs2 : out2.args = none := by
            simp [ConfigSection.args, hargR]
          rw [hargs2]
          simp only []
          rw [hnm, hpos, hrev]
        · intro t2 d2 hc
          exact absurd hc (by simp)
    | some ac =>
      have hacs : Stable ac := hac ac (by simp)
      rw [validateC] at hval
      cases hr : validateC ac (objOfOpt s.argsRaw) with
      | mk r1 r2 =>
        rw [hr] at hval
        cases r1 with
        | error e =>
          rcases e with ⟨msg, pos⟩ | w
          · simp at hval
          · simp at hval
        | ok o2 =>
          rcases o2 with _ | av | spX
          · simp at hval
          · simp only [] at hval
            cases hacs with
            | value t d hd =>
              have hIdemA : IdemProp (.value t d) :=
                hIH (.value t d) (hsza (.value t d) (by simp)) (Stable.value t d hd)
              have hflatargs : FlatObj (objOfOpt s.argsRaw) := by
                cases hao : s.argsRaw with
                | none => simp [objOfOpt, FlatObj]
                | some v0 =>
                  have hm := hargsF v0 (by rw [hao]; simp)
                  simpa [objOfOpt, FlatObj] using hm
              obtain ⟨hfoA, hrevA, hextraA⟩ :=
                hIdemA (objOfOpt s.argsRaw) (.value av) r2 hflatargs hr
              obtain ⟨⟨av2, hav2, hscalA⟩, hpostA⟩ := hextraA t d rfl
              have hpairA : validateC (.value t d) (.value av) =
                  (.ok (.value av), .value av) := Prod.ext hrevA hpostA
              have hbodyc : validateSectionBody allowU fields
                  (sectionWithArgs s (optOfObj r2))
                  (.mk (sectionWithArgs s (optOfObj r2)).name (some av)
                    (sectionWithArgs s (optOfObj r2)).position [] []) =
                  (.ok out, q) := hval
              obtain ⟨out2, houteq, hwf2, hnm, hargR, hpos, s3x, hrev⟩ :=
                body_idem allowU fields hstab hndf (sectionWithArgs s (optOfObj r2))
                  (some av) out q
                  (by
                    intro v0 hv0
                    have hv0' : v0 = av := by
                      have := hv0
                      simp only [Option.mem_def, Option.some.injEq] at this
                      exact this.symm
                    subst hv0'
                    exact hfoA)
                  hsv hnds hsubswf hbodyc
              subst houteq
              refine ⟨hwf2, ?_, ?_⟩
              · rw [validateC]
                have hobj : objOfOpt out2.argsRaw = .value av := by
                  rw [hargR]
                  rfl
                rw [hobj, hpairA]
                simp only []
                have hopt : optOfObj (Obj.value av) = some av := rfl
                rw [hopt]
                have hsw2 : sectionWithArgs out2 (some av) = out2 := by
                  unfold sectionWithArgs
                  rw [← hargR]
                  exact (sec_eta out2).symm
                rw [hsw2, hnm, hpos, hrev]
              · intro t2 d2 hc
                exact absurd hc (by simp)
            | «section» a5 r15 r25 au5 f5 hac5 hstf5 hndf5 =>
              exfalso
              cases hao : s.argsRaw with
              | none =>
                rw [hao] at hr
                simp [validateC, objOfOpt] at hr
              | some v0 =>
                rw [hao] at hr
                simp [validateC, objOfOpt] at hr
          · simp at hval

/-- Idempotence of validation for every stable container. -/
theorem stable_idem : ∀ c : Container, Stable c → IdemProp c := by
  have main : ∀ N : Nat, ∀ c : Container, sizeOf c ≤ N → Stable c → IdemProp c := by
    intro N
    induction N with
    | zero =>
      intro c hle hst
      exfalso
      have hpos : 0 < sizeOf c := by
        cases c <;> simp_arith
      omega
    | succ N ihN =>
      intro c hle hst
      cases hst with
      | value t d hd => exact value_idem t d hd
      | «section» argsc rmin rmax allowU fields hac2 hstf2 hndf2 =>
        refine section_idem argsc rmin rmax allowU fields ?_ hac2 hstf2 hndf2
        intro c2 hlt hst2
        have hle2 : sizeOf c2 ≤ N := by omega
        exact ihN c2 hle2 hst2
  intro c hst
  exact main (sizeOf c) c (le_refl _) hst

/-- Claim C3 counterexample: with the schema
`Section{c: Choice({'on': True, 'off': False})}` the input `{c = 'on'}`
validates successfully to `{c = True}`, but validating that output
again fails with `'section top, key c, bad choice (must be one of
'on', 'off')'` — the validated payload `True` is no longer an
acceptable choice key.  Validation is therefore not idempotent in
general. -/
theorem c3_counterexample :
    validateC
      (.section none false 0 none false
        [("c", .choice [(.str "on", .bool true), (.str "off", .bool false)] none)])
      (.section (.mk "top" none sentinelPos
        [("c", ⟨some "c", .str "on", sentinelPos⟩)] [])) =
      (.ok (.section (.mk "top" none sentinelPos
        [("c", ⟨some "c", .bool true, sentinelPos⟩)] [])),
       .section (.mk "top" none sentinelPos
        [("c", ⟨some "c", .str "on", sentinelPos⟩)] [])) ∧
    (validateC
      (.section none false 0 none false
        [("c", .choice [(.str "on", .bool true), (.str "off", .bool false)] none)])
      (.section (.mk "top" none sentinelPos
        [("c", ⟨some "c", .bool true, sentinelPos⟩)] []))).1 =
      .error (.ve "section top, key c, bad choice (must be one of 'on', 'off')"
        none) := by
  constructor <;>
    simp [validateC, validateSectionBody, validateFields, choiceValidate, choiceStep,
      pyEq, pyRepr, numVal, ConfigSection.get, keyGet, ConfigSection.args,
      ConfigSection.argsRaw, ConfigSection.values, ConfigSection.subsectionsMap,
      ConfigSection.name, ConfigSection.position, objOfOpt, optOfObj, setValueEntry,
      setEntry, sweepUnknown, ConfigSection.iteritemsExpanded, expandSubs, keyMem,
      ConfigSection.register, ConfigSection.contains, Option.orElse, Except.map,
      String.intercalate, List.intercalate, rminGtRmax, countGtRmax]
  decide

/-- Claim C3 (amended): validation is idempotent for stable schemas on
well-formed inputs.  A container is stable when it contains no
`Choice`, every `Value` default is a non-list fixpoint of its declared
type, and every `Section` has `unique=False` and duplicate-free field
names; an input object is well-formed when its payloads are flat (as
the parser produces) with duplicate-free child keys.  Under these
conditions, if `Sch.validate(T)` succeeds with output `V`, then `V` is
well-formed and `Sch.validate(V)` succeeds and returns `V` itself. -/
theorem c3_validation_idempotent :
    ∀ (c : Container) (o out q : Obj),
      Stable c → FlatObj o → validateC c o = (.ok out, q) →
      FlatObj out ∧ (validateC c out).1 = .ok out := by
  intro c o out q hst hflat hval
  obtain ⟨h1, h2, h3⟩ := stable_idem c hst o out q hflat hval
  exact ⟨h1, h2⟩

theorem c3_validation_idempotent_witness :
    Stable (.section none false 0 none false
      [("x", .value (.integer none none) none)]) ∧
    FlatObj (.section (.mk "top" none sentinelPos
      [("x", ⟨some "x", .list [.int 42], sentinelPos⟩)] [])) ∧
    validateC
      (.section none false 0 none false
        [("x", .value (.integer none none) none)])
      (.section (.mk "top" none sentinelPos
        [("x", ⟨some "x", .list [.int 42], sentinelPos⟩)] [])) =
      (.ok (.section (.mk "top" none sentinelPos
        [("x", ⟨some "x", .int 42, sentinelPos⟩)] [])),
       .section (.mk "top" none sentinelPos
        [("x", ⟨some "x", .int 42, sentinelPos⟩)] [])) ∧
    (FlatObj (.section (.mk "top" none sentinelPos
        [("x", ⟨some "x", .int 42, sentinelPos⟩)] [])) ∧
      (validateC
        (.section none false 0 none false
          [("x", .value (.integer none none) none)])
        (.section (.mk "top" none sentinelPos
          [("x", ⟨some "x", .int 42, sentinelPos⟩)] []))).1 =
        .ok (.section (.mk "top" none sentinelPos
          [("x", ⟨some "x", .int 42, sentinelPos⟩)] []))) := by
  have hst : Stable (.section none false 0 none false
      [("x", .value (.integer none none) none)]) := by
    refine Stable.section none 0 none false _ ?_ ?_ ?_
    · intro ac hac
      simp at hac
    · intro p hp
      simp only [List.mem_singleton] at hp
      rw [hp]
      exact Stable.value (.integer none none) none (by simp)
    · simp
  have hfl : FlatObj (.section (.mk "top" none sentinelPos
      [("x", ⟨some "x", .list [.int 42], sentinelPos⟩)] [])) := by
    refine WfSec.mk _ _ _ _ _ ?_ ?_ ?_ ?_ ?_
    · intro v hv
      simp at hv
    · intro p hp
      simp only [List.mem_singleton] at hp
      rw [hp]
      simp [FlatP, ConfigValue.value, isListP]
    · simp
    · simp
    · intro p hp
      simp at hp
  have hval : validateC
      (.section none false 0 none false
        [("x", .value (.integer none none) none)])
      (.section (.mk "top" none sentinelPos
        [("x", ⟨some "x", .list [.int 42], sentinelPos⟩)] [])) =
      (.ok (.section (.mk "top" none sentinelPos
        [("x", ⟨some "x", .int 42, sentinelPos⟩)] [])),
       .section (.mk "top" none sentinelPos
        [("x", ⟨some "x", .int 42, sentinelPos⟩)] [])) := by
    simp [validateC, validateSectionBody, validateFields, valueValidate, valueTypeStep,
      typeValidate, numVal, ConfigSection.get, keyGet, ConfigSection.args,
      ConfigSection.argsRaw, ConfigSection.values, ConfigSection.subsectionsMap,
      ConfigSection.name, ConfigSection.position, objOfOpt, optOfObj, setValueEntry,
      setEntry, sweepUnknown, ConfigSection.iteritemsExpanded, expandSubs, keyMem,
      ConfigSection.register, ConfigSection.contains, Option.orElse, Except.map]
  exact ⟨hst, hfl, hval,
    c3_validation_idempotent
      (.section none false 0 none false
        [("x", .value (.integer none none) none)])
      (.section (.mk "top" none sentinelPos
        [("x", ⟨some "x", .list [.int 42], sentinelPos⟩)] []))
      (.section (.mk "top" none sentinelPos
        [("x", ⟨some "x", .int 42, sentinelPos⟩)] []))
      (.section (.mk "top" none sentinelPos
        [("x", ⟨some "x", .int 42, sentinelPos⟩)] []))
      hst hfl hval⟩
